import Mathlib

/-!
# modpack: The Player 6.1A pattern codec

A shallow embedding of `src/player61a.c` (channel-event encoder and decoder,
period table, track decompressor) with the properties of its specification.

Bytes (`uint8_t`) are natural numbers below 256, words (`uint16_t`) natural
numbers below 65536; every C mask and shift is kept as written.
-/

namespace Modpack

/-! ## Data model -/

/-- A MOD channel event: `protracker_channel_t`, four bytes `data[0..3]`. -/
structure protracker_channel_t where
  data0 : Nat
  data1 : Nat
  data2 : Nat
  data3 : Nat
deriving DecidableEq, Repr

/-- Every field of a MOD channel event is a byte. -/
def protracker_channel_t.wf (c : protracker_channel_t) : Prop :=
  c.data0 < 256 ∧ c.data1 < 256 ∧ c.data2 < 256 ∧ c.data3 < 256

instance (c : protracker_channel_t) : Decidable c.wf := by
  unfold protracker_channel_t.wf; infer_instance

/-- An effect: `protracker_effect_t`. `cmd` is the 4-bit command, `value` the
argument byte `data.value`; the union members `data.ext.cmd` and
`data.ext.value` are the high and the low nibble of `value`. -/
structure protracker_effect_t where
  cmd : Nat
  value : Nat
deriving DecidableEq, Repr

/-- Union member `data.ext.cmd`: the high nibble of the argument byte. -/
def protracker_effect_t.ext_cmd (e : protracker_effect_t) : Nat := e.value >>> 4

/-- Union member `data.ext.value`: the low nibble of the argument byte. -/
def protracker_effect_t.ext_value (e : protracker_effect_t) : Nat := e.value &&& 0x0f

/-- Assignment `effect.data.ext.cmd = x`: replaces the high nibble. -/
def protracker_effect_t.set_ext_cmd (e : protracker_effect_t) (x : Nat) : protracker_effect_t :=
  { e with value := (e.value &&& 0x0f) ||| ((x &&& 0x0f) <<< 4) }

/-- Assignment `effect.data.ext.value = x`: replaces the low nibble. -/
def protracker_effect_t.set_ext_value (e : protracker_effect_t) (x : Nat) : protracker_effect_t :=
  { e with value := (e.value &&& 0xf0) ||| (x &&& 0x0f) }

/-- A P61A channel event: `p61a_channel_t`, three bytes `data[0..2]`. -/
structure p61a_channel_t where
  data0 : Nat
  data1 : Nat
  data2 : Nat
deriving DecidableEq, Repr

/-- Every field of a P61A channel event is a byte. -/
def p61a_channel_t.wf (c : p61a_channel_t) : Prop :=
  c.data0 < 256 ∧ c.data1 < 256 ∧ c.data2 < 256

instance (c : p61a_channel_t) : Decidable c.wf := by
  unfold p61a_channel_t.wf; infer_instance

/-! ## MOD channel-event accessors -/

/-- Modelled from the spec: `protracker_get_sample` (declared in `protracker.h`,
body not in the sources). Section 4.3: sample = (b0 & 0xF0) | (b2 >> 4). -/
def protracker_get_sample (c : protracker_channel_t) : Nat :=
  (c.data0 &&& 0xf0) ||| (c.data2 >>> 4)

/-- Modelled from the spec: `protracker_get_period` (declared in `protracker.h`,
body not in the sources). Section 4.3: period = ((b0 & 0x0F) << 8) | b1. -/
def protracker_get_period (c : protracker_channel_t) : Nat :=
  ((c.data0 &&& 0x0f) <<< 8) ||| c.data1

/-- Modelled from the spec: `protracker_get_effect` (declared in `protracker.h`,
body not in the sources). Section 4.3: command = b2 & 0x0F, argument = b3. -/
def protracker_get_effect (c : protracker_channel_t) : protracker_effect_t :=
  { cmd := c.data2 &&& 0x0f, value := c.data3 }

/-- Modelled from the spec: `protracker_set_sample` (declared in `protracker.h`,
body not in the sources), the inverse of the sample accessor of section 4.3:
the high nibble goes to b0, the low nibble to the high half of b2. -/
def protracker_set_sample (c : protracker_channel_t) (sample : Nat) : protracker_channel_t :=
  { c with
    data0 := (c.data0 &&& 0x0f) ||| (sample &&& 0xf0)
    data2 := (c.data2 &&& 0x0f) ||| ((sample &&& 0x0f) <<< 4) }

/-- Modelled from the spec: `protracker_set_period` (declared in `protracker.h`,
body not in the sources), the inverse of the period accessor of section 4.3:
bits 8..11 go to the low nibble of b0, bits 0..7 to b1. -/
def protracker_set_period (c : protracker_channel_t) (period : Nat) : protracker_channel_t :=
  { c with
    data0 := (c.data0 &&& 0xf0) ||| ((period >>> 8) &&& 0x0f)
    data1 := period &&& 0xff }

/-- Modelled from the spec: `protracker_set_effect` (declared in `protracker.h`,
body not in the sources), the inverse of the effect accessor of section 4.3:
the command goes to the low nibble of b2, the argument to b3. -/
def protracker_set_effect (c : protracker_channel_t) (e : protracker_effect_t) : protracker_channel_t :=
  { c with
    data2 := (c.data2 &&& 0xf0) ||| (e.cmd &&& 0x0f)
    data3 := e.value }

/-! ## Constants of `player61a.c` -/

def CHANNEL_ALL : Nat := 0x00
def CHANNEL_COMMAND : Nat := 0x60
def CHANNEL_NOTE_INSTRUMENT : Nat := 0x70
def CHANNEL_EMPTY : Nat := 0x7f
def CHANNEL_COMPRESSED : Nat := 0x80

def COMPRESSION_CMD_BITS : Nat := 0xc0
def COMPRESSION_DATA_BITS : Nat := 0x3f

def COMPRESSION_EMPTY_ROWS : Nat := 0x00
def COMPRESSION_REPEAT_ROWS : Nat := 0x80
def COMPRESSION_JUMP : Nat := 0x40
def COMPRESSION_JUMP_LONG : Nat := 0x80

def PT_PATTERN_ROWS : Nat := 64

/-- The period table `periods[]`: three octaves of twelve semitones. -/
def periods : List Nat := [
  856,808,762,720,678,640,604,570,538,508,480,453,
  428,404,381,360,339,320,302,285,269,254,240,226,
  214,202,190,180,170,160,151,143,135,127,120,113]

/-- The loop of `index_from_period`, from table position `i` on: the first
position holding `period`, plus one; 0 when the table ends. -/
def index_from_period_loop (period : Nat) : List Nat → Nat → Nat
  | [], _ => 0
  | p :: rest, i => if p = period then i + 1 else index_from_period_loop period rest (i + 1)

/-- `index_from_period`: the 1-based position of `period` in the table,
0 when it is not there. -/
def index_from_period (period : Nat) : Nat :=
  index_from_period_loop period periods 0

/-- `period_from_index`: the table entry of a 1-based index, 0 for index 0
and for indices beyond the table. -/
def period_from_index (index : Nat) : Nat :=
  if index = 0 ∨ index > periods.length then 0 else periods.getD (index - 1) 0

/-- `get_channel_length`: the byte length of a P61A event, from byte 0. -/
def get_channel_length (channel : p61a_channel_t) : Nat :=
  if channel.data0 &&& CHANNEL_EMPTY = CHANNEL_EMPTY then 1
  else if channel.data0 &&& CHANNEL_NOTE_INSTRUMENT = CHANNEL_NOTE_INSTRUMENT then 2
  else if channel.data0 &&& CHANNEL_COMMAND = CHANNEL_COMMAND then 2
  else 3

/-! ## Encoding a channel event -/

/-- The effect rewriting of `to_p61a_channel`, first part: the initial
`has_command` and the `switch (effect.cmd)`. Returns the rewritten effect and
`has_command`. -/
def effect_switch (effect : protracker_effect_t) : protracker_effect_t × Bool :=
  let has_command : Bool := decide (effect.cmd + effect.value ≠ 0)
  match effect.cmd with
  | 0 => -- PT_CMD_ARPEGGIO
    (if effect.value ≠ 0 then { effect with cmd := 8 } else effect, has_command)
  | 1 | 2 => -- PT_CMD_SLIDE_UP, PT_CMD_SLIDE_DOWN
    (effect, decide (effect.value ≠ 0))
  | 12 => -- PT_CMD_SET_VOLUME
    ({ effect with value := if effect.value > 64 then 64 else effect.value }, has_command)
  | 8 => -- PT_CMD_8: 8xy -> E8y
    (({ effect with cmd := 14 }).set_ext_cmd 8, has_command)
  | 14 => -- PT_CMD_EXTENDED
    match effect.ext_cmd with
    | 0 => -- PT_ECMD_FILTER
      (effect.set_ext_value ((effect.ext_value &&& 1) <<< 1), has_command)
    | 12 => -- PT_ECMD_CUT_SAMPLE
      (if effect.ext_value = 0 then { cmd := 12, value := 0 } else effect, has_command)
    | 1 | 2 | 9 | 10 | 11 | 13 | 14 =>
      (effect, decide (effect.ext_value ≠ 0))
    | _ => (effect, has_command)
  | _ => (effect, has_command)

/-- The effect rewriting of `to_p61a_channel`: the `switch` and then the
clearing of the effect when `has_command` is false. Returns the effect that
is emitted and `has_command`. -/
def normalize_effect (effect : protracker_effect_t) : protracker_effect_t × Bool :=
  let r := effect_switch effect
  if r.2 then (r.1, true) else ({ cmd := 0, value := 0 }, false)

/-- What `to_p61a_channel` hands back: the event written to `out`, the
returned length, and the use-code after the call. -/
structure p61a_encoded_t where
  out : p61a_channel_t
  length : Nat
  usecode : Nat
deriving DecidableEq, Repr

/-- `to_p61a_channel`: encodes one MOD channel event. The parameters `row`
and `channel_index` of the C function are never read and are left out. -/
def to_p61a_channel (inp : protracker_channel_t) (usecode : Nat) : p61a_encoded_t :=
  let instrument := protracker_get_sample inp
  let period := protracker_get_period inp
  let note := index_from_period period
  let ne := normalize_effect (protracker_get_effect inp)
  let effect := ne.1
  let has_command := ne.2
  let usecode :=
    if has_command then
      (usecode ||| (if effect.cmd = 14 then 1 <<< (effect.ext_cmd + 16) else 1 <<< effect.cmd)) % 2 ^ 32
    else usecode
  if note = 0 ∧ instrument = 0 ∧ has_command = false then
    -- o1111111
    { out := ⟨CHANNEL_EMPTY, 0, 0⟩, length := 1, usecode := usecode }
  else if note ≠ 0 ∧ instrument ≠ 0 ∧ has_command = false then
    -- o1110nnn nnniiiii
    { out := ⟨CHANNEL_NOTE_INSTRUMENT ||| ((note >>> 3) &&& 0x7),
              ((note <<< 5) &&& 0xe0) ||| (instrument &&& 0x1f), 0⟩,
      length := 2, usecode := usecode }
  else if note = 0 ∧ instrument = 0 ∧ has_command = true then
    -- o110cccc bbbbbbbb
    { out := ⟨CHANNEL_COMMAND ||| (effect.cmd &&& 0x0f), effect.value, 0⟩,
      length := 2, usecode := usecode }
  else
    -- onnnnnni iiiicccc bbbbbbbb
    { out := ⟨CHANNEL_ALL ||| ((note <<< 1) &&& 0x7e) ||| ((instrument >>> 4) &&& 0x01),
              ((instrument <<< 4) &&& 0xf0) ||| (effect.cmd &&& 0x0f), effect.value⟩,
      length := 3, usecode := usecode }

/-! ## Decoding a channel event -/

/-- `to_protracker_channel`: the MOD event written to `out` (the C function
returns `true` on every path). -/
def to_protracker_channel (inp : p61a_channel_t) : protracker_channel_t :=
  let zero : protracker_channel_t := ⟨0, 0, 0, 0⟩
  let out : protracker_channel_t :=
    if inp.data0 &&& CHANNEL_EMPTY = CHANNEL_EMPTY then
      zero
    else if inp.data0 &&& CHANNEL_NOTE_INSTRUMENT = CHANNEL_NOTE_INSTRUMENT then
      let note := ((inp.data0 &&& 0x07) <<< 3) ||| ((inp.data1 &&& 0xe0) >>> 5)
      let sample := inp.data1 &&& 0x1f
      protracker_set_sample (protracker_set_period zero (period_from_index note)) sample
    else if inp.data0 &&& CHANNEL_COMMAND = CHANNEL_COMMAND then
      protracker_set_effect zero { cmd := inp.data0 &&& 0x0f, value := inp.data1 }
    else
      let note := (inp.data0 &&& 0x7e) >>> 1
      let sample := ((inp.data0 &&& 0x01) <<< 4) ||| ((inp.data1 &&& 0xf0) >>> 4)
      protracker_set_effect
        (protracker_set_sample (protracker_set_period zero (period_from_index note)) sample)
        { cmd := inp.data1 &&& 0x0f, value := inp.data2 }
  let effect := protracker_get_effect out
  if effect.cmd = 8 then -- PT_CMD_8
    protracker_set_effect out { effect with cmd := 0 }
  else out

/-! ## Decoding a track -/

/-- One pattern of P61A events, `p61a_pattern_t`, addressed as
`rows[row].channels[channel]`. The C array has `PT_PATTERN_ROWS` rows and the
decoder indexes it without a bound check, so a row index is any natural
number: rows from 64 on stand for the memory behind the pattern. -/
abbrev p61a_pattern_t := Nat → Nat → p61a_channel_t

/-- The zero-filled pattern (`memset(patterns, 0, ...)`). -/
def p61a_pattern_zero : p61a_pattern_t := fun _ _ => ⟨0, 0, 0⟩

/-- The assignment `pattern->rows[row].channels[channel_index] = out`. -/
def store_row (pattern : p61a_pattern_t) (row channel_index : Nat) (out : p61a_channel_t) :
    p61a_pattern_t :=
  fun r c => if r = row ∧ c = channel_index then out else pattern r c

/-- How a run of the decoder model can end without a row cursor. -/
inductive decode_error where
  /-- A byte was read outside the stream (undefined behaviour in C). -/
  | out_of_bounds
  /-- The model's step budget ran out (the C code is still running). -/
  | out_of_fuel
deriving DecidableEq, Repr

/-- The read `*track++` at position `track` of the byte stream `mem`. -/
def read_byte (mem : List Nat) (track : Nat) : Except decode_error Nat :=
  match mem[track]? with
  | some b => .ok b
  | none => .error .out_of_bounds

/-- The repeat loop `for (i = 0; i < rows; ++i) pattern->rows[offset++] = out`. -/
def repeat_rows (pattern : p61a_pattern_t) (channel_index offset : Nat) (out : p61a_channel_t) :
    Nat → p61a_pattern_t
  | 0 => pattern
  | rows + 1 => repeat_rows (store_row pattern offset channel_index out) channel_index (offset + 1) out rows

/-- What the first half of a loop iteration of `decompress_track` leaves:
the event `out`, the pattern, the row cursor and the read position. -/
structure read_event_t where
  out : p61a_channel_t
  pattern : p61a_pattern_t
  offset : Nat
  track : Nat

/-- The first half of a loop iteration of `decompress_track`: with `c0`
already read and `track` behind it, read the rest of the event by its shape
and store it at the row cursor. -/
def read_event (pattern : p61a_pattern_t) (channel_index offset : Nat) (mem : List Nat)
    (track c0 : Nat) : Except decode_error read_event_t :=
  if c0 &&& CHANNEL_EMPTY = CHANNEL_EMPTY then
    .ok { out := ⟨0, 0, 0⟩, pattern := pattern,
          offset := if c0 &&& CHANNEL_COMPRESSED = 0 then offset + 1 else offset,
          track := track }
  else if c0 &&& CHANNEL_NOTE_INSTRUMENT = CHANNEL_NOTE_INSTRUMENT then
    match read_byte mem track with
    | .error e => .error e
    | .ok c1 =>
      .ok { out := ⟨c0, c1, 0⟩, pattern := store_row pattern offset channel_index ⟨c0, c1, 0⟩,
            offset := offset + 1, track := track + 1 }
  else if c0 &&& CHANNEL_COMMAND = CHANNEL_COMMAND then
    match read_byte mem track with
    | .error e => .error e
    | .ok c1 =>
      .ok { out := ⟨c0, c1, 0⟩, pattern := store_row pattern offset channel_index ⟨c0, c1, 0⟩,
            offset := offset + 1, track := track + 1 }
  else
    match read_byte mem track with
    | .error e => .error e
    | .ok c1 =>
      match read_byte mem (track + 1) with
      | .error e => .error e
      | .ok c2 =>
        .ok { out := ⟨c0, c1, c2⟩, pattern := store_row pattern offset channel_index ⟨c0, c1, c2⟩,
              offset := offset + 1, track := track + 2 }

/-- The back distance of a jump directive and the read position behind it:
one byte, or two bytes big-endian when `COMPRESSION_JUMP_LONG` is set in `d0`
(`dist` is a `uint16_t`). `track` is the position behind `d0`. -/
def read_distance (mem : List Nat) (track d0 : Nat) : Except decode_error (Nat × Nat) :=
  match read_byte mem track with
  | .error e => .error e
  | .ok dist =>
    if d0 &&& COMPRESSION_JUMP_LONG ≠ 0 then
      match read_byte mem (track + 1) with
      | .error e => .error e
      | .ok d2 => .ok (((dist <<< 8) ||| d2) % 65536, track + 2)
    else .ok (dist, track + 1)

/-- `decompress_track`: decodes the track at position `track` of `mem` into
column `channel_index` of `pattern`, from row `offset` on, with row budget
`maxrows` (0: until the cursor reaches 64). Returns the pattern and the row
cursor. `fuel` bounds the nesting of loop iterations and recursive calls;
the parameters `deref` and `base` of the C function only feed the log and
are left out. A jump to a position before the start of `mem` reads outside
the stream. -/
def decompress_track : (fuel : Nat) → (pattern : p61a_pattern_t) →
    (channel_index offset maxrows : Nat) → (mem : List Nat) → (track : Nat) →
    Except decode_error (p61a_pattern_t × Nat)
  | 0, _, _, _, _, _, _ => .error .out_of_fuel
  | fuel + 1, pattern, channel_index, offset, maxrows, mem, track =>
    if ¬ offset < PT_PATTERN_ROWS then .ok (pattern, offset)
    else
      match read_byte mem track with
      | .error e => .error e
      | .ok c0 =>
        match read_event pattern channel_index offset mem (track + 1) c0 with
        | .error e => .error e
        | .ok ev =>
          -- the compression directive: pattern, row cursor and read position behind it
          let after : Except decode_error (p61a_pattern_t × Nat × Nat) :=
            if c0 &&& CHANNEL_COMPRESSED ≠ 0 then
              match read_byte mem ev.track with
              | .error e => .error e
              | .ok d0 =>
                if d0 &&& COMPRESSION_JUMP ≠ 0 then
                  let rows := (d0 &&& COMPRESSION_DATA_BITS) + 1
                  match read_distance mem (ev.track + 1) d0 with
                  | .error e => .error e
                  | .ok (dist, track) =>
                    if dist > track then .error .out_of_bounds
                    else
                      match decompress_track fuel ev.pattern channel_index ev.offset rows mem
                          (track - dist) with
                      | .error e => .error e
                      | .ok (pattern, offset) => .ok (pattern, offset, track)
                else if d0 &&& COMPRESSION_REPEAT_ROWS ≠ 0 then
                  let rows := d0 &&& COMPRESSION_DATA_BITS
                  .ok (repeat_rows ev.pattern channel_index ev.offset ev.out rows,
                       ev.offset + rows, ev.track + 1)
                else if d0 &&& COMPRESSION_CMD_BITS = COMPRESSION_EMPTY_ROWS then
                  let rows := d0 &&& COMPRESSION_DATA_BITS
                  .ok (ev.pattern, ev.offset + rows, ev.track + 1)
                else .ok (ev.pattern, ev.offset, ev.track + 1)
            else .ok (ev.pattern, ev.offset, ev.track)
          match after with
          | .error e => .error e
          | .ok (pattern, offset, track) =>
            -- if (maxrows > 0 && ((--maxrows) == 0)) break;
            if maxrows > 0 ∧ maxrows - 1 = 0 then .ok (pattern, offset)
            else decompress_track fuel pattern channel_index offset
                   (if maxrows > 0 then maxrows - 1 else maxrows) mem track

/-! ## Shapes of a P61A event -/

/-- The four shapes of a P61A event. -/
inductive p61a_shape where
  | empty
  | note_instrument
  | command
  | full
deriving DecidableEq, Repr

/-- The shape of an event with first byte `c0`: the chain of tests on byte 0
that `get_channel_length`, `to_protracker_channel` and `decompress_track`
share, in their order. -/
def p61a_shape_of (c0 : Nat) : p61a_shape :=
  if c0 &&& CHANNEL_EMPTY = CHANNEL_EMPTY then .empty
  else if c0 &&& CHANNEL_NOTE_INSTRUMENT = CHANNEL_NOTE_INSTRUMENT then .note_instrument
  else if c0 &&& CHANNEL_COMMAND = CHANNEL_COMMAND then .command
  else .full

/-- The MOD event with the given period, sample index, command and argument:
the three setters applied to the zeroed event, in the order in which
`to_protracker_channel` applies them. -/
def mod_event (period sample cmd value : Nat) : protracker_channel_t :=
  protracker_set_effect
    (protracker_set_sample (protracker_set_period ⟨0, 0, 0, 0⟩ period) sample)
    { cmd := cmd, value := value }

/-- The command and argument fields of a P61A event, read by its shape as
`to_protracker_channel` reads them: `o110cccc bbbbbbbb` for the effect-only
shape, `onnnnnni iiiicccc bbbbbbbb` for the full shape. The empty and the
note+instrument shape carry no effect. -/
def p61a_effect (c : p61a_channel_t) : Option protracker_effect_t :=
  match p61a_shape_of c.data0 with
  | .command => some { cmd := c.data0 &&& 0x0f, value := c.data1 }
  | .full => some { cmd := c.data1 &&& 0x0f, value := c.data2 }
  | _ => none

/-- The stream holds `count` events in a row from position `track` on, each
complete and none with the compression bit: no directive follows any of
them. The length of an event is read off its first byte as
`get_channel_length` does. -/
def plain_run (mem : List Nat) : (track count : Nat) → Bool
  | _, 0 => true
  | track, count + 1 =>
    match mem[track]? with
    | none => false
    | some c0 =>
      decide (c0 &&& CHANNEL_COMPRESSED = 0) &&
      decide (track + get_channel_length ⟨c0, 0, 0⟩ ≤ mem.length) &&
      plain_run mem (track + get_channel_length ⟨c0, 0, 0⟩) count

/-! ## The module and its P61A image -/

def PT_NUM_SAMPLES : Nat := 31
def PT_NUM_POSITIONS : Nat := 128
def PT_NUM_CHANNELS : Nat := 4

/-- A sample header of a MOD module: `protracker_sample_t` without the name,
which the P61A code never reads. `length`, `repeat_offset` and
`repeat_length` are `uint16_t` counts of words, `finetone` and `volume` are
bytes. -/
structure protracker_sample_t where
  length : Nat
  finetone : Nat
  volume : Nat
  repeat_offset : Nat
  repeat_length : Nat
deriving DecidableEq, Repr

/-- Every field of a MOD sample header fits its C type. -/
def protracker_sample_t.wf (s : protracker_sample_t) : Prop :=
  s.length < 65536 ∧ s.finetone < 256 ∧ s.volume < 256 ∧
  s.repeat_offset < 65536 ∧ s.repeat_length < 65536

instance (s : protracker_sample_t) : Decidable s.wf := by
  unfold protracker_sample_t.wf; infer_instance

/-- The song order of a MOD module: `protracker_song_t`, with the 128
position bytes as a list. -/
structure protracker_song_t where
  length : Nat
  restart_position : Nat
  positions : List Nat
deriving DecidableEq, Repr

/-- One pattern of MOD events, `protracker_pattern_t`, addressed as
`rows[row].channels[channel]`. -/
abbrev protracker_pattern_t := Nat → Nat → protracker_channel_t

/-- A MOD module: `protracker_t` without the song name, which the P61A code
never reads. `num_patterns` is the length of `patterns`; `sample_headers i`
is the header of slot `i`, and `sample_data i k` is byte `k` behind the
pointer `sample_data[i]`. -/
structure protracker_t where
  song : protracker_song_t
  patterns : List protracker_pattern_t
  sample_headers : Nat → protracker_sample_t
  sample_data : Nat → Nat → Nat

/-- Modelled from the spec: `p61a_sample_t` (declared in `player61a.h`, which
is not in the sources). Section 4.6 gives the fields of a sample-table record:
length u16, finetone u8, volume u8, repeat_offset u16. -/
structure p61a_sample_t where
  length : Nat
  finetone : Nat
  volume : Nat
  repeat_offset : Nat
deriving DecidableEq, Repr

/-- Modelled from the spec: `p61a_song_t` (declared in `player61a.h`, which is
not in the sources): the song length and the 128 position bytes that
`build_patterns` copies and `read_song_positions` fills. -/
structure p61a_song_t where
  length : Nat
  positions : List Nat
deriving DecidableEq, Repr

/-- Modelled from the spec: `player61a_t` (declared in `player61a.h`, which is
not in the sources), with the fields `player61a.c` uses: the header counts,
the sample headers by slot, the pattern offsets by pattern and channel, the
song, and the two byte buffers `patterns` and `samples`. -/
structure player61a_t where
  pattern_count : Nat
  sample_count : Nat
  sample_headers : Nat → p61a_sample_t
  pattern_offsets : Nat → Nat → Nat
  song : p61a_song_t
  patterns : List Nat
  samples : List Nat

/-- Modelled from the spec: the answers of `has_option` (declared in
`options.h`, which is not in the sources) for the three options that
`player61a_convert` and `write_song` ask for: `sign` (default false), `song`
and `samples` (default true). -/
structure p61a_options_t where
  sign : Bool
  song : Bool
  samples : Bool
deriving DecidableEq, Repr

/-- The four bytes of `signature`, "P61A". -/
def signature : List Nat := [0x50, 0x36, 0x31, 0x41]

/-- Modelled from the spec: the two bytes `buffer_add` copies for a
`uint16_t` that went through `end_htobe16` (declared in `endianness.h`, which
is not in the sources): big-endian, high byte first. -/
def be16_bytes (x : Nat) : List Nat := [(x % 65536) / 256, x % 256]

/-- Modelled from the spec: `sizeof(p61a_header_t)`, the 4-byte header of
section 4.6. -/
def sizeof_p61a_header_t : Nat := 4

/-- Modelled from the spec: `sizeof(p61a_sample_t)`, the bytes of the fields
of a sample-table record in section 4.6 (2 + 1 + 1 + 2). -/
def sizeof_p61a_sample_t : Nat := 6

/-- Modelled from the spec: `sizeof(p61a_pattern_offset_t)`, four u16 values
(section 4.6). -/
def sizeof_p61a_pattern_offset_t : Nat := 8

/-- `player61a_create`: the zeroed module with two empty buffers. -/
def player61a_create : player61a_t :=
  { pattern_count := 0, sample_count := 0, sample_headers := fun _ => ⟨0, 0, 0, 0⟩,
    pattern_offsets := fun _ _ => 0, song := ⟨0, List.replicate PT_NUM_POSITIONS 0⟩,
    patterns := [], samples := [] }

/-- The header `build_samples` writes for a used slot (the three branches of
its loop body): empty, looping, not looping. `length` is a `uint16_t`. -/
def build_sample_header (input : protracker_sample_t) : p61a_sample_t :=
  if input.length = 0 then
    { length := 1, finetone := 0, volume := 0, repeat_offset := 0xffff }
  else if input.repeat_length > 1 then
    { length := (input.repeat_offset + input.repeat_length) % 65536,
      finetone := input.finetone,
      volume := if input.volume > 64 then 64 else input.volume,
      repeat_offset := input.repeat_offset }
  else
    { length := input.length,
      finetone := input.finetone,
      volume := if input.volume > 64 then 64 else input.volume,
      repeat_offset := 0xffff }

/-- The bytes `build_samples` appends to `output->samples` for a used slot:
`length * 2` bytes from `sample_data[i]` when the module's length is not 0,
with `length` as set by the looping or the non-looping branch, and the two
bytes of a zero `uint16_t` otherwise. `data` is a function of the byte index,
while `sample_data[i]` is a buffer of the module's `length * 2` bytes: the
model is the C copy where the header's length is at most the module's
length (a loop inside the sample); a longer copy reads behind the buffer in
C. -/
def build_sample_payload (input : protracker_sample_t) (data : Nat → Nat) : List Nat :=
  if input.length > 0 then
    (List.range ((build_sample_header input).length * 2)).map data
  else [0, 0]

/-- The loop of `build_samples` over the slots in `slots`. -/
def build_samples_loop (module : protracker_t) (usage : Nat → Bool) :
    List Nat → player61a_t × Nat → player61a_t × Nat
  | [], s => s
  | i :: rest, (output, usecode) =>
    if usage i = false then build_samples_loop module usage rest (output, usecode)
    else
      let input := module.sample_headers i
      let sample := build_sample_header input
      let usecode := if sample.finetone ≠ 0 then (usecode ||| 1) % 2 ^ 32 else usecode
      build_samples_loop module usage rest
        ({ output with
            sample_headers := fun k => if k = i then sample else output.sample_headers k
            samples := output.samples ++ build_sample_payload input (module.sample_data i) },
         usecode)

/-- Modelled from the spec: the value `protracker_get_used_samples` returns
(declared in `protracker.h`, body not in the sources): the number of used
slots of the usage table it fills. -/
def used_sample_count (usage : Nat → Bool) : Nat :=
  ((List.range PT_NUM_SAMPLES).filter (fun i => usage i)).length

/-- `build_samples`, with the usage table that `protracker_get_used_samples`
fills as a parameter. Returns the output module and the use-code. -/
def build_samples (output : player61a_t) (module : protracker_t) (usage : Nat → Bool)
    (usecode : Nat) : player61a_t × Nat :=
  let r := build_samples_loop module usage (List.range PT_NUM_SAMPLES) (output, usecode)
  ({ r.1 with sample_count := used_sample_count usage % 256 }, r.2)

/-- The loop of `build_track` over the rows in `rows`. -/
def build_track_loop (pattern : protracker_pattern_t) (channel_index : Nat) :
    List Nat → List p61a_channel_t × Nat → List p61a_channel_t × Nat
  | [], s => s
  | i :: rest, (channel, usecode) =>
    let r := to_p61a_channel (pattern i channel_index) usecode
    build_track_loop pattern channel_index rest (channel ++ [r.out], r.usecode)

/-- `build_track`: the 64 events of one channel of a pattern, and the
use-code. The C function fills `channel[0..63]` and returns 64. -/
def build_track (pattern : protracker_pattern_t) (channel_index usecode : Nat) :
    List p61a_channel_t × Nat :=
  build_track_loop pattern channel_index (List.range PT_PATTERN_ROWS) ([], usecode)

/-- The bytes `buffer_add(&(output->patterns), channel, get_channel_length(channel))`
appends: the first bytes of the event, as many as its shape has. -/
def channel_bytes (channel : p61a_channel_t) : List Nat :=
  [channel.data0, channel.data1, channel.data2].take (get_channel_length channel)

/-- The inner loop of `build_patterns`, over the patterns from index `i` on,
for channel `j`: record the offset of the track, then append its events. -/
def build_patterns_inner (j : Nat) :
    List protracker_pattern_t → Nat → player61a_t × Nat → player61a_t × Nat
  | [], _, s => s
  | pattern :: rest, i, (output, usecode) =>
    let tr := build_track pattern j usecode
    let offset := output.patterns.length
    build_patterns_inner j rest (i + 1)
      ({ output with
          pattern_offsets := fun i' j' =>
            if i' = i ∧ j' = j then offset % 65536 else output.pattern_offsets i' j'
          patterns := output.patterns ++ tr.1.flatMap channel_bytes },
       tr.2)

/-- The outer loop of `build_patterns`, over the channels in `channels`. -/
def build_patterns_outer (patterns : List protracker_pattern_t) :
    List Nat → player61a_t × Nat → player61a_t × Nat
  | [], s => s
  | j :: rest, s => build_patterns_outer patterns rest (build_patterns_inner j patterns 0 s)

/-- `build_patterns`: copies the pattern count (a byte) and the song, and lays
out the tracks channel by channel. -/
def build_patterns (output : player61a_t) (input : protracker_t) (usecode : Nat) :
    player61a_t × Nat :=
  build_patterns_outer input.patterns (List.range PT_NUM_CHANNELS)
    ({ output with
        pattern_count := input.patterns.length % 256
        song := ⟨input.song.length, input.song.positions⟩ },
     usecode)

/-- `get_sample_offset`: the size of the song part, made even. -/
def get_sample_offset (module : player61a_t) : Nat :=
  let curr := sizeof_p61a_header_t + sizeof_p61a_sample_t * module.sample_count +
    sizeof_p61a_pattern_offset_t * module.pattern_count + (module.song.length + 1) +
    module.patterns.length
  if curr % 2 = 1 then curr + 1 else curr

/-- The sample-table record `write_song` writes for one P61A sample header. -/
def write_sample_record (inp : p61a_sample_t) : List Nat :=
  if inp.length ≠ 0 then
    be16_bytes inp.length ++ [inp.finetone, inp.volume] ++ be16_bytes inp.repeat_offset
  else
    be16_bytes 1 ++ [0, 0] ++ be16_bytes 0xffff

/-- `write_song`: appends the song part to `buffer`: the signature when asked
for, the header, the sample table, the pattern offsets, the positions with
their terminator, the tracks, and a zero byte when the buffer is odd. The C
code copies `song.length` bytes from the array `positions`; the model takes
the first `song.length` entries of the list, which is that copy for a song
length up to the number of positions the list holds (128 in a module). -/
def write_song (buffer : List Nat) (module : player61a_t) (options : p61a_options_t) :
    List Nat :=
  let buffer := if options.sign then buffer ++ signature else buffer
  let buffer := buffer ++
    (be16_bytes (get_sample_offset module) ++ [module.pattern_count, module.sample_count])
  let buffer := buffer ++
    (List.range module.sample_count).flatMap (fun i => write_sample_record (module.sample_headers i))
  let buffer := buffer ++
    (List.range module.pattern_count).flatMap (fun i =>
      (List.range PT_NUM_CHANNELS).flatMap (fun j => be16_bytes (module.pattern_offsets i j)))
  let buffer := buffer ++ module.song.positions.take module.song.length ++ [0xff]
  let buffer := buffer ++ module.patterns
  if buffer.length % 2 = 1 then buffer ++ [0] else buffer

/-- `write_samples`: appends the sample payloads to `buffer`. -/
def write_samples (buffer : List Nat) (module : player61a_t) : List Nat :=
  buffer ++ module.samples

/-- The module `player61a_convert` builds before it writes: `build_samples`
and then `build_patterns` on the created module. -/
def player61a_build (module : protracker_t) (usage : Nat → Bool) : player61a_t :=
  let s := build_samples player61a_create module usage 0
  (build_patterns s.1 module s.2).1

/-- `player61a_convert`: the buffer after the call (the C function returns
`true` on every path). The usage table of `protracker_get_used_samples` is a
parameter. -/
def player61a_convert (buffer : List Nat) (module : protracker_t) (usage : Nat → Bool)
    (options : p61a_options_t) : List Nat :=
  let temp := player61a_build module usage
  let buffer := if options.song then write_song buffer temp options else buffer
  if options.samples then write_samples buffer temp else buffer

/-- The sample-header conversion of `player61a_load`: the MOD header made
from a P61A sample header. The subtraction is stored in a `uint16_t`. -/
def load_sample_header (inp : p61a_sample_t) : protracker_sample_t :=
  if inp.repeat_offset = 0xffff then
    { length := inp.length, finetone := inp.finetone &&& 0x0f, volume := inp.volume,
      repeat_offset := 0, repeat_length := 1 }
  else
    { length := inp.length, finetone := inp.finetone &&& 0x0f, volume := inp.volume,
      repeat_offset := inp.repeat_offset,
      repeat_length := (inp.length + 65536 - inp.repeat_offset) % 65536 }

/-- The loop of `read_song_positions` with `n` iterations to go, at position
index `i`: `none` when the data ends, else the song and the cursor. -/
def read_song_positions_loop (mem : List Nat) :
    Nat → Nat → p61a_song_t → Nat → Option (p61a_song_t × Nat)
  | 0, _, song, curr => some (song, curr)
  | n + 1, i, song, curr =>
    if mem.length - curr < 1 then none
    else
      match mem[curr]? with
      | none => none
      | some position =>
        if position = 0xff then some ({ song with length := i }, curr + 1)
        else
          read_song_positions_loop mem n (i + 1)
            { song with positions := song.positions.set i position } (curr + 1)

/-- `read_song_positions`: reads position bytes from `curr` on, up to 128 of
them, until a byte 0xFF; `mem` is the data up to `max`. -/
def read_song_positions (song : p61a_song_t) (mem : List Nat) (curr : Nat) :
    Option (p61a_song_t × Nat) :=
  read_song_positions_loop mem PT_NUM_POSITIONS 0 song curr

/-- The bytes `build_patterns` appends for one track: for each of the 64 rows
the bytes of the event `to_p61a_channel` writes, as many as
`get_channel_length` counts. -/
def track_bytes (pattern : protracker_pattern_t) (channel_index : Nat) : List Nat :=
  (List.range PT_PATTERN_ROWS).flatMap
    (fun row => channel_bytes (to_p61a_channel (pattern row channel_index) 0).out)

/-- The sample table `write_song` writes: one record for each of the first
`sample_count` entries of `sample_headers`. -/
def sample_table (module : player61a_t) : List Nat :=
  (List.range module.sample_count).flatMap
    (fun i => write_sample_record (module.sample_headers i))

/-- The pattern-offset table `write_song` writes: four big-endian words for
each pattern. -/
def pattern_offset_table (module : player61a_t) : List Nat :=
  (List.range module.pattern_count).flatMap (fun i =>
    (List.range PT_NUM_CHANNELS).flatMap (fun j => be16_bytes (module.pattern_offsets i j)))

/-! ## Loading a P61A file -/

/-- `end_be16toh` of a word stored as the bytes `hi`, `lo`. -/
def be16_value (hi lo : Nat) : Nat := ((hi <<< 8) ||| lo) % 65536

/-- The loop of `read_sample_headers` with `count` records to go, the cursor
at position `curr` of the data `mem` (which ends at `max`): `none` when fewer
than six bytes are left, else the records read and the cursor behind them. -/
def read_sample_headers (mem : List Nat) : Nat → Nat → Option (List p61a_sample_t × Nat)
  | 0, curr => some ([], curr)
  | count + 1, curr =>
    if mem.length - curr < sizeof_p61a_sample_t then none
    else
      let sample : p61a_sample_t :=
        { length := be16_value (mem.getD curr 0) (mem.getD (curr + 1) 0),
          finetone := mem.getD (curr + 2) 0,
          volume := mem.getD (curr + 3) 0,
          repeat_offset := be16_value (mem.getD (curr + 4) 0) (mem.getD (curr + 5) 0) }
      match read_sample_headers mem count (curr + sizeof_p61a_sample_t) with
      | none => none
      | some (rest, curr) => some (sample :: rest, curr)

/-- The loop of `read_pattern_offsets` with `count` records to go: `none`
when fewer than eight bytes are left, else the four offsets of each pattern
and the cursor behind them. -/
def read_pattern_offsets (mem : List Nat) : Nat → Nat → Option (List (List Nat) × Nat)
  | 0, curr => some ([], curr)
  | count + 1, curr =>
    if mem.length - curr < sizeof_p61a_pattern_offset_t then none
    else
      let offset : List Nat :=
        (List.range PT_NUM_CHANNELS).map
          (fun j => be16_value (mem.getD (curr + 2 * j) 0) (mem.getD (curr + 2 * j + 1) 0))
      match read_pattern_offsets mem count (curr + sizeof_p61a_pattern_offset_t) with
      | none => none
      | some (rest, curr) => some (offset :: rest, curr)

/-- Pattern `i` of the array `patterns`: the array is one run of rows, 64 for
each pattern, so row `r` of pattern `i` is row `i * 64 + r` of the array. -/
def pattern_at (patterns : p61a_pattern_t) (i : Nat) : p61a_pattern_t :=
  fun r c => patterns (i * PT_PATTERN_ROWS + r) c

/-- The array `patterns` after the decoder has worked on pattern `i`: the
rows from the first row of pattern `i` on are those the decoder left. -/
def pattern_put (patterns : p61a_pattern_t) (i : Nat) (pattern : p61a_pattern_t) :
    p61a_pattern_t :=
  fun r c => if i * PT_PATTERN_ROWS ≤ r then pattern (r - i * PT_PATTERN_ROWS) c else patterns r c

/-- The inner loop of `read_patterns` for pattern `i`, over the channels in
`channels`: each track is decoded from row 0 with no row budget, at the
position `curr` plus its offset, without a look at `max`. -/
def read_patterns_channels (fuel : Nat) (mem : List Nat) (curr : Nat) (offsets : List Nat)
    (i : Nat) : List Nat → p61a_pattern_t → Except decode_error p61a_pattern_t
  | [], patterns => .ok patterns
  | j :: rest, patterns =>
    match decompress_track fuel (pattern_at patterns i) j 0 0 mem (curr + offsets.getD j 0) with
    | .error e => .error e
    | .ok (pattern, _) =>
      read_patterns_channels fuel mem curr offsets i rest (pattern_put patterns i pattern)

/-- The outer loop of `read_patterns`, from pattern `i` on. The C function
returns `curr` on every path; the model can end on a read outside `mem`. -/
def read_patterns (fuel : Nat) (mem : List Nat) (curr : Nat) :
    List (List Nat) → Nat → p61a_pattern_t → Except decode_error p61a_pattern_t
  | [], _, patterns => .ok patterns
  | offsets :: rest, i, patterns =>
    match read_patterns_channels fuel mem curr offsets i (List.range PT_NUM_CHANNELS)
        patterns with
    | .error e => .error e
    | .ok patterns => read_patterns fuel mem curr rest (i + 1) patterns

/-- The loop `PT: Sample Data` of `player61a_load`, from slot `i` on, with the
read position `samples`: a sample of length 0 is skipped, another has
`length * 2` bytes copied from the data, without a look at `max`. -/
def read_sample_data (mem : List Nat) :
    List p61a_sample_t → Nat → Nat → (Nat → Nat → Nat) → Except decode_error (Nat → Nat → Nat)
  | [], _, _, data => .ok data
  | sample :: rest, i, samples, data =>
    if sample.length = 0 then read_sample_data mem rest (i + 1) samples data
    else
      let bytes := sample.length * 2
      if mem.length < samples + bytes then .error .out_of_bounds
      else
        read_sample_data mem rest (i + 1) (samples + bytes)
          (fun k n => if k = i then (if n < bytes then mem.getD (samples + n) 0 else 0)
            else data k n)

/-- The MOD pattern `player61a_load` makes of pattern `i` of the array
`patterns`: `to_protracker_channel` on each of its 64 rows and 4 channels. -/
def load_pattern (patterns : p61a_pattern_t) (i : Nat) : protracker_pattern_t :=
  fun j k =>
    if j < PT_PATTERN_ROWS ∧ k < PT_NUM_CHANNELS then
      to_protracker_channel (patterns (i * PT_PATTERN_ROWS + j) k)
    else ⟨0, 0, 0, 0⟩

/-- `player61a_load` from the line `const uint8_t* curr = raw` on: `buffer`
is the whole input, `raw` the position of the header in it (behind the
signature when there is one), and `max` is the end of `buffer`. `created` is
the module as `protracker_create` leaves it (its body is not in the sources).
The result is `none` where the C function returns `NULL`. -/
def player61a_load_from (fuel : Nat) (created : protracker_t) (buffer : List Nat) (raw : Nat) :
    Except decode_error (Option protracker_t) :=
  let sample_offset := be16_value (buffer.getD raw 0) (buffer.getD (raw + 1) 0)
  let pattern_count := buffer.getD (raw + 2) 0
  let sample_count := buffer.getD (raw + 3) 0
  if pattern_count = 0 then .ok none
  else if sample_count > PT_NUM_SAMPLES then .ok none
  else
    match read_sample_headers buffer sample_count (raw + sizeof_p61a_header_t) with
    | none => .ok none
    | some (sample_headers, curr) =>
      match read_pattern_offsets buffer pattern_count curr with
      | none => .ok none
      | some (pattern_offsets, curr) =>
        match read_song_positions ⟨0, List.replicate PT_NUM_POSITIONS 0⟩ buffer curr with
        | none => .ok none
        | some (song, curr) =>
          match read_patterns fuel buffer curr pattern_offsets 0 p61a_pattern_zero with
          | .error e => .error e
          | .ok patterns =>
            match read_sample_data buffer sample_headers 0 (raw + sample_offset)
                created.sample_data with
            | .error e => .error e
            | .ok sample_data =>
              .ok (some
                { song :=
                    { length := song.length, restart_position := 127,
                      positions := song.positions.take song.length ++
                        created.song.positions.drop song.length },
                  patterns := (List.range pattern_count).map (load_pattern patterns),
                  sample_headers := fun i =>
                    match sample_headers[i]? with
                    | some inp => load_sample_header inp
                    | none => created.sample_headers i,
                  sample_data := sample_data })

/-- `player61a_load`: `.ok none` where the C function returns `NULL`,
`.ok (some module)` where it returns a module, and an error where the model
reads outside the input or runs out of fuel. -/
def player61a_load (fuel : Nat) (created : protracker_t) (buffer : List Nat) :
    Except decode_error (Option protracker_t) :=
  if buffer.length < sizeof_p61a_header_t + signature.length then .ok none
  else
    player61a_load_from fuel created buffer
      (if buffer.take signature.length = signature then signature.length else 0)

/-! ## The command line -/

/-- What `main` takes from outside the sources at hand: the files, and the
functions that `protracker.h` and `options.h` declare and whose bodies are
not in the sources. -/
structure main_env where
  /-- The `fopen(filename, "rb")` and the `fread` loop of `module_load`: the
  bytes of the file (of the standard input for `-`), `none` when it cannot
  be opened. -/
  read_file : String → Option (List Nat)
  /-- The result of `protracker_load` on a buffer. -/
  protracker_load : List Nat → Option protracker_t
  /-- The module as `protracker_create` leaves it. -/
  protracker_create : protracker_t
  /-- The step budget of the decoder model in `player61a_load`. -/
  fuel : Nat
  /-- The result of `protracker_convert` on a module pointer and the options:
  the buffer, `none` when it returns `false`. -/
  protracker_convert : Option protracker_t → String → Option (List Nat)
  /-- The usage table `protracker_get_used_samples` fills. -/
  get_used_samples : protracker_t → Nat → Bool
  /-- The answer of `has_option` for an option string, a name and a default. -/
  has_option : String → String → Bool → Bool
  /-- Whether `fopen(filename, "wb")` gives a file. -/
  open_write : String → Bool
  /-- Whether `fwrite` writes all the bytes to the file (to the standard
  output for `-`). -/
  write_all : String → List Nat → Bool
  /-- The module pointer after the passes that `-optimize` runs. -/
  optimize : Option protracker_t → String → Option protracker_t

/-- `show_help`: no argument, or `-h` or `--help` among the arguments. -/
def show_help (argv : List String) : Bool :=
  decide (argv.length < 2) || (argv.drop 1).any (fun a => a = "-h" || a = "--help")

/-- `module_load`: the module, `none` for `NULL`. -/
def module_load (env : main_env) (filename format : String) :
    Except decode_error (Option protracker_t) :=
  match env.read_file filename with
  | none => .ok none
  | some buffer =>
    if format = "mod" then .ok (env.protracker_load buffer)
    else if format = "p61a" then player61a_load env.fuel env.protracker_create buffer
    else .ok none

/-- The block `do { ... } while (0)` of the `-out:` branch of `main`: the
value of `success` behind it. A `NULL` module handed to `player61a_convert`
is read through, which the model ends as a read outside the data. -/
def write_output (env : main_env) (module : Option protracker_t) (options format
    filename : String) : Except decode_error Bool :=
  let converted : Except decode_error (Option (List Nat)) :=
    if format = "mod" then .ok (env.protracker_convert module options)
    else if format = "p61a" then
      match module with
      | none => .error .out_of_bounds
      | some m =>
        .ok (some (player61a_convert [] m (env.get_used_samples m)
          ⟨env.has_option options "sign" false, env.has_option options "song" true,
            env.has_option options "samples" true⟩))
    else .ok none
  match converted with
  | .error e => .error e
  | .ok none => .ok false
  | .ok (some buffer) =>
    if filename ≠ "-" ∧ env.open_write filename = false then .ok false
    else if buffer.length > 0 ∧ env.write_all filename buffer = false then .ok false
    else .ok true

/-- The loop of `main` over the arguments from `argv[i]` on, with the module
pointer and the options string: the exit code `(i == argc) ? 0 : 1`, which is
1 exactly when the loop was left by `break`. -/
def main_loop (env : main_env) :
    List String → Option protracker_t → String → Except decode_error Nat
  | [], _, _ => .ok 0
  | arg :: rest, module, options =>
    if arg.toList.take 4 = "-in:".toList then
      match rest with
      | [] => .ok 1
      | opt :: rest =>
        match module_load env opt (String.mk (arg.toList.drop 4)) with
        | .error e => .error e
        | .ok none => .ok 1
        | .ok (some m) => main_loop env rest (some m) options
    else if arg.toList.take 5 = "-out:".toList then
      match rest with
      | [] => .ok 1
      | opt :: rest =>
        match write_output env module options (String.mk (arg.toList.drop 5)) opt with
        | .error e => .error e
        | .ok _ => main_loop env rest module options
    else if arg.toList.take 6 = "-opts:".toList then
      main_loop env rest module (String.mk (arg.toList.drop 6))
    else if arg = "-optimize" then
      match rest with
      | [] => .ok 1
      | opt :: rest => main_loop env rest (env.optimize module opt) options
    else if arg = "-d" then
      match rest with
      | [] => .ok 1
      | _ :: rest => main_loop env rest module options
    else if arg = "-q" then main_loop env rest module options
    else main_loop env rest module options

/-- `main`: the exit code for the argument vector `argv` (with the program
name first). -/
def main (env : main_env) (argv : List String) : Except decode_error Nat :=
  if show_help argv then .ok 0 else main_loop env (argv.drop 1) none ""

/-! ## Reference definitions for the decoder and the tables -/

/-- What a loop iteration of `decompress_track` leaves in the pattern for an
event without directive: nothing for the empty event, else the bytes of the
event in the row of the cursor, a third byte that the shape does not have
being 0. -/
def store_event (pattern : p61a_pattern_t) (channel_index row : Nat) (e : p61a_channel_t) :
    p61a_pattern_t :=
  match p61a_shape_of e.data0 with
  | .empty => pattern
  | .note_instrument => store_row pattern row channel_index ⟨e.data0, e.data1, 0⟩
  | .command => store_row pattern row channel_index ⟨e.data0, e.data1, 0⟩
  | .full => store_row pattern row channel_index e

/-- The events of a list written inline: one after the other into the rows
from `row` on of a column. -/
def store_events (pattern : p61a_pattern_t) (channel_index : Nat) :
    Nat → List p61a_channel_t → p61a_pattern_t
  | _, [] => pattern
  | row, e :: es => store_events (store_event pattern channel_index row e) channel_index (row + 1) es

theorem index_from_period_loop_le (period : Nat) (l : List Nat) (i : Nat) :
    index_from_period_loop period l i ≤ i + l.length := by
  induction l generalizing i with
  | nil => simp [index_from_period_loop]
  | cons p rest ih =>
    simp only [index_from_period_loop, List.length_cons]
    split
    · omega
    · have := ih (i + 1); omega

theorem index_from_period_le (period : Nat) : index_from_period period ≤ 36 := by
  have h := index_from_period_loop_le period periods 0
  simpa [index_from_period, periods] using h

theorem index_from_period_loop_not_mem (period : Nat) (l : List Nat) (i : Nat)
    (h : period ∉ l) : index_from_period_loop period l i = 0 := by
  induction l generalizing i with
  | nil => simp [index_from_period_loop]
  | cons p rest ih =>
    simp only [List.mem_cons, not_or] at h
    simp only [index_from_period_loop]
    rw [if_neg (fun hp => h.1 hp.symm)]
    exact ih (i + 1) h.2

theorem index_from_period_loop_mem (period : Nat) (l : List Nat) (i : Nat)
    (h : period ∈ l) : index_from_period_loop period l i ≠ 0 := by
  induction l generalizing i with
  | nil => simp at h
  | cons p rest ih =>
    simp only [index_from_period_loop]
    split
    · omega
    · rename_i hne
      simp only [List.mem_cons] at h
      rcases h with h | h
      · exact absurd h.symm hne
      · exact ih (i + 1) h

theorem index_from_period_eq_zero_iff (period : Nat) :
    index_from_period period = 0 ↔ period ∉ periods := by
  constructor
  · intro h hmem
    exact index_from_period_loop_mem period periods 0 hmem h
  · exact index_from_period_loop_not_mem period periods 0

theorem period_index_table :
    ∀ p ∈ periods, period_from_index (index_from_period p) = p := by decide

theorem index_period_table :
    ∀ i < 37, index_from_period (period_from_index i) = i := by decide

theorem period_from_index_large (i : Nat) (h : 36 < i) : period_from_index i = 0 := by
  unfold period_from_index
  rw [if_pos]
  right
  simpa [periods] using h

/-- Decoding the note index of an encoded period gives the period back, for
period 0 and the table periods. -/
theorem period_roundtrip (p : Nat) (h : p = 0 ∨ p ∈ periods) :
    period_from_index (index_from_period p) = p := by
  rcases h with h | h
  · subst h; decide
  · exact period_index_table p h

/-- C7: `index_from_period` and `period_from_index` are mutually inverse on
the 36-entry period table: indices 1..36 give the table entries 856 .. 113 in
order and map back to themselves, table periods map to their index and back,
a period is mapped to 0 exactly when it is not in the table (0 included), and
index 0 and every index above 36 give period 0. -/
theorem period_index_inverse :
    (List.range 36).map (fun k => period_from_index (k + 1)) =
      [856,808,762,720,678,640,604,570,538,508,480,453,
       428,404,381,360,339,320,302,285,269,254,240,226,
       214,202,190,180,170,160,151,143,135,127,120,113] ∧
    (∀ i, (1 ≤ i ∧ i ≤ 36) → periods.get? (i - 1) = some (period_from_index i) ∧
      index_from_period (period_from_index i) = i) ∧
    (∀ p, p ∈ periods → 1 ≤ index_from_period p ∧ index_from_period p ≤ 36 ∧
      period_from_index (index_from_period p) = p) ∧
    (∀ p, index_from_period p = 0 ↔ p ∉ periods) ∧
    index_from_period 0 = 0 ∧
    period_from_index 0 = 0 ∧
    (∀ i, 36 < i → period_from_index i = 0) := by
  refine ⟨by decide, ?_, ?_, index_from_period_eq_zero_iff, by decide, by decide,
    period_from_index_large⟩
  · intro i hi
    have h : ∀ j < 37, 1 ≤ j → periods.get? (j - 1) = some (period_from_index j) ∧
        index_from_period (period_from_index j) = j := by decide
    exact h i (by omega) hi.1
  · intro p hp
    have h0 : index_from_period p ≠ 0 := fun h => (index_from_period_eq_zero_iff p).1 h hp
    exact ⟨by omega, index_from_period_le p, period_index_table p hp⟩

/-! ## Byte-level facts -/

theorem and_15_lt (x : Nat) : x &&& 0x0f < 16 :=
  Nat.lt_of_le_of_lt Nat.and_le_right (by decide)

theorem and_1_lt (x : Nat) : x &&& 0x01 < 2 :=
  Nat.lt_of_le_of_lt Nat.and_le_right (by decide)

theorem and_31_lt (x : Nat) : x &&& 0x1f < 32 :=
  Nat.lt_of_le_of_lt Nat.and_le_right (by decide)

theorem shape_of_empty : p61a_shape_of CHANNEL_EMPTY = .empty := by decide

theorem shape_of_note_instrument (n : Nat) (h : n ≤ 36) :
    p61a_shape_of (CHANNEL_NOTE_INSTRUMENT ||| ((n >>> 3) &&& 0x7)) = .note_instrument := by
  have key : ∀ m < 37,
      p61a_shape_of (CHANNEL_NOTE_INSTRUMENT ||| ((m >>> 3) &&& 0x7)) = .note_instrument := by
    decide
  exact key n (by omega)

theorem shape_of_command (c : Nat) :
    p61a_shape_of (CHANNEL_COMMAND ||| (c &&& 0x0f)) = .command := by
  have key : ∀ m < 16, p61a_shape_of (CHANNEL_COMMAND ||| m) = .command := by decide
  exact key _ (and_15_lt c)

theorem shape_of_full (n i : Nat) (h : n ≤ 36) :
    p61a_shape_of (CHANNEL_ALL ||| ((n <<< 1) &&& 0x7e) ||| ((i >>> 4) &&& 0x01)) = .full := by
  have key : ∀ m < 37, ∀ b < 2,
      p61a_shape_of (CHANNEL_ALL ||| ((m <<< 1) &&& 0x7e) ||| b) = .full := by decide
  exact key n (by omega) _ (and_1_lt _)

/-- C1: the length `to_p61a_channel` returns and the shape of the event it
writes are decided by the note index, the sample index and whether an effect
remains after normalisation: length 1 and the empty shape exactly when all
three are absent, length 2 and the note+instrument shape exactly when note
and sample are present and no effect remains, length 2 and the effect-only
shape exactly when only an effect remains, and length 3 with the full shape
in every other case. -/
theorem to_p61a_channel_classification (e : protracker_channel_t) (usecode : Nat) :
    let note := index_from_period (protracker_get_period e)
    let sample := protracker_get_sample e
    let effect := (normalize_effect (protracker_get_effect e)).2
    let r := to_p61a_channel e usecode
    ((r.length = 1 ∧ p61a_shape_of r.out.data0 = .empty) ↔
      (note = 0 ∧ sample = 0 ∧ effect = false)) ∧
    ((r.length = 2 ∧ p61a_shape_of r.out.data0 = .note_instrument) ↔
      (note ≠ 0 ∧ sample ≠ 0 ∧ effect = false)) ∧
    ((r.length = 2 ∧ p61a_shape_of r.out.data0 = .command) ↔
      (note = 0 ∧ sample = 0 ∧ effect = true)) ∧
    ((r.length = 3 ∧ p61a_shape_of r.out.data0 = .full) ↔
      ¬ (note = 0 ∧ sample = 0 ∧ effect = false) ∧
      ¬ (note ≠ 0 ∧ sample ≠ 0 ∧ effect = false) ∧
      ¬ (note = 0 ∧ sample = 0 ∧ effect = true)) ∧
    (r.length = 1 ∨ r.length = 2 ∨ r.length = 3) := by
  intro note sample effect r
  have hn : note ≤ 36 := index_from_period_le _
  have hr : r = to_p61a_channel e usecode := rfl
  unfold to_p61a_channel at hr
  simp only [] at hr
  by_cases h1 : note = 0 ∧ sample = 0 ∧ effect = false
  · rw [if_pos h1] at hr
    simp only [hr, shape_of_empty]
    obtain ⟨a, b, c⟩ := h1
    simp [a, b, c]
  · rw [if_neg h1] at hr
    by_cases h2 : note ≠ 0 ∧ sample ≠ 0 ∧ effect = false
    · rw [if_pos h2] at hr
      simp only [hr, shape_of_note_instrument note hn]
      obtain ⟨a, b, c⟩ := h2
      simp [a, b, c]
    · rw [if_neg h2] at hr
      by_cases h3 : note = 0 ∧ sample = 0 ∧ effect = true
      · rw [if_pos h3] at hr
        simp only [hr, shape_of_command]
        obtain ⟨a, b, c⟩ := h3
        simp [a, b, c]
      · rw [if_neg h3] at hr
        simp only [hr, shape_of_full note sample hn]
        have hb : effect = true ∨ effect = false := by cases effect <;> simp
        rcases hb with hb | hb
        · simp only [hb] at h1 h2 h3 ⊢
          simp at h1 h2 h3 ⊢
          omega
        · simp only [hb] at h1 h2 h3 ⊢
          simp at h1 h2 h3 ⊢
          omega

theorem normalize_effect_cmd_lt (eff : protracker_effect_t) (h : eff.cmd < 16) :
    (normalize_effect eff).1.cmd < 16 := by
  obtain ⟨c, v⟩ := eff
  simp only at h
  interval_cases c <;> simp only [normalize_effect, effect_switch] <;> (repeat' split) <;>
    simp_all [protracker_effect_t.set_ext_cmd, protracker_effect_t.set_ext_value]

theorem get_effect_cmd_lt (e : protracker_channel_t) : (protracker_get_effect e).cmd < 16 :=
  and_15_lt e.data2

theorem and_31_eq_mod (s : Nat) : s &&& 0x1f = s % 32 :=
  Nat.and_pow_two_sub_one_eq_mod s 5

theorem shl4_and_f0 (s : Nat) : (s <<< 4) &&& 0xf0 = ((s % 32) &&& 15) <<< 4 := by
  have h240 : (0xf0 : Nat) = (2 ^ 4 - 1) <<< 4 := by decide
  have h15 : (15 : Nat) = 2 ^ 4 - 1 := by decide
  have h32 : (32 : Nat) = 2 ^ 5 := by decide
  rw [h240, h15, h32]
  apply Nat.eq_of_testBit_eq
  intro i
  simp only [Nat.testBit_and, Nat.testBit_shiftLeft, Nat.testBit_two_pow_sub_one,
    Nat.testBit_mod_two_pow]
  by_cases h4 : 4 ≤ i <;> by_cases h8 : i - 4 < 4 <;> simp [h4, h8]
  all_goals omega

theorem shr4_and_1 (s : Nat) : (s >>> 4) &&& 0x01 = (s % 32) >>> 4 := by
  have h1 : (1 : Nat) = 2 ^ 1 - 1 := by decide
  have h32 : (32 : Nat) = 2 ^ 5 := by decide
  rw [h1, h32]
  apply Nat.eq_of_testBit_eq
  intro i
  simp only [Nat.testBit_and, Nat.testBit_shiftRight, Nat.testBit_two_pow_sub_one,
    Nat.testBit_mod_two_pow]
  by_cases h : i < 1
  · simp [h]; omega
  · simp [h]; omega

theorem note_bytes (n : Nat) (h : n ≤ 36) :
    CHANNEL_NOTE_INSTRUMENT ||| ((n >>> 3) &&& 0x7) = 0x70 ||| (n >>> 3) ∧
    (n <<< 5) &&& 0xe0 = (n &&& 7) <<< 5 ∧
    CHANNEL_ALL ||| ((n <<< 1) &&& 0x7e) = n <<< 1 := by
  have key : ∀ m < 37,
      CHANNEL_NOTE_INSTRUMENT ||| ((m >>> 3) &&& 0x7) = 0x70 ||| (m >>> 3) ∧
      (m <<< 5) &&& 0xe0 = (m &&& 7) <<< 5 ∧
      CHANNEL_ALL ||| ((m <<< 1) &&& 0x7e) = m <<< 1 := by decide
  exact key n (by omega)

theorem and_15_of_lt (c : Nat) (h : c < 16) : c &&& 0x0f = c := by
  have key : ∀ m < 16, m &&& 0x0f = m := by decide
  exact key c h

theorem bit7_clear (r : Nat) (h : r < 128) : r &&& 0x80 = 0 := by
  have key : ∀ m < 128, m &&& 0x80 = 0 := by decide
  exact key r h

theorem bit7_clear_of_shape_bytes :
    (∀ m < 37, (0x70 ||| (m >>> 3)) < 128) ∧ (∀ c < 16, (0x60 ||| c) < 128) ∧
    (∀ m < 37, ∀ b < 2, ((m <<< 1) ||| b) < 128) := by decide

/-- C2: the bytes `to_p61a_channel` writes follow the wire layout of the
shape of the event: empty is the byte 0x7F; note+instrument is
0x70 | (note >> 3), ((note & 7) << 5) | instrument; effect-only is
0x60 | command, argument; full is (note << 1) | (instrument >> 4),
((instrument & 15) << 4) | command, argument. Here note is the note index
(at most 36), instrument the sample index modulo 32, and command (at most 15)
and argument the normalised effect. Bit 7 of byte 0 is always clear. -/
theorem to_p61a_channel_layout (e : protracker_channel_t) (usecode : Nat) :
    let note := index_from_period (protracker_get_period e)
    let instrument := protracker_get_sample e % 32
    let effect := (normalize_effect (protracker_get_effect e)).1
    let r := to_p61a_channel e usecode
    note ≤ 36 ∧ instrument ≤ 31 ∧ effect.cmd ≤ 15 ∧
    (p61a_shape_of r.out.data0 = .empty →
      r.length = 1 ∧ r.out.data0 = 0x7f) ∧
    (p61a_shape_of r.out.data0 = .note_instrument →
      r.length = 2 ∧ r.out.data0 = 0x70 ||| (note >>> 3) ∧
      r.out.data1 = ((note &&& 7) <<< 5) ||| instrument) ∧
    (p61a_shape_of r.out.data0 = .command →
      r.length = 2 ∧ r.out.data0 = 0x60 ||| effect.cmd ∧ r.out.data1 = effect.value) ∧
    (p61a_shape_of r.out.data0 = .full →
      r.length = 3 ∧ r.out.data0 = (note <<< 1) ||| (instrument >>> 4) ∧
      r.out.data1 = ((instrument &&& 15) <<< 4) ||| effect.cmd ∧
      r.out.data2 = effect.value) ∧
    r.out.data0 &&& 0x80 = 0 := by
  intro note instrument effect r
  have hn : note ≤ 36 := index_from_period_le _
  have hi : instrument < 32 := Nat.mod_lt _ (by decide)
  have hc : effect.cmd < 16 := normalize_effect_cmd_lt _ (get_effect_cmd_lt e)
  have hcm := and_15_of_lt _ hc
  obtain ⟨nb1, nb2, nb3⟩ := note_bytes note hn
  obtain ⟨b1, b2, b3⟩ := bit7_clear_of_shape_bytes
  have hs1 := shl4_and_f0 (protracker_get_sample e)
  have hs2 := shr4_and_1 (protracker_get_sample e)
  have hs3 := and_31_eq_mod (protracker_get_sample e)
  have hr : r = to_p61a_channel e usecode := rfl
  unfold to_p61a_channel at hr
  simp only [] at hr
  refine ⟨hn, by omega, by omega, ?_⟩
  by_cases h1 : note = 0 ∧ protracker_get_sample e = 0 ∧
      (normalize_effect (protracker_get_effect e)).2 = false
  · rw [if_pos h1] at hr
    simp only [hr, shape_of_empty]
    simp [CHANNEL_EMPTY]
    decide
  rw [if_neg h1] at hr
  by_cases h2 : note ≠ 0 ∧ protracker_get_sample e ≠ 0 ∧
      (normalize_effect (protracker_get_effect e)).2 = false
  · rw [if_pos h2] at hr
    simp only [hr, shape_of_note_instrument note hn]
    refine ⟨by simp, fun _ => ⟨trivial, nb1, ?_⟩, by simp, by simp, ?_⟩
    · rw [nb2, hs3]
    · rw [nb1]; exact bit7_clear _ (b1 note (by omega))
  rw [if_neg h2] at hr
  by_cases h3 : note = 0 ∧ protracker_get_sample e = 0 ∧
      (normalize_effect (protracker_get_effect e)).2 = true
  · rw [if_pos h3] at hr
    simp only [hr, shape_of_command]
    refine ⟨by simp, by simp, fun _ => ⟨trivial, ?_, trivial⟩, by simp, ?_⟩
    · show CHANNEL_COMMAND ||| (effect.cmd &&& 0x0f) = _
      rw [hcm]; rfl
    · show (CHANNEL_COMMAND ||| (effect.cmd &&& 0x0f)) &&& 0x80 = 0
      rw [hcm]; exact bit7_clear _ (b2 _ hc)
  rw [if_neg h3] at hr
  simp only [hr, shape_of_full note _ hn]
  have hlt : (protracker_get_sample e % 32) >>> 4 < 2 := by
    rw [Nat.shiftRight_eq_div_pow]; omega
  refine ⟨by simp, by simp, by simp, fun _ => ⟨trivial, ?_, ?_, trivial⟩, ?_⟩
  · rw [nb3, hs2]
  · show _ ||| (effect.cmd &&& 0x0f) = _
    rw [hcm, hs1]
  · rw [nb3, hs2]
    exact bit7_clear _ (b3 note (by omega) _ hlt)

/-! ## MOD events from their fields -/

theorem nibble_facts : ∀ t < 16,
    (t <<< 4) &&& 0xf0 = t <<< 4 ∧ (t <<< 4) &&& 0x0f = 0 ∧ t &&& 0x0f = t ∧
    (((0 &&& 0x0f) ||| (t <<< 4)) &&& 0xf0) ||| (0 &&& 0x0f) = (0 &&& 0x0f) ||| (t <<< 4) ∧
    ((0 &&& 0x0f) ||| (t <<< 4)) &&& 0x0f = 0 := by decide

theorem nibble_pair_facts : ∀ t < 16, ∀ c < 16,
    ((((0 &&& 0x0f) ||| (t <<< 4)) &&& 0xf0) ||| (c &&& 0x0f)) &&& 0x0f = c ∧
    ((((0 &&& 0x0f) ||| (t <<< 4)) &&& 0xf0) ||| (c &&& 0x0f)) &&& 0xf0 =
      ((0 &&& 0x0f) ||| (t <<< 4)) &&& 0xf0 ∧
    ((t <<< 4) ||| c) &&& 0xf0 = t <<< 4 ∧ ((t <<< 4) ||| c) &&& 0x0f = c ∧
    ((t <<< 4) ||| c) >>> 4 = t := by decide

set_option maxRecDepth 100000 in
theorem byte_split : ∀ d < 256,
    d &&& 0xf0 = (d >>> 4) <<< 4 ∧ d >>> 4 < 16 ∧
    (((0 &&& 0xf0) ||| (d &&& 0x0f)) &&& 0x0f) ||| ((d >>> 4) <<< 4) = d ∧
    ((((0 &&& 0x0f) ||| ((d >>> 4) <<< 4)) &&& 0xf0) ||| ((d &&& 0x0f) &&& 0x0f)) = d := by
  decide

set_option maxRecDepth 100000 in
theorem period_bytes : ∀ x < 16, ∀ y < 256,
    (((x <<< 8) ||| y) >>> 8) &&& 0x0f = x ∧ ((x <<< 8) ||| y) &&& 0xff = y := by decide

/-- A MOD event is rebuilt from its period, sample index and effect. -/
theorem mod_event_of_fields (e : protracker_channel_t) (h : e.wf) :
    mod_event (protracker_get_period e) (protracker_get_sample e)
      (protracker_get_effect e).cmd (protracker_get_effect e).value = e := by
  obtain ⟨d0, d1, d2, d3⟩ := e
  obtain ⟨h0, h1, h2, _⟩ := h
  simp only at h0 h1 h2
  obtain ⟨a1, a2, a3, _⟩ := byte_split d0 h0
  obtain ⟨b1, b2, _, b4⟩ := byte_split d2 h2
  obtain ⟨p1, p2⟩ := period_bytes (d0 &&& 0x0f) (and_15_lt d0) d1 h1
  obtain ⟨_, _, q3, q4, _⟩ := nibble_pair_facts (d0 >>> 4) a2 (d2 >>> 4) b2
  simp only [mod_event, protracker_set_effect, protracker_set_sample, protracker_set_period,
    protracker_get_period, protracker_get_sample, protracker_get_effect,
    protracker_channel_t.mk.injEq, and_true]
  refine ⟨?_, p2, ?_⟩
  · rw [p1, a1, q3]; exact a3
  · rw [a1, q4]; exact b4

/-! ## The decoder by shape -/

theorem to_protracker_channel_of_empty (a b v : Nat) (h : p61a_shape_of a = .empty) :
    to_protracker_channel ⟨a, b, v⟩ = mod_event 0 0 0 0 := by
  have h1 : a &&& CHANNEL_EMPTY = CHANNEL_EMPTY := by
    unfold p61a_shape_of at h
    split_ifs at h
    assumption
  simp only [to_protracker_channel, if_pos h1]
  decide

theorem to_protracker_channel_of_note_instrument (a b v : Nat)
    (h : p61a_shape_of a = .note_instrument) :
    to_protracker_channel ⟨a, b, v⟩ =
      mod_event (period_from_index (((a &&& 0x07) <<< 3) ||| ((b &&& 0xe0) >>> 5)))
        (b &&& 0x1f) 0 0 := by
  have h12 : ¬ a &&& CHANNEL_EMPTY = CHANNEL_EMPTY ∧
      a &&& CHANNEL_NOTE_INSTRUMENT = CHANNEL_NOTE_INSTRUMENT := by
    unfold p61a_shape_of at h
    split_ifs at h
    constructor <;> assumption
  obtain ⟨f1, f2, f3, f4, f5⟩ := nibble_facts ((b &&& 0x1f) &&& 0x0f) (and_15_lt _)
  simp only [to_protracker_channel, if_neg h12.1, if_pos h12.2, mod_event,
    protracker_set_effect, protracker_set_sample, protracker_set_period, protracker_get_effect]
  rw [f5, f4]
  simp

theorem to_protracker_channel_of_command (a b v : Nat) (h : p61a_shape_of a = .command) :
    to_protracker_channel ⟨a, b, v⟩ =
      mod_event 0 0 (if a &&& 0x0f = 8 then 0 else a &&& 0x0f) b := by
  have h123 : ¬ a &&& CHANNEL_EMPTY = CHANNEL_EMPTY ∧
      ¬ a &&& CHANNEL_NOTE_INSTRUMENT = CHANNEL_NOTE_INSTRUMENT ∧
      a &&& CHANNEL_COMMAND = CHANNEL_COMMAND := by
    unfold p61a_shape_of at h
    split_ifs at h
    refine ⟨?_, ?_, ?_⟩ <;> assumption
  have hc := and_15_lt a
  simp only [to_protracker_channel, if_neg h123.1, if_neg h123.2.1, if_pos h123.2.2, mod_event,
    protracker_set_effect, protracker_set_sample, protracker_set_period, protracker_get_effect]
  generalize a &&& 0x0f = c at hc
  interval_cases c <;> rfl

theorem to_protracker_channel_of_full (a b v : Nat) (h : p61a_shape_of a = .full) :
    to_protracker_channel ⟨a, b, v⟩ =
      mod_event (period_from_index ((a &&& 0x7e) >>> 1))
        (((a &&& 0x01) <<< 4) ||| ((b &&& 0xf0) >>> 4))
        (if b &&& 0x0f = 8 then 0 else b &&& 0x0f) v := by
  have h123 : ¬ a &&& CHANNEL_EMPTY = CHANNEL_EMPTY ∧
      ¬ a &&& CHANNEL_NOTE_INSTRUMENT = CHANNEL_NOTE_INSTRUMENT ∧
      ¬ a &&& CHANNEL_COMMAND = CHANNEL_COMMAND := by
    unfold p61a_shape_of at h
    split_ifs at h
    refine ⟨?_, ?_, ?_⟩ <;> assumption
  have hc := and_15_lt b
  have ht := and_15_lt (((a &&& 0x01) <<< 4) ||| ((b &&& 0xf0) >>> 4))
  simp only [to_protracker_channel, if_neg h123.1, if_neg h123.2.1, if_neg h123.2.2, mod_event,
    protracker_set_effect, protracker_set_sample, protracker_set_period, protracker_get_effect]
  generalize (((a &&& 0x01) <<< 4) ||| ((b &&& 0xf0) >>> 4)) &&& 0x0f = t at ht
  generalize b &&& 0x0f = c at hc
  obtain ⟨g1, g2, _⟩ := nibble_pair_facts t ht c hc
  rw [g1]
  by_cases h8 : c = 8
  · rw [if_pos h8, if_pos h8]
    subst h8
    obtain ⟨k1, k2, _⟩ := nibble_pair_facts t ht 0 (by decide)
    simp only [protracker_channel_t.mk.injEq, true_and, and_true]
    rw [g2]
  · rw [if_neg h8, if_neg h8]

/-! ## Effect normalisation -/

theorem normalize_effect_kept (eff : protracker_effect_t)
    (h : eff.cmd ∈ [3, 4, 5, 6, 7, 9, 10, 11, 13, 15]) :
    normalize_effect eff = (eff, true) := by
  obtain ⟨c, v⟩ := eff
  simp only [List.mem_cons, List.mem_singleton, List.not_mem_nil, or_false] at h
  rcases h with h | h | h | h | h | h | h | h | h | h <;> subst h <;> simp [normalize_effect, effect_switch]

theorem normalize_effect_cleared (eff : protracker_effect_t)
    (h : (normalize_effect eff).2 = false) : (normalize_effect eff).1 = ⟨0, 0⟩ := by
  unfold normalize_effect at h ⊢
  simp only [] at h ⊢
  by_cases h1 : (effect_switch eff).2 = true
  · rw [if_pos h1] at h; simp at h
  · rw [if_neg h1]

theorem normalize_effect_fixed_ne_8 (eff : protracker_effect_t)
    (h : (normalize_effect eff).1 = eff) : eff.cmd ≠ 8 := by
  obtain ⟨c, v⟩ := eff
  intro h8
  simp only at h8
  subst h8
  simp [normalize_effect, effect_switch, protracker_effect_t.set_ext_cmd] at h

/-! ## Encoded bytes decode to their fields -/

theorem note_instrument_fields : ∀ n < 37, ∀ s < 32,
    (((CHANNEL_NOTE_INSTRUMENT ||| ((n >>> 3) &&& 0x7)) &&& 0x07) <<< 3) |||
      (((((n <<< 5) &&& 0xe0) ||| s) &&& 0xe0) >>> 5) = n ∧
    (((n <<< 5) &&& 0xe0) ||| s) &&& 0x1f = s := by decide

theorem command_field : ∀ c < 16, (CHANNEL_COMMAND ||| (c &&& 0x0f)) &&& 0x0f = c := by decide

theorem full_note_fields : ∀ n < 37, ∀ b < 2,
    ((CHANNEL_ALL ||| ((n <<< 1) &&& 0x7e) ||| b) &&& 0x7e) >>> 1 = n ∧
    (CHANNEL_ALL ||| ((n <<< 1) &&& 0x7e) ||| b) &&& 0x01 = b := by decide

theorem full_sample_fields : ∀ s < 32, ∀ c < 16,
    (((((s &&& 15) <<< 4) ||| (c &&& 0x0f)) &&& 0xf0) >>> 4 = s &&& 15) ∧
    ((((s &&& 15) <<< 4) ||| (c &&& 0x0f)) &&& 0x0f = c) ∧
    (((s >>> 4) <<< 4) ||| (s &&& 15) = s) ∧ s >>> 4 < 2 := by decide

/-- Decoding an encoded event gives the MOD event with the table period of
the note, the sample index modulo 32 and the normalised effect with command
8 turned into command 0. -/
theorem decode_encode (e : protracker_channel_t) (usecode : Nat) :
    to_protracker_channel (to_p61a_channel e usecode).out =
      mod_event (period_from_index (index_from_period (protracker_get_period e)))
        (protracker_get_sample e % 32)
        (if (normalize_effect (protracker_get_effect e)).1.cmd = 8 then 0
         else (normalize_effect (protracker_get_effect e)).1.cmd)
        (normalize_effect (protracker_get_effect e)).1.value := by
  have hn : index_from_period (protracker_get_period e) < 37 :=
    Nat.lt_succ_of_le (index_from_period_le _)
  have hc : (normalize_effect (protracker_get_effect e)).1.cmd < 16 :=
    normalize_effect_cmd_lt _ (get_effect_cmd_lt e)
  have hs : protracker_get_sample e % 32 < 32 := Nat.mod_lt _ (by decide)
  generalize hr : to_p61a_channel e usecode = r
  unfold to_p61a_channel at hr
  simp only [] at hr
  by_cases h1 : index_from_period (protracker_get_period e) = 0 ∧ protracker_get_sample e = 0 ∧
      (normalize_effect (protracker_get_effect e)).2 = false
  · rw [if_pos h1] at hr
    subst hr
    obtain ⟨a, b, c⟩ := h1
    rw [to_protracker_channel_of_empty _ _ _ shape_of_empty, a, b,
      normalize_effect_cleared _ c]
    rfl
  rw [if_neg h1] at hr
  by_cases h2 : index_from_period (protracker_get_period e) ≠ 0 ∧ protracker_get_sample e ≠ 0 ∧
      (normalize_effect (protracker_get_effect e)).2 = false
  · rw [if_pos h2] at hr
    subst hr
    obtain ⟨_, _, c⟩ := h2
    rw [to_protracker_channel_of_note_instrument _ _ _
      (shape_of_note_instrument _ (index_from_period_le _)), normalize_effect_cleared _ c,
      and_31_eq_mod]
    obtain ⟨f1, f2⟩ := note_instrument_fields _ hn _ hs
    rw [f1, f2]
    rfl
  rw [if_neg h2] at hr
  by_cases h3 : index_from_period (protracker_get_period e) = 0 ∧ protracker_get_sample e = 0 ∧
      (normalize_effect (protracker_get_effect e)).2 = true
  · rw [if_pos h3] at hr
    subst hr
    obtain ⟨a, b, _⟩ := h3
    rw [to_protracker_channel_of_command _ _ _ (shape_of_command _), command_field _ hc, a, b]
    rfl
  rw [if_neg h3] at hr
  subst hr
  rw [to_protracker_channel_of_full _ _ _ (shape_of_full _ _ (index_from_period_le _)),
    shl4_and_f0, shr4_and_1]
  obtain ⟨g1, g2, g3, g4⟩ := full_sample_fields _ hs _ hc
  obtain ⟨k1, k2⟩ := full_note_fields _ hn _ g4
  rw [k1, k2, g1, g2, g3]

/-- C3: a MOD channel event with sample index at most 31, period 0 or a
table period, and an effect that normalisation leaves as it is (in particular
every effect with command 3, 4, 5, 6, 7, 9, 10, 11, 13 or 15) is given back
unchanged by `to_protracker_channel` after `to_p61a_channel`. -/
theorem channel_roundtrip (e : protracker_channel_t) (usecode : Nat) (hwf : e.wf)
    (hs : protracker_get_sample e ≤ 31)
    (hp : protracker_get_period e = 0 ∨ protracker_get_period e ∈ periods)
    (he : (normalize_effect (protracker_get_effect e)).1 = protracker_get_effect e ∨
      (protracker_get_effect e).cmd ∈ [3, 4, 5, 6, 7, 9, 10, 11, 13, 15]) :
    to_protracker_channel (to_p61a_channel e usecode).out = e := by
  have hfix : (normalize_effect (protracker_get_effect e)).1 = protracker_get_effect e := by
    rcases he with he | he
    · exact he
    · rw [normalize_effect_kept _ he]
  have h8 := normalize_effect_fixed_ne_8 _ hfix
  rw [decode_encode, period_roundtrip _ hp, hfix, if_neg h8, Nat.mod_eq_of_lt (by omega)]
  exact mod_event_of_fields e hwf

/-- C3 at the event with period 428, sample 1 and effect F06. -/
theorem channel_roundtrip_witness :
    to_protracker_channel (to_p61a_channel ⟨0x01, 0xac, 0x1f, 0x06⟩ 0).out =
      ⟨0x01, 0xac, 0x1f, 0x06⟩ :=
  channel_roundtrip ⟨0x01, 0xac, 0x1f, 0x06⟩ 0 (by decide) (by decide) (by decide)
    (Or.inr (by decide))

/-! ## The emitted effect -/

theorem get_effect_mod_event (p s c v : Nat) (hc : c < 16) :
    protracker_get_effect (mod_event p s c v) = ⟨c, v⟩ := by
  obtain ⟨g1, _⟩ := nibble_pair_facts (s &&& 0x0f) (and_15_lt s) c hc
  simp only [mod_event, protracker_set_effect, protracker_set_sample, protracker_set_period,
    protracker_get_effect]
  rw [g1]

theorem p61a_effect_of_has_command (e : protracker_channel_t) (usecode : Nat)
    (h : (normalize_effect (protracker_get_effect e)).2 = true) :
    p61a_effect (to_p61a_channel e usecode).out =
      some (normalize_effect (protracker_get_effect e)).1 := by
  have hc : (normalize_effect (protracker_get_effect e)).1.cmd < 16 :=
    normalize_effect_cmd_lt _ (get_effect_cmd_lt e)
  have hs : protracker_get_sample e % 32 < 32 := Nat.mod_lt _ (by decide)
  generalize hr : to_p61a_channel e usecode = r
  unfold to_p61a_channel at hr
  simp only [] at hr
  have h1 : ¬ (index_from_period (protracker_get_period e) = 0 ∧ protracker_get_sample e = 0 ∧
      (normalize_effect (protracker_get_effect e)).2 = false) := by simp [h]
  have h2 : ¬ (index_from_period (protracker_get_period e) ≠ 0 ∧ protracker_get_sample e ≠ 0 ∧
      (normalize_effect (protracker_get_effect e)).2 = false) := by simp [h]
  rw [if_neg h1, if_neg h2] at hr
  by_cases h3 : index_from_period (protracker_get_period e) = 0 ∧ protracker_get_sample e = 0 ∧
      (normalize_effect (protracker_get_effect e)).2 = true
  · rw [if_pos h3] at hr
    subst hr
    simp only [p61a_effect, shape_of_command, command_field _ hc]
  · rw [if_neg h3] at hr
    subst hr
    obtain ⟨_, g2, _⟩ := full_sample_fields _ hs _ hc
    simp only [p61a_effect, shape_of_full _ _ (index_from_period_le _), shl4_and_f0, g2]

theorem to_protracker_channel_effect_8 (x : p61a_channel_t) (eff : protracker_effect_t)
    (h : p61a_effect x = some eff) (h8 : eff.cmd = 8) :
    protracker_get_effect (to_protracker_channel x) = ⟨0, eff.value⟩ := by
  obtain ⟨a, b, v⟩ := x
  unfold p61a_effect at h
  simp only at h
  split at h
  · rename_i hsh
    simp only [Option.some.injEq] at h
    subst h
    simp only at h8
    rw [to_protracker_channel_of_command _ _ _ hsh, if_pos h8]
    exact get_effect_mod_event _ _ _ _ (by decide)
  · rename_i hsh
    simp only [Option.some.injEq] at h
    subst h
    simp only at h8
    rw [to_protracker_channel_of_full _ _ _ hsh, if_pos h8]
    exact get_effect_mod_event _ _ _ _ (by decide)
  · simp at h

/-- C4: a MOD event with command 0 and a non-zero argument a is emitted with
command 8 and argument a, whatever its note and sample, and decodes back to
command 0 with argument a (so for a = 0x17); and every P61A event whose
command is 8 decodes to MOD command 0 with its argument unchanged. -/
theorem arpeggio_roundtrip :
    (∀ (e : protracker_channel_t) (usecode : Nat),
      (protracker_get_effect e).cmd = 0 → (protracker_get_effect e).value ≠ 0 →
      p61a_effect (to_p61a_channel e usecode).out = some ⟨8, (protracker_get_effect e).value⟩ ∧
      protracker_get_effect (to_protracker_channel (to_p61a_channel e usecode).out) =
        ⟨0, (protracker_get_effect e).value⟩) ∧
    (to_p61a_channel ⟨0, 0, 0, 0x17⟩ 0).out = ⟨0x68, 0x17, 0⟩ ∧
    to_protracker_channel ⟨0x68, 0x17, 0⟩ = ⟨0, 0, 0, 0x17⟩ ∧
    (∀ (x : p61a_channel_t) (eff : protracker_effect_t),
      p61a_effect x = some eff → eff.cmd = 8 →
      protracker_get_effect (to_protracker_channel x) = ⟨0, eff.value⟩) := by
  refine ⟨?_, by decide, by decide, to_protracker_channel_effect_8⟩
  intro e usecode hc hv
  have hne : normalize_effect (protracker_get_effect e) =
      (⟨8, (protracker_get_effect e).value⟩, true) := by
    generalize protracker_get_effect e = eff at hc hv
    obtain ⟨c, v⟩ := eff
    simp only at hc hv
    subst hc
    simp [normalize_effect, effect_switch, hv]
  have hem : p61a_effect (to_p61a_channel e usecode).out =
      some ⟨8, (protracker_get_effect e).value⟩ := by
    rw [p61a_effect_of_has_command e usecode (by rw [hne]), hne]
  exact ⟨hem, to_protracker_channel_effect_8 _ ⟨8, (protracker_get_effect e).value⟩ hem rfl⟩

/-- C5: effect rewriting before emission. Command 8 with argument xy is
emitted as command 14 with argument 0x80 | y; command 12 with argument a as
command 12 with argument min(a, 64); E0x as command 14 with sub-command 0 and
value (x & 1) << 1; EC0 as command 12 with argument 0; ECx with x non-zero
unchanged. -/
theorem effect_rewriting (e : protracker_channel_t) (usecode : Nat) :
    let eff := protracker_get_effect e
    let emitted := p61a_effect (to_p61a_channel e usecode).out
    (eff.cmd = 8 → emitted = some ⟨14, 0x80 ||| (eff.value &&& 0x0f)⟩) ∧
    (eff.cmd = 12 → emitted = some ⟨12, min eff.value 64⟩) ∧
    (eff.cmd = 14 ∧ eff.value >>> 4 = 0 →
      emitted = some ⟨14, ((eff.value &&& 0x0f) &&& 1) <<< 1⟩) ∧
    (eff.cmd = 14 ∧ eff.value >>> 4 = 12 ∧ eff.value &&& 0x0f = 0 →
      emitted = some ⟨12, 0⟩) ∧
    (eff.cmd = 14 ∧ eff.value >>> 4 = 12 ∧ eff.value &&& 0x0f ≠ 0 →
      emitted = some eff) := by
  intro eff emitted
  have key : ∀ r : protracker_effect_t, normalize_effect eff = (r, true) → emitted = some r := by
    intro r hr
    have := p61a_effect_of_has_command e usecode (by show (normalize_effect eff).2 = true; rw [hr])
    show p61a_effect (to_p61a_channel e usecode).out = some r
    rw [this]
    show some (normalize_effect eff).1 = some r
    rw [hr]
  clear_value emitted
  revert key
  generalize eff = f
  obtain ⟨c, v⟩ := f
  intro key
  refine ⟨?_, ?_, ?_, ?_, ?_⟩
  · intro h
    simp only at h
    subst h
    apply key
    have h128 : ((8 &&& 0x0f) <<< 4 : Nat) = 0x80 := by decide
    simp only [normalize_effect, effect_switch, protracker_effect_t.set_ext_cmd, h128]
    rw [Nat.lor_comm]
    simp
  · intro h
    simp only at h
    subst h
    apply key
    simp only [normalize_effect, effect_switch]
    by_cases hv : v > 64
    · simp [hv]; omega
    · simp [hv]; omega
  · rintro ⟨h, hx⟩
    simp only at h hx
    subst h
    apply key
    have hv : v < 16 := by
      rw [Nat.shiftRight_eq_div_pow] at hx
      omega
    have hz : ∀ w < 16, (w &&& 0xf0) ||| ((((w &&& 0x0f) &&& 1) <<< 1) &&& 0x0f) =
        ((w &&& 0x0f) &&& 1) <<< 1 := by decide
    have hz' := hz v hv
    simpa [normalize_effect, effect_switch, protracker_effect_t.ext_cmd,
      protracker_effect_t.ext_value, protracker_effect_t.set_ext_value, hx] using hz'
  · rintro ⟨h, hx, hy⟩
    simp only at h hx hy
    subst h
    apply key
    simp [normalize_effect, effect_switch, protracker_effect_t.ext_cmd,
      protracker_effect_t.ext_value, hx, hy]
  · rintro ⟨h, hx, hy⟩
    simp only at h hx hy
    subst h
    apply key
    simp [normalize_effect, effect_switch, protracker_effect_t.ext_cmd,
      protracker_effect_t.ext_value, hx, hy]

/-- The rewritings of C5 on effect-only events: 837, C50, E01, EC0, EC3. -/
theorem effect_rewriting_examples :
    (to_p61a_channel ⟨0, 0, 0x08, 0x37⟩ 0).out = ⟨0x6e, 0x87, 0⟩ ∧
    (to_p61a_channel ⟨0, 0, 0x0c, 0x50⟩ 0).out = ⟨0x6c, 0x40, 0⟩ ∧
    (to_p61a_channel ⟨0, 0, 0x0e, 0x01⟩ 0).out = ⟨0x6e, 0x02, 0⟩ ∧
    (to_p61a_channel ⟨0, 0, 0x0e, 0xc0⟩ 0).out = ⟨0x6c, 0x00, 0⟩ ∧
    (to_p61a_channel ⟨0, 0, 0x0e, 0xc3⟩ 0).out = ⟨0x6e, 0xc3, 0⟩ := by decide

theorem encode_of_cleared (e : protracker_channel_t) (usecode : Nat)
    (h : (normalize_effect (protracker_get_effect e)).2 = false) :
    let note := index_from_period (protracker_get_period e)
    let sample := protracker_get_sample e
    let r := to_p61a_channel e usecode
    (note = 0 ∧ sample = 0 → r.length = 1 ∧ r.out = ⟨0x7f, 0, 0⟩) ∧
    (note ≠ 0 ∧ sample ≠ 0 → r.length = 2 ∧ p61a_shape_of r.out.data0 = .note_instrument) ∧
    (¬ (note = 0 ∧ sample = 0) ∧ ¬ (note ≠ 0 ∧ sample ≠ 0) →
      r.length = 3 ∧ p61a_shape_of r.out.data0 = .full ∧ p61a_effect r.out = some ⟨0, 0⟩) := by
  intro note sample r
  have hs : protracker_get_sample e % 32 < 32 := Nat.mod_lt _ (by decide)
  have hcl := normalize_effect_cleared _ h
  have hr : r = to_p61a_channel e usecode := rfl
  clear_value r
  unfold to_p61a_channel at hr
  simp only [] at hr
  by_cases h1 : note = 0 ∧ sample = 0
  · rw [if_pos ⟨h1.1, h1.2, h⟩] at hr
    subst hr
    refine ⟨fun _ => ⟨rfl, rfl⟩, fun h2 => absurd h1.1 h2.1, fun h3 => absurd h1 h3.1⟩
  · rw [if_neg (fun hh => h1 ⟨hh.1, hh.2.1⟩)] at hr
    by_cases h2 : note ≠ 0 ∧ sample ≠ 0
    · rw [if_pos ⟨h2.1, h2.2, h⟩] at hr
      subst hr
      refine ⟨fun hh => absurd hh h1, fun _ => ⟨rfl, ?_⟩, fun h3 => absurd h2 h3.2⟩
      exact shape_of_note_instrument _ (index_from_period_le _)
    · rw [if_neg (fun hh => h2 ⟨hh.1, hh.2.1⟩), if_neg (fun hh => h1 ⟨hh.1, hh.2.1⟩)] at hr
      subst hr
      refine ⟨fun hh => absurd hh h1, fun hh => absurd hh h2, fun _ => ⟨rfl, ?_, ?_⟩⟩
      · exact shape_of_full _ _ (index_from_period_le _)
      · obtain ⟨_, g2, _⟩ := full_sample_fields _ hs 0 (by decide)
        simp only [p61a_effect, shape_of_full _ _ (index_from_period_le _), shl4_and_f0, hcl, g2]

/-- C6: an effect with command 1 or 2 and argument 0, or extended
sub-command 1, 2, 9, 10, 11, 13 or 14 with value 0, is cleared: the event is
the 1-byte empty event when it has neither note nor sample, the
note+instrument shape when it has both, and otherwise a full event that
carries command 0 and argument 0. With a non-zero argument or value the same
effects are emitted unchanged. -/
theorem effect_clearing (e : protracker_channel_t) (usecode : Nat) :
    let eff := protracker_get_effect e
    let note := index_from_period (protracker_get_period e)
    let sample := protracker_get_sample e
    let r := to_p61a_channel e usecode
    let slide := eff.cmd = 1 ∨ eff.cmd = 2
    let extended := eff.cmd = 14 ∧ eff.value >>> 4 ∈ [1, 2, 9, 10, 11, 13, 14]
    ((slide ∧ eff.value = 0) ∨ (extended ∧ eff.value &&& 0x0f = 0) →
      (note = 0 ∧ sample = 0 → r.length = 1 ∧ r.out = ⟨0x7f, 0, 0⟩) ∧
      (note ≠ 0 ∧ sample ≠ 0 → r.length = 2 ∧ p61a_shape_of r.out.data0 = .note_instrument) ∧
      (¬ (note = 0 ∧ sample = 0) ∧ ¬ (note ≠ 0 ∧ sample ≠ 0) →
        r.length = 3 ∧ p61a_shape_of r.out.data0 = .full ∧ p61a_effect r.out = some ⟨0, 0⟩)) ∧
    ((slide ∧ eff.value ≠ 0) ∨ (extended ∧ eff.value &&& 0x0f ≠ 0) →
      p61a_effect r.out = some eff) := by
  intro eff note sample r slide extended
  constructor
  · intro h
    apply encode_of_cleared
    show (normalize_effect eff).2 = false
    clear_value eff
    obtain ⟨c, v⟩ := eff
    rcases h with ⟨h | h, hv⟩ | ⟨⟨h, hx⟩, hv⟩
    · simp only at h hv; subst h; subst hv
      simp [normalize_effect, effect_switch]
    · simp only at h hv; subst h; subst hv
      simp [normalize_effect, effect_switch]
    · simp only [List.mem_cons, List.mem_singleton, List.not_mem_nil, or_false] at h hx hv
      subst h
      rcases hx with hx | hx | hx | hx | hx | hx | hx <;>
        simp [normalize_effect, effect_switch, protracker_effect_t.ext_cmd,
          protracker_effect_t.ext_value, hx, hv]
  · intro h
    have hne : normalize_effect eff = (eff, true) := by
      clear_value eff
      obtain ⟨c, v⟩ := eff
      rcases h with ⟨h | h, hv⟩ | ⟨⟨h, hx⟩, hv⟩
      · simp only at h hv; subst h
        simp [normalize_effect, effect_switch, hv]
      · simp only at h hv; subst h
        simp [normalize_effect, effect_switch, hv]
      · simp only [List.mem_cons, List.mem_singleton, List.not_mem_nil, or_false] at h hx hv
        subst h
        rcases hx with hx | hx | hx | hx | hx | hx | hx <;>
          simp [normalize_effect, effect_switch, protracker_effect_t.ext_cmd,
            protracker_effect_t.ext_value, hx, hv]
    show p61a_effect (to_p61a_channel e usecode).out = some eff
    rw [p61a_effect_of_has_command e usecode (by show (normalize_effect eff).2 = true; rw [hne])]
    show some (normalize_effect eff).1 = some eff
    rw [hne]

/-- The clearings of C6: effect 100 alone gives the empty event, E10 on a
note with a sample the note+instrument shape, 200 on a note without sample a
full event with command 0 and argument 0; 103 is emitted as it is. -/
theorem effect_clearing_examples :
    to_p61a_channel ⟨0, 0, 0x01, 0x00⟩ 0 = ⟨⟨0x7f, 0, 0⟩, 1, 0⟩ ∧
    to_p61a_channel ⟨0x01, 0xac, 0x1e, 0x10⟩ 0 = ⟨⟨0x71, 0xa1, 0⟩, 2, 0⟩ ∧
    to_p61a_channel ⟨0x01, 0xac, 0x02, 0x00⟩ 0 = ⟨⟨0x1a, 0x00, 0x00⟩, 3, 0⟩ ∧
    to_p61a_channel ⟨0, 0, 0x01, 0x03⟩ 0 = ⟨⟨0x61, 0x03, 0⟩, 2, 2⟩ := by decide

/-! ## The track decoder -/

theorem store_row_frame (p : p61a_pattern_t) (row ch : Nat) (out : p61a_channel_t)
    (r c : Nat) (h : r ≠ row ∨ c ≠ ch) : store_row p row ch out r c = p r c := by
  unfold store_row
  rw [if_neg]
  rintro ⟨h1, h2⟩
  rcases h with h | h
  · exact h h1
  · exact h h2

theorem repeat_rows_frame (ch : Nat) (out : p61a_channel_t) (rows : Nat) :
    ∀ (p : p61a_pattern_t) (off r c : Nat), (r < off ∨ off + rows ≤ r ∨ c ≠ ch) →
      repeat_rows p ch off out rows r c = p r c := by
  induction rows with
  | zero => intro p off r c _; rfl
  | succ n ih =>
    intro p off r c h
    rw [repeat_rows, ih _ _ _ _ (by omega)]
    apply store_row_frame
    omega

theorem read_event_cases (p : p61a_pattern_t) (ch off : Nat) (mem : List Nat) (t c0 : Nat)
    (ev : read_event_t) (h : read_event p ch off mem t c0 = .ok ev) :
    (ev.pattern = p ∧ ev.out = ⟨0, 0, 0⟩ ∧ ev.track = t ∧
      (ev.offset = off ∨ ev.offset = off + 1)) ∨
    (ev.pattern = store_row p off ch ev.out ∧ ev.offset = off + 1 ∧ t < ev.track ∧
      ev.track ≤ t + 2) := by
  unfold read_event at h
  split_ifs at h with h1 h2 h3 h4
  · simp only [Except.ok.injEq] at h; subst h
    exact Or.inl ⟨rfl, rfl, rfl, Or.inr rfl⟩
  · simp only [Except.ok.injEq] at h; subst h
    exact Or.inl ⟨rfl, rfl, rfl, Or.inl rfl⟩
  · cases hb : read_byte mem t with
    | error e => simp [hb] at h
    | ok c1 =>
      simp only [hb, Except.ok.injEq] at h; subst h
      exact Or.inr ⟨rfl, rfl, by simp, by simp⟩
  · cases hb : read_byte mem t with
    | error e => simp [hb] at h
    | ok c1 =>
      simp only [hb, Except.ok.injEq] at h; subst h
      exact Or.inr ⟨rfl, rfl, by simp, by simp⟩
  · cases hb : read_byte mem t with
    | error e => simp [hb] at h
    | ok c1 =>
      cases hb2 : read_byte mem (t + 1) with
      | error e => simp [hb, hb2] at h
      | ok c2 =>
        simp only [hb, hb2, Except.ok.injEq] at h; subst h
        exact Or.inr ⟨rfl, rfl, by simp, by simp⟩

theorem read_event_frame (p : p61a_pattern_t) (ch off : Nat) (mem : List Nat) (t c0 : Nat)
    (ev : read_event_t) (h : read_event p ch off mem t c0 = .ok ev) :
    off ≤ ev.offset ∧ ev.offset ≤ off + 1 ∧ t ≤ ev.track ∧
    ∀ r c, (r < off ∨ ev.offset ≤ r ∨ c ≠ ch) → ev.pattern r c = p r c := by
  rcases read_event_cases p ch off mem t c0 ev h with ⟨hp, _, ht, ho⟩ | ⟨hp, ho, ht, _⟩
  · refine ⟨by omega, by omega, by omega, fun r c _ => by rw [hp]⟩
  · refine ⟨by omega, by omega, by omega, fun r c hr => ?_⟩
    rw [hp]
    apply store_row_frame
    omega

/-- One successful step of `decompress_track`, case by case. -/
theorem decompress_track_ok_cases (f : Nat) (p : p61a_pattern_t) (ch off m : Nat)
    (mem : List Nat) (t : Nat) (p' : p61a_pattern_t) (off' : Nat)
    (h : decompress_track (f + 1) p ch off m mem t = .ok (p', off')) :
    (¬ off < 64 ∧ p' = p ∧ off' = off) ∨
    (off < 64 ∧ ∃ c0 ev p1 off1 t1,
      read_byte mem t = .ok c0 ∧ read_event p ch off mem (t + 1) c0 = .ok ev ∧
      ((c0 &&& 0x80 = 0 ∧ p1 = ev.pattern ∧ off1 = ev.offset ∧ t1 = ev.track) ∨
       (c0 &&& 0x80 ≠ 0 ∧ ∃ d0, read_byte mem ev.track = .ok d0 ∧
         ((d0 &&& 0x40 ≠ 0 ∧ ∃ dist, read_distance mem (ev.track + 1) d0 = .ok (dist, t1) ∧
            dist ≤ t1 ∧
            decompress_track f ev.pattern ch ev.offset ((d0 &&& 0x3f) + 1) mem (t1 - dist) =
              .ok (p1, off1)) ∨
          (d0 &&& 0x40 = 0 ∧ d0 &&& 0x80 ≠ 0 ∧
            p1 = repeat_rows ev.pattern ch ev.offset ev.out (d0 &&& 0x3f) ∧
            off1 = ev.offset + (d0 &&& 0x3f) ∧ t1 = ev.track + 1) ∨
          (d0 &&& 0x40 = 0 ∧ d0 &&& 0x80 = 0 ∧ p1 = ev.pattern ∧
            (off1 = ev.offset + (d0 &&& 0x3f) ∨ off1 = ev.offset) ∧ t1 = ev.track + 1)))) ∧
      ((m = 1 ∧ p' = p1 ∧ off' = off1) ∨
       (m ≠ 1 ∧ decompress_track f p1 ch off1 (m - 1) mem t1 = .ok (p', off')))) := by
  rw [decompress_track] at h
  by_cases hoff : off < 64
  · right
    refine ⟨hoff, ?_⟩
    rw [if_neg (by simpa [PT_PATTERN_ROWS] using hoff)] at h
    cases hb : read_byte mem t with
    | error e => simp [hb] at h
    | ok c0 =>
      simp only [hb] at h
      cases hev : read_event p ch off mem (t + 1) c0 with
      | error e => simp [hev] at h
      | ok ev =>
        simp only [hev] at h
        refine ⟨c0, ev, ?_⟩
        have hm : ∀ (p1 : p61a_pattern_t) (off1 t1 : Nat),
            (if m > 0 ∧ m - 1 = 0 then (Except.ok (p1, off1) : Except decode_error _)
             else decompress_track f p1 ch off1 (if m > 0 then m - 1 else m) mem t1) =
              .ok (p', off') →
            ((m = 1 ∧ p' = p1 ∧ off' = off1) ∨
             (m ≠ 1 ∧ decompress_track f p1 ch off1 (m - 1) mem t1 = .ok (p', off'))) := by
          intro p1 off1 t1 hh
          by_cases hm1 : m = 1
          · subst hm1
            simp only [gt_iff_lt, Nat.lt_one_iff, Nat.sub_self, and_self, ↓reduceIte,
              Nat.zero_lt_one, Except.ok.injEq, Prod.mk.injEq] at hh
            exact Or.inl ⟨rfl, hh.1.symm, hh.2.symm⟩
          · right
            refine ⟨hm1, ?_⟩
            rw [if_neg (by omega)] at hh
            have : (if m > 0 then m - 1 else m) = m - 1 := by
              split_ifs <;> omega
            rw [this] at hh
            exact hh
        by_cases hcomp : c0 &&& 0x80 = 0
        · rw [if_neg (by simpa [CHANNEL_COMPRESSED] using hcomp)] at h
          simp only at h
          exact ⟨ev.pattern, ev.offset, ev.track, rfl, hev, Or.inl ⟨hcomp, rfl, rfl, rfl⟩,
            hm _ _ _ h⟩
        · rw [if_pos (by simpa [CHANNEL_COMPRESSED] using hcomp)] at h
          cases hd : read_byte mem ev.track with
          | error e => simp [hd] at h
          | ok d0 =>
            simp only [hd] at h
            by_cases hj : d0 &&& 0x40 = 0
            · rw [if_neg (by simpa [COMPRESSION_JUMP] using hj)] at h
              by_cases hrep : d0 &&& 0x80 = 0
              · rw [if_neg (by simpa [COMPRESSION_REPEAT_ROWS] using hrep)] at h
                by_cases hem : d0 &&& COMPRESSION_CMD_BITS = COMPRESSION_EMPTY_ROWS
                · rw [if_pos hem] at h
                  simp only at h
                  exact ⟨_, _, _, rfl, hev, Or.inr ⟨hcomp, d0, rfl,
                    Or.inr (Or.inr ⟨hj, hrep, rfl, Or.inl rfl, rfl⟩)⟩, hm _ _ _ h⟩
                · rw [if_neg hem] at h
                  simp only at h
                  exact ⟨_, _, _, rfl, hev, Or.inr ⟨hcomp, d0, rfl,
                    Or.inr (Or.inr ⟨hj, hrep, rfl, Or.inr rfl, rfl⟩)⟩, hm _ _ _ h⟩
              · rw [if_pos (by simpa [COMPRESSION_REPEAT_ROWS] using hrep)] at h
                simp only at h
                exact ⟨_, _, _, rfl, hev, Or.inr ⟨hcomp, d0, rfl,
                  Or.inr (Or.inl ⟨hj, hrep, rfl, rfl, rfl⟩)⟩, hm _ _ _ h⟩
            · rw [if_pos (by simpa [COMPRESSION_JUMP] using hj)] at h
              cases hdist : read_distance mem (ev.track + 1) d0 with
              | error e => simp [hdist] at h
              | ok dt =>
                obtain ⟨dist, t1⟩ := dt
                simp only [hdist] at h
                by_cases hle : dist ≤ t1
                · rw [if_neg (by omega)] at h
                  cases hrec : decompress_track f ev.pattern ch ev.offset
                      ((d0 &&& COMPRESSION_DATA_BITS) + 1) mem (t1 - dist) with
                  | error e => simp [hrec] at h
                  | ok r =>
                    obtain ⟨p1, off1⟩ := r
                    simp only [hrec] at h
                    exact ⟨p1, off1, t1, rfl, hev, Or.inr ⟨hcomp, d0, rfl,
                      Or.inl ⟨hj, dist, hdist, hle, hrec⟩⟩, hm _ _ _ h⟩
                · rw [if_pos (by omega)] at h
                  simp at h
  · left
    rw [if_pos (by simpa [PT_PATTERN_ROWS] using hoff)] at h
    simp only [Except.ok.injEq, Prod.mk.injEq] at h
    exact ⟨hoff, h.1.symm, h.2.symm⟩

/-- Stores of `decompress_track` lie in column `channel_index`, at rows from
the start row up to, excluding, the returned cursor; the cursor never goes
back. -/
theorem decompress_track_frame (fuel : Nat) :
    ∀ (p : p61a_pattern_t) (ch off m : Nat) (mem : List Nat) (t : Nat)
      (p' : p61a_pattern_t) (off' : Nat),
      decompress_track fuel p ch off m mem t = .ok (p', off') →
      off ≤ off' ∧ ∀ r c, (r < off ∨ off' ≤ r ∨ c ≠ ch) → p' r c = p r c := by
  induction fuel with
  | zero =>
    intro p ch off m mem t p' off' h
    simp [decompress_track] at h
  | succ f ih =>
    intro p ch off m mem t p' off' h
    rcases decompress_track_ok_cases f p ch off m mem t p' off' h with
      ⟨_, hp, ho⟩ | ⟨_, c0, ev, p1, off1, t1, _, hev, hdir, hrest⟩
    · subst hp; subst ho
      exact ⟨Nat.le_refl _, fun _ _ _ => rfl⟩
    · obtain ⟨e1, _, _, e4⟩ := read_event_frame p ch off mem (t + 1) c0 ev hev
      -- the directive keeps the frame
      have hd : ev.offset ≤ off1 ∧
          ∀ r c, (r < ev.offset ∨ off1 ≤ r ∨ c ≠ ch) → p1 r c = ev.pattern r c := by
        rcases hdir with ⟨_, hp1, ho1, _⟩ | ⟨_, d0, _, hcase⟩
        · subst hp1; subst ho1
          exact ⟨Nat.le_refl _, fun _ _ _ => rfl⟩
        · rcases hcase with ⟨_, dist, _, _, hrec⟩ | ⟨_, _, hp1, ho1, _⟩ | ⟨_, _, hp1, ho1, _⟩
          · exact ih _ _ _ _ _ _ _ _ hrec
          · subst hp1; subst ho1
            exact ⟨by omega, fun r c hr => repeat_rows_frame _ _ _ _ _ _ _ hr⟩
          · subst hp1
            exact ⟨by omega, fun _ _ _ => rfl⟩
      -- the rest of the loop keeps the frame
      have hl : off1 ≤ off' ∧
          ∀ r c, (r < off1 ∨ off' ≤ r ∨ c ≠ ch) → p' r c = p1 r c := by
        rcases hrest with ⟨_, hp', ho'⟩ | ⟨_, hrec⟩
        · subst hp'; subst ho'
          exact ⟨Nat.le_refl _, fun _ _ _ => rfl⟩
        · exact ih _ _ _ _ _ _ _ _ hrec
      refine ⟨by omega, fun r c hr => ?_⟩
      rw [hl.2 r c (by omega), hd.2 r c (by omega), e4 r c (by omega)]

theorem decompress_track_done (f : Nat) (p : p61a_pattern_t) (ch off m : Nat)
    (mem : List Nat) (t : Nat) (h : ¬ off < 64) :
    decompress_track (f + 1) p ch off m mem t = .ok (p, off) := by
  rw [decompress_track, if_pos (by simpa [PT_PATTERN_ROWS] using h)]

theorem budget_step (f : Nat) (p1 : p61a_pattern_t) (ch off1 m : Nat) (mem : List Nat)
    (t1 : Nat) :
    (if m > 0 ∧ m - 1 = 0 then (Except.ok (p1, off1) : Except decode_error _)
     else decompress_track f p1 ch off1 (if m > 0 then m - 1 else m) mem t1) =
    if m = 1 then .ok (p1, off1) else decompress_track f p1 ch off1 (m - 1) mem t1 := by
  by_cases hm1 : m = 1
  · subst hm1; simp
  · rw [if_neg (by omega), if_neg hm1]
    have : (if m > 0 then m - 1 else m) = m - 1 := by
      split_ifs <;> omega
    rw [this]

/-- A loop iteration on an event without the compression bit. -/
theorem decompress_track_plain_step (f : Nat) (p : p61a_pattern_t) (ch off m : Nat)
    (mem : List Nat) (t c0 : Nat) (ev : read_event_t) (hoff : off < 64)
    (hb : read_byte mem t = .ok c0) (hev : read_event p ch off mem (t + 1) c0 = .ok ev)
    (hcomp : c0 &&& 0x80 = 0) :
    decompress_track (f + 1) p ch off m mem t =
      if m = 1 then .ok (ev.pattern, ev.offset)
      else decompress_track f ev.pattern ch ev.offset (m - 1) mem ev.track := by
  rw [decompress_track, if_neg (by simpa [PT_PATTERN_ROWS] using hoff)]
  simp only [hb, hev]
  rw [if_neg (by simpa [CHANNEL_COMPRESSED] using hcomp)]
  exact budget_step f _ ch _ m mem _

/-- A loop iteration on an event followed by a back-reference directive. -/
theorem decompress_track_jump_step (f : Nat) (p : p61a_pattern_t) (ch off m : Nat)
    (mem : List Nat) (t c0 : Nat) (ev : read_event_t) (d0 dist t1 : Nat) (hoff : off < 64)
    (hb : read_byte mem t = .ok c0) (hev : read_event p ch off mem (t + 1) c0 = .ok ev)
    (hcomp : c0 &&& 0x80 ≠ 0) (hd : read_byte mem ev.track = .ok d0)
    (hj : d0 &&& 0x40 ≠ 0) (hdist : read_distance mem (ev.track + 1) d0 = .ok (dist, t1))
    (hle : dist ≤ t1) :
    decompress_track (f + 1) p ch off m mem t =
      match decompress_track f ev.pattern ch ev.offset ((d0 &&& 0x3f) + 1) mem (t1 - dist) with
      | .error e => .error e
      | .ok (p1, off1) =>
        if m = 1 then .ok (p1, off1) else decompress_track f p1 ch off1 (m - 1) mem t1 := by
  rw [decompress_track, if_neg (by simpa [PT_PATTERN_ROWS] using hoff)]
  simp only [hb, hev]
  rw [if_pos (by simpa [CHANNEL_COMPRESSED] using hcomp)]
  simp only [hd]
  rw [if_pos (by simpa [COMPRESSION_JUMP] using hj)]
  simp only [hdist]
  rw [if_neg (by omega)]
  cases hrec : decompress_track f ev.pattern ch ev.offset ((d0 &&& COMPRESSION_DATA_BITS) + 1)
      mem (t1 - dist) with
  | error e =>
    have hrec' : decompress_track f ev.pattern ch ev.offset ((d0 &&& 0x3f) + 1)
      mem (t1 - dist) = .error e := hrec
    simp only [hrec']
  | ok r =>
    obtain ⟨p1, off1⟩ := r
    have hrec' : decompress_track f ev.pattern ch ev.offset ((d0 &&& 0x3f) + 1)
      mem (t1 - dist) = .ok (p1, off1) := hrec
    simp only [hrec']
    exact budget_step f _ ch _ m mem _

/-- C9, counterexample: on the stream FF 40 03, an empty event with the
compression bit whose back-reference points at itself, decoding never comes
to a stop: whatever the step budget of the model, the run is still going on. -/
theorem self_reference_diverges :
    ¬ ∃ fuel, decompress_track fuel p61a_pattern_zero 0 0 0 [0xff, 0x40, 0x03] 0 ≠
      .error .out_of_fuel := by
  have key : ∀ fuel m, decompress_track fuel p61a_pattern_zero 0 0 m [0xff, 0x40, 0x03] 0 =
      .error .out_of_fuel := by
    intro fuel
    induction fuel with
    | zero => intro m; rfl
    | succ f ih =>
      intro m
      rw [decompress_track_jump_step f p61a_pattern_zero 0 0 m [0xff, 0x40, 0x03] 0 0xff
        ⟨⟨0, 0, 0⟩, p61a_pattern_zero, 0, 1⟩ 0x40 3 3 (by decide) rfl rfl (by decide) rfl
        (by decide) rfl (by decide)]
      rw [ih]
  rintro ⟨fuel, h⟩
  exact h (key fuel 0)

theorem read_byte_ok_iff (mem : List Nat) (t b : Nat) :
    read_byte mem t = .ok b ↔ mem[t]? = some b := by
  unfold read_byte
  cases mem[t]? with
  | none => simp
  | some x => simp

theorem read_byte_error (mem : List Nat) (t : Nat) (e : decode_error)
    (h : read_byte mem t = .error e) : e = .out_of_bounds := by
  unfold read_byte at h
  cases hg : mem[t]? with
  | none => simp only [hg, Except.error.injEq] at h; exact h.symm
  | some x => simp [hg] at h

theorem read_byte_mem (mem : List Nat) (t b : Nat) (h : read_byte mem t = .ok b) : b ∈ mem := by
  rw [read_byte_ok_iff] at h
  exact List.getElem?_mem h

theorem read_event_error (p : p61a_pattern_t) (ch off : Nat) (mem : List Nat) (t c0 : Nat)
    (e : decode_error) (h : read_event p ch off mem t c0 = .error e) : e = .out_of_bounds := by
  unfold read_event at h
  split_ifs at h
  all_goals
    cases hb : read_byte mem t with
    | error e1 =>
      have := read_byte_error mem t e1 hb
      simp only [hb, Except.error.injEq] at h
      rw [← h]; exact this
    | ok c1 =>
      first
      | (simp [hb] at h; done)
      | (cases hb2 : read_byte mem (t + 1) with
         | error e2 =>
           have := read_byte_error mem (t + 1) e2 hb2
           simp only [hb, hb2, Except.error.injEq] at h
           rw [← h]; exact this
         | ok c2 => simp [hb, hb2] at h)

theorem read_event_offset_of_plain (p : p61a_pattern_t) (ch off : Nat) (mem : List Nat)
    (t c0 : Nat) (ev : read_event_t) (h : read_event p ch off mem t c0 = .ok ev)
    (hcomp : c0 &&& 0x80 = 0) : ev.offset = off + 1 := by
  rcases read_event_cases p ch off mem t c0 ev h with ⟨_, _, _, ho⟩ | ⟨_, ho, _, _⟩
  · unfold read_event at h
    split_ifs at h with h1 h2
    · simp only [Except.ok.injEq] at h; subst h; rfl
    · exact absurd hcomp h2
    all_goals
      cases hb : read_byte mem t with
      | error e => simp [hb] at h
      | ok c1 =>
        first
        | (simp only [hb, Except.ok.injEq] at h; subst h; rfl)
        | (cases hb2 : read_byte mem (t + 1) with
           | error e => simp [hb, hb2] at h
           | ok c2 => simp only [hb, hb2, Except.ok.injEq] at h; subst h; rfl)
  · exact ho

/-- On a stream without compression bits the cursor ends at 64 at most. -/
theorem decompress_track_plain_cursor (fuel : Nat) :
    ∀ (p : p61a_pattern_t) (ch off m : Nat) (mem : List Nat) (t : Nat)
      (p' : p61a_pattern_t) (off' : Nat), (∀ b ∈ mem, b < 128) → off ≤ 64 →
      decompress_track fuel p ch off m mem t = .ok (p', off') → off' ≤ 64 := by
  induction fuel with
  | zero =>
    intro p ch off m mem t p' off' _ _ h
    simp [decompress_track] at h
  | succ f ih =>
    intro p ch off m mem t p' off' hplain hoff h
    rcases decompress_track_ok_cases f p ch off m mem t p' off' h with
      ⟨_, _, ho⟩ | ⟨hlt, c0, ev, p1, off1, t1, hb, hev, hdir, hrest⟩
    · omega
    · have hc0 : c0 &&& 0x80 = 0 := bit7_clear c0 (hplain c0 (read_byte_mem mem t c0 hb))
      have hev1 := read_event_offset_of_plain p ch off mem (t + 1) c0 ev hev hc0
      rcases hdir with ⟨_, _, ho1, _⟩ | ⟨hne, _⟩
      · rcases hrest with ⟨_, _, ho'⟩ | ⟨_, hrec⟩
        · omega
        · exact ih _ _ _ _ _ _ _ _ hplain (by omega) hrec
      · exact absurd hc0 hne

/-- On a stream without compression bits the decoder comes to an end within
65 steps: it returns a cursor or runs off the stream. -/
theorem decompress_track_plain_terminates (fuel : Nat) :
    ∀ (p : p61a_pattern_t) (ch off m : Nat) (mem : List Nat) (t : Nat),
      (∀ b ∈ mem, b < 128) → 64 - off < fuel →
      decompress_track fuel p ch off m mem t ≠ .error .out_of_fuel := by
  induction fuel with
  | zero => intro p ch off m mem t _ h; omega
  | succ f ih =>
    intro p ch off m mem t hplain hfuel
    by_cases hoff : off < 64
    · cases hb : read_byte mem t with
      | error e =>
        rw [decompress_track, if_neg (by simpa [PT_PATTERN_ROWS] using hoff)]
        simp only [hb]
        rw [read_byte_error mem t e hb]
        simp
      | ok c0 =>
        have hc0 : c0 &&& 0x80 = 0 := bit7_clear c0 (hplain c0 (read_byte_mem mem t c0 hb))
        cases hev : read_event p ch off mem (t + 1) c0 with
        | error e =>
          rw [decompress_track, if_neg (by simpa [PT_PATTERN_ROWS] using hoff)]
          simp only [hb, hev]
          rw [read_event_error p ch off mem (t + 1) c0 e hev]
          simp
        | ok ev =>
          rw [decompress_track_plain_step f p ch off m mem t c0 ev hoff hb hev hc0]
          have hev1 := read_event_offset_of_plain p ch off mem (t + 1) c0 ev hev hc0
          split_ifs
          · simp
          · exact ih _ _ _ _ _ _ hplain (by omega)
    · rw [decompress_track_done f p ch off m mem t hoff]
      simp

/-- C8, counterexample: in the stream 7F 80 00 00 BF the repeat directive
BF (63 more rows) follows an event stored at row 1. The stream is not
rejected: the event is stored in rows 1 to 64 and the cursor comes back as
65. -/
theorem repeat_overflows_pattern :
    ∃ p', decompress_track 3 p61a_pattern_zero 0 0 0 [0x7f, 0x80, 0x00, 0x00, 0xbf] 0 =
        .ok (p', 65) ∧
      p' 64 0 = ⟨0x80, 0, 0⟩ ∧ p61a_pattern_zero 64 0 = ⟨0, 0, 0⟩ :=
  ⟨_, rfl, rfl, rfl⟩

/-- C8, amended: `decompress_track` has no malformed result. It stores only
in its own column, at rows from the start row up to, excluding, the cursor it
returns, and the cursor never goes back; so a run that returns a cursor of at
most 64 has stored nothing outside rows 0..63. From a start row of at most 64
a stream without compression bits (no directive) always returns a cursor of
at most 64. -/
theorem decompress_track_row_bounds (fuel : Nat) (p : p61a_pattern_t) (ch off m : Nat)
    (mem : List Nat) (t : Nat) (p' : p61a_pattern_t) (off' : Nat)
    (h : decompress_track fuel p ch off m mem t = .ok (p', off')) :
    off ≤ off' ∧
    (∀ r c, (r < off ∨ off' ≤ r ∨ c ≠ ch) → p' r c = p r c) ∧
    (off' ≤ 64 → ∀ r c, 64 ≤ r → p' r c = p r c) ∧
    ((∀ b ∈ mem, b < 128) → off ≤ 64 → off' ≤ 64) := by
  obtain ⟨h1, h2⟩ := decompress_track_frame fuel p ch off m mem t p' off' h
  refine ⟨h1, h2, fun hle r c hr => h2 r c (by omega), fun hplain hoff => ?_⟩
  exact decompress_track_plain_cursor fuel p ch off m mem t p' off' hplain hoff h

/-- C8 at the stream 08 21 00 decoded from row 0 with row budget 1. -/
theorem decompress_track_row_bounds_witness :
    0 ≤ 1 ∧
    (∀ r c, (r < 0 ∨ 1 ≤ r ∨ c ≠ 0) →
      store_row p61a_pattern_zero 0 0 ⟨0x08, 0x21, 0x00⟩ r c = p61a_pattern_zero r c) ∧
    (1 ≤ 64 → ∀ r c, 64 ≤ r →
      store_row p61a_pattern_zero 0 0 ⟨0x08, 0x21, 0x00⟩ r c = p61a_pattern_zero r c) ∧
    ((∀ b ∈ [0x08, 0x21, 0x00], b < 128) → 0 ≤ 64 → 1 ≤ 64) :=
  decompress_track_row_bounds 1 p61a_pattern_zero 0 0 1 [0x08, 0x21, 0x00] 0
    (store_row p61a_pattern_zero 0 0 ⟨0x08, 0x21, 0x00⟩) 1 rfl

theorem read_byte_of_lt (mem : List Nat) (t : Nat) (h : t < mem.length) :
    ∃ b, read_byte mem t = .ok b :=
  ⟨mem[t], (read_byte_ok_iff mem t _).2 (List.getElem?_eq_getElem h)⟩

theorem read_event_ok (p : p61a_pattern_t) (ch off : Nat) (mem : List Nat) (t c0 : Nat)
    (h : t + 2 ≤ mem.length) :
    ∃ ev, read_event p ch off mem t c0 = .ok ev ∧ ev.track ≤ t + 2 := by
  obtain ⟨c1, h1⟩ := read_byte_of_lt mem t (by omega)
  obtain ⟨c2, h2⟩ := read_byte_of_lt mem (t + 1) (by omega)
  unfold read_event
  simp only [h1, h2]
  split_ifs <;> exact ⟨_, rfl, by simp⟩

/-- On a stream without compression bits that is long enough, the decoder
returns a cursor. -/
theorem decompress_track_plain_returns (fuel : Nat) :
    ∀ (p : p61a_pattern_t) (ch off m : Nat) (mem : List Nat) (t : Nat),
      (∀ b ∈ mem, b < 128) → 64 - off < fuel → t + 3 * (64 - off) ≤ mem.length →
      ∃ r, decompress_track fuel p ch off m mem t = .ok r := by
  induction fuel with
  | zero => intro p ch off m mem t _ h; omega
  | succ f ih =>
    intro p ch off m mem t hplain hfuel hlen
    by_cases hoff : off < 64
    · obtain ⟨c0, hb⟩ := read_byte_of_lt mem t (by omega)
      have hc0 : c0 &&& 0x80 = 0 := bit7_clear c0 (hplain c0 (read_byte_mem mem t c0 hb))
      obtain ⟨ev, hev, htr⟩ := read_event_ok p ch off mem (t + 1) c0 (by omega)
      rw [decompress_track_plain_step f p ch off m mem t c0 ev hoff hb hev hc0]
      have hev1 := read_event_offset_of_plain p ch off mem (t + 1) c0 ev hev hc0
      split_ifs
      · exact ⟨_, rfl⟩
      · exact ih _ _ _ _ _ _ hplain (by omega) (by omega)
    · exact ⟨_, decompress_track_done f p ch off m mem t hoff⟩

/-- C9, amended: `decompress_track` has no depth limit (a back-reference is
followed as deep as the stream leads). On a stream without compression bits,
which has no directive and so no back-reference, it comes to an end within
65 - (start row) steps: it never runs on, and it returns a cursor when three
bytes for each remaining row are there to read. -/
theorem decompress_track_terminates_without_directives (fuel : Nat) (p : p61a_pattern_t)
    (ch off m : Nat) (mem : List Nat) (t : Nat) (hplain : ∀ b ∈ mem, b < 128)
    (hfuel : 64 - off < fuel) :
    decompress_track fuel p ch off m mem t ≠ .error .out_of_fuel ∧
    (t + 3 * (64 - off) ≤ mem.length →
      ∃ r, decompress_track fuel p ch off m mem t = .ok r) :=
  ⟨decompress_track_plain_terminates fuel p ch off m mem t hplain hfuel,
   decompress_track_plain_returns fuel p ch off m mem t hplain hfuel⟩

/-- C9 at the stream 08 21 00 decoded from row 63. -/
theorem decompress_track_terminates_without_directives_witness :
    decompress_track 2 p61a_pattern_zero 0 63 0 [0x08, 0x21, 0x00] 0 ≠ .error .out_of_fuel ∧
    (0 + 3 * (64 - 63) ≤ [0x08, 0x21, 0x00].length →
      ∃ r, decompress_track 2 p61a_pattern_zero 0 63 0 [0x08, 0x21, 0x00] 0 = .ok r) :=
  decompress_track_terminates_without_directives 2 p61a_pattern_zero 0 63 0 [0x08, 0x21, 0x00] 0
    (by decide) (by decide)

theorem read_distance_short (mem : List Nat) (t d0 o : Nat) (hs : d0 &&& 0x80 = 0)
    (ho : mem[t]? = some o) : read_distance mem t d0 = .ok (o, t + 1) := by
  unfold read_distance
  rw [(read_byte_ok_iff mem t o).2 ho]
  simp only
  rw [if_neg (by simpa [COMPRESSION_JUMP_LONG] using hs)]

theorem be16 (hi lo : Nat) (hhi : hi < 256) (hlo : lo < 256) :
    ((hi <<< 8) ||| lo) % 65536 = hi * 256 + lo := by
  have h := Nat.mul_add_lt_is_or (i := 8) (b := lo) (by simpa using hlo) hi
  rw [Nat.shiftLeft_eq, Nat.mul_comm hi (2 ^ 8), ← h]
  have : (2 : Nat) ^ 8 = 256 := by decide
  rw [this]
  omega

theorem read_distance_long (mem : List Nat) (t d0 hi lo : Nat) (hl : d0 &&& 0x80 ≠ 0)
    (hhi : mem[t]? = some hi) (hlo : mem[t + 1]? = some lo) (bhi : hi < 256) (blo : lo < 256) :
    read_distance mem t d0 = .ok (hi * 256 + lo, t + 2) := by
  unfold read_distance
  rw [(read_byte_ok_iff mem t hi).2 hhi]
  simp only
  rw [if_pos (by simpa [COMPRESSION_JUMP_LONG] using hl), (read_byte_ok_iff mem (t + 1) lo).2 hlo]
  simp only
  rw [be16 hi lo bhi blo]

theorem get_channel_length_le (c : p61a_channel_t) :
    1 ≤ get_channel_length c ∧ get_channel_length c ≤ 3 := by
  unfold get_channel_length
  split_ifs <;> omega

/-- Reading an event that is wholly inside the stream: the cursor moves on
by one unless the event is empty with the compression bit, and the read
position ends behind the event, whose length is that of `get_channel_length`. -/
theorem read_event_in_stream (p : p61a_pattern_t) (ch off : Nat) (mem : List Nat) (t c0 : Nat)
    (hroom : t + get_channel_length ⟨c0, 0, 0⟩ ≤ mem.length) :
    ∃ ev, read_event p ch off mem (t + 1) c0 = .ok ev ∧
      ev.track = t + get_channel_length ⟨c0, 0, 0⟩ ∧
      (c0 &&& 0x80 = 0 → ev.offset = off + 1) := by
  unfold get_channel_length at hroom
  simp only [] at hroom
  unfold read_event get_channel_length
  simp only []
  by_cases h1 : c0 &&& CHANNEL_EMPTY = CHANNEL_EMPTY
  · rw [if_pos h1]
    refine ⟨_, rfl, by simp [h1], fun hc => ?_⟩
    simp [CHANNEL_COMPRESSED, hc]
  · rw [if_neg h1] at hroom
    rw [if_neg h1]
    by_cases h2 : c0 &&& CHANNEL_NOTE_INSTRUMENT = CHANNEL_NOTE_INSTRUMENT
    · rw [if_pos h2] at hroom
      obtain ⟨c1, hb1⟩ := read_byte_of_lt mem (t + 1) (by omega)
      rw [if_pos h2, hb1]
      exact ⟨_, rfl, by simp [h1, h2], fun _ => rfl⟩
    · rw [if_neg h2] at hroom
      rw [if_neg h2]
      by_cases h3 : c0 &&& CHANNEL_COMMAND = CHANNEL_COMMAND
      · rw [if_pos h3] at hroom
        obtain ⟨c1, hb1⟩ := read_byte_of_lt mem (t + 1) (by omega)
        rw [if_pos h3, hb1]
        exact ⟨_, rfl, by simp [h1, h2, h3], fun _ => rfl⟩
      · rw [if_neg h3] at hroom
        obtain ⟨c1, hb1⟩ := read_byte_of_lt mem (t + 1) (by omega)
        obtain ⟨c2, hb2⟩ := read_byte_of_lt mem (t + 1 + 1) (by omega)
        rw [if_neg h3, hb1]
        simp only [hb2]
        exact ⟨_, rfl, by simp [h1, h2, h3], fun _ => rfl⟩

/-- Decoding `k + 1` events without compression bit with row budget `k + 1`
moves the cursor on by `k + 1`. -/
theorem plain_run_decode (ch : Nat) (mem : List Nat) (k : Nat) :
    ∀ (f : Nat) (p : p61a_pattern_t) (off t : Nat), plain_run mem t (k + 1) = true →
      off + k + 1 ≤ 64 → k + 1 ≤ f →
      ∃ p1, decompress_track f p ch off (k + 1) mem t = .ok (p1, off + k + 1) := by
  induction k with
  | zero =>
    intro f p off t hrun hoff hf
    obtain ⟨f', rfl⟩ : ∃ f', f = f' + 1 := ⟨f - 1, by omega⟩
    unfold plain_run at hrun
    cases hg : mem[t]? with
    | none => simp [hg] at hrun
    | some c0 =>
      simp only [hg, Bool.and_eq_true, decide_eq_true_eq] at hrun
      obtain ⟨⟨hc, hroom⟩, _⟩ := hrun
      have hc' : c0 &&& 0x80 = 0 := by simpa [CHANNEL_COMPRESSED] using hc
      obtain ⟨ev, hev, _, ho⟩ := read_event_in_stream p ch off mem t c0 hroom
      rw [decompress_track_plain_step f' p ch off 1 mem t c0 ev (by omega)
        ((read_byte_ok_iff mem t c0).2 hg) hev hc', if_pos rfl, ho hc']
      exact ⟨_, rfl⟩
  | succ k ih =>
    intro f p off t hrun hoff hf
    obtain ⟨f', rfl⟩ : ∃ f', f = f' + 1 := ⟨f - 1, by omega⟩
    unfold plain_run at hrun
    cases hg : mem[t]? with
    | none => simp [hg] at hrun
    | some c0 =>
      simp only [hg, Bool.and_eq_true, decide_eq_true_eq] at hrun
      obtain ⟨⟨hc, hroom⟩, hrest⟩ := hrun
      have hc' : c0 &&& 0x80 = 0 := by simpa [CHANNEL_COMPRESSED] using hc
      obtain ⟨ev, hev, htr, ho⟩ := read_event_in_stream p ch off mem t c0 hroom
      rw [decompress_track_plain_step f' p ch off (k + 1 + 1) mem t c0 ev (by omega)
        ((read_byte_ok_iff mem t c0).2 hg) hev hc', if_neg (by omega), ho hc', htr]
      obtain ⟨p1, h1⟩ := ih f' ev.pattern (off + 1) _ hrest (by omega) (by omega)
      refine ⟨p1, ?_⟩
      rw [show k + 1 + 1 - 1 = k + 1 from rfl, h1]
      congr 2
      omega

/-- C10, counterexample: in the stream FF 03 FF 40 05 FF 3A the back-reference
at position 3 (count field n = 0, distance 5, next byte at position 5) is met
with the cursor at row 3. Decoding restarts at position 5 - 5 = 0 with row
budget n + 1 = 1 and returns cursor 6, since the one event it decodes there
is an empty event with an empty-run directive of 3 rows: decoding resumes at
position 5 with the cursor 3 rows higher, not n + 1 = 1. The whole stream
decodes to cursor 64. -/
theorem back_reference_counts_events_not_rows :
    (∃ p1, decompress_track 1 p61a_pattern_zero 0 3 ((0x40 &&& 0x3f) + 1)
        [0xff, 0x03, 0xff, 0x40, 0x05, 0xff, 0x3a] (5 - 5) = .ok (p1, 6)) ∧
    decompress_track 3 p61a_pattern_zero 0 3 0 [0xff, 0x03, 0xff, 0x40, 0x05, 0xff, 0x3a] 2 =
      decompress_track 2 p61a_pattern_zero 0 6 0 [0xff, 0x03, 0xff, 0x40, 0x05, 0xff, 0x3a] 5 ∧
    (∃ p2, decompress_track 4 p61a_pattern_zero 0 0 0
        [0xff, 0x03, 0xff, 0x40, 0x05, 0xff, 0x3a] 0 = .ok (p2, 64)) ∧
    6 ≠ 3 + (0x40 &&& 0x3f) + 1 :=
  ⟨⟨_, rfl⟩, rfl, ⟨_, rfl⟩, by decide⟩

/-- C10, amended: at a back-reference directive, 01nn_nnnn with an 8-bit
distance o or 11nn_nnnn with a 16-bit big-endian distance o, met after an
event with the compression bit, `decompress_track` restarts decoding at
(position of the byte following the directive - o) with row budget n + 1 and
resumes behind the directive with the cursor that nested decoding returns.
The budget counts events, each with its own directive, not rows: the cursor
is n + 1 higher when the n + 1 events at the target carry no compression bit
and end at row 64 at most. -/
theorem back_reference_step (f : Nat) (p : p61a_pattern_t) (ch off m : Nat) (mem : List Nat)
    (t c0 : Nat) (ev : read_event_t) (d0 o next : Nat)
    (hoff : off < 64) (hc0 : mem[t]? = some c0) (hcomp : c0 &&& 0x80 ≠ 0)
    (hev : read_event p ch off mem (t + 1) c0 = .ok ev)
    (hd0 : mem[ev.track]? = some d0) (hj : d0 &&& 0x40 ≠ 0)
    (hdist : (d0 &&& 0x80 = 0 ∧ mem[ev.track + 1]? = some o ∧ next = ev.track + 2) ∨
      (d0 &&& 0x80 ≠ 0 ∧ ∃ hi lo, hi < 256 ∧ lo < 256 ∧ mem[ev.track + 1]? = some hi ∧
        mem[ev.track + 2]? = some lo ∧ o = hi * 256 + lo ∧ next = ev.track + 3))
    (hle : o ≤ next) :
    let n := d0 &&& 0x3f
    (decompress_track (f + 1) p ch off m mem t =
      match decompress_track f ev.pattern ch ev.offset (n + 1) mem (next - o) with
      | .error e => .error e
      | .ok (p1, off1) =>
        if m = 1 then .ok (p1, off1) else decompress_track f p1 ch off1 (m - 1) mem next) ∧
    (plain_run mem (next - o) (n + 1) = true → ev.offset + n + 1 ≤ 64 → n + 1 ≤ f →
      ∃ p1, decompress_track f ev.pattern ch ev.offset (n + 1) mem (next - o) =
          .ok (p1, ev.offset + n + 1) ∧
        decompress_track (f + 1) p ch off m mem t =
          if m = 1 then .ok (p1, ev.offset + n + 1)
          else decompress_track f p1 ch (ev.offset + n + 1) (m - 1) mem next) := by
  intro n
  have hrd : read_distance mem (ev.track + 1) d0 = .ok (o, next) := by
    rcases hdist with ⟨hs, ho, hn⟩ | ⟨hl, hi, lo, bhi, blo, hhi, hlo, ho, hn⟩
    · rw [hn]; exact read_distance_short mem _ d0 o hs ho
    · rw [hn, ho]; exact read_distance_long mem _ d0 hi lo hl hhi hlo bhi blo
  have hstep := decompress_track_jump_step f p ch off m mem t c0 ev d0 o next hoff
    ((read_byte_ok_iff mem t c0).2 hc0) hev hcomp ((read_byte_ok_iff mem _ d0).2 hd0) hj hrd hle
  refine ⟨hstep, fun hrun hrows hf => ?_⟩
  obtain ⟨p1, h1⟩ := plain_run_decode ch mem n f ev.pattern ev.offset (next - o) hrun hrows hf
  refine ⟨p1, h1, ?_⟩
  rw [hstep]
  have h1' : decompress_track f ev.pattern ch ev.offset ((d0 &&& 0x3f) + 1) mem (next - o) =
      .ok (p1, ev.offset + n + 1) := h1
  rw [h1']

/-- C10 at the stream 08 21 00 88 21 00 40 08: the event at position 3 is
stored at row 1 and followed by a back-reference with n = 0 and distance 8 to
the event at position 0. -/
theorem back_reference_step_witness :
    ∃ p1, decompress_track 1 (store_row p61a_pattern_zero 1 0 ⟨0x88, 0x21, 0x00⟩) 0 2
          ((0x40 &&& 0x3f) + 1) [0x08, 0x21, 0x00, 0x88, 0x21, 0x00, 0x40, 0x08] (8 - 8) =
          .ok (p1, 2 + (0x40 &&& 0x3f) + 1) ∧
        decompress_track (1 + 1) p61a_pattern_zero 0 1 0
          [0x08, 0x21, 0x00, 0x88, 0x21, 0x00, 0x40, 0x08] 3 =
          if 0 = 1 then .ok (p1, 2 + (0x40 &&& 0x3f) + 1)
          else decompress_track 1 p1 0 (2 + (0x40 &&& 0x3f) + 1) (0 - 1)
            [0x08, 0x21, 0x00, 0x88, 0x21, 0x00, 0x40, 0x08] 8 :=
  (back_reference_step 1 p61a_pattern_zero 0 1 0
    [0x08, 0x21, 0x00, 0x88, 0x21, 0x00, 0x40, 0x08] 3 0x88
    ⟨⟨0x88, 0x21, 0x00⟩, store_row p61a_pattern_zero 1 0 ⟨0x88, 0x21, 0x00⟩, 2, 6⟩ 0x40 8 8
    (by decide) rfl (by decide) rfl rfl (by decide) (Or.inl ⟨by decide, rfl, rfl⟩)
    (by decide)).2 (by decide) (by decide) (by decide)

/-! ## Directives of the track decoder -/

theorem repeat_rows_inside (ch : Nat) (out : p61a_channel_t) (rows : Nat) :
    ∀ (p : p61a_pattern_t) (off r : Nat), off ≤ r → r < off + rows →
      repeat_rows p ch off out rows r ch = out := by
  induction rows with
  | zero => intro p off r h1 h2; omega
  | succ n ih =>
    intro p off r h1 h2
    rw [repeat_rows]
    by_cases h : r = off
    · subst h
      rw [repeat_rows_frame ch out n _ (r + 1) r ch (Or.inl (by omega))]
      simp [store_row]
    · exact ih _ _ _ (by omega) (by omega)

/-- A loop iteration that cannot read its event ends the run. -/
theorem decompress_track_event_error (f : Nat) (p : p61a_pattern_t) (ch off m : Nat)
    (mem : List Nat) (t c0 : Nat) (e : decode_error) (hoff : off < 64)
    (hb : read_byte mem t = .ok c0) (hev : read_event p ch off mem (t + 1) c0 = .error e) :
    decompress_track (f + 1) p ch off m mem t = .error e := by
  rw [decompress_track, if_neg (by simpa [PT_PATTERN_ROWS] using hoff)]
  simp only [hb, hev]

/-- A loop iteration on an event followed by an empty-run directive. -/
theorem decompress_track_empty_run_step (f : Nat) (p : p61a_pattern_t) (ch off m : Nat)
    (mem : List Nat) (t c0 : Nat) (ev : read_event_t) (d0 : Nat) (hoff : off < 64)
    (hb : read_byte mem t = .ok c0) (hev : read_event p ch off mem (t + 1) c0 = .ok ev)
    (hcomp : c0 &&& 0x80 ≠ 0) (hd : read_byte mem ev.track = .ok d0) (hd0 : d0 < 64) :
    decompress_track (f + 1) p ch off m mem t =
      if m = 1 then .ok (ev.pattern, ev.offset + d0)
      else decompress_track f ev.pattern ch (ev.offset + d0) (m - 1) mem (ev.track + 1) := by
  have key : ∀ d < 64, d &&& 0x40 = 0 ∧ d &&& 0x80 = 0 ∧ d &&& 0xc0 = 0 ∧ d &&& 0x3f = d := by
    decide
  obtain ⟨k1, k2, k3, k4⟩ := key d0 hd0
  rw [decompress_track, if_neg (by simpa [PT_PATTERN_ROWS] using hoff)]
  simp only [hb, hev]
  rw [if_pos (by simpa [CHANNEL_COMPRESSED] using hcomp)]
  simp only [hd]
  rw [if_neg (by simp [COMPRESSION_JUMP, k1]), if_neg (by simp [COMPRESSION_REPEAT_ROWS, k2]),
    if_pos (by simp [COMPRESSION_CMD_BITS, COMPRESSION_EMPTY_ROWS, k3])]
  simp only [COMPRESSION_DATA_BITS, k4]
  exact budget_step f _ ch _ m mem _

/-- A loop iteration on an event followed by a repeat directive. -/
theorem decompress_track_repeat_step (f : Nat) (p : p61a_pattern_t) (ch off m : Nat)
    (mem : List Nat) (t c0 : Nat) (ev : read_event_t) (n : Nat) (hoff : off < 64)
    (hb : read_byte mem t = .ok c0) (hev : read_event p ch off mem (t + 1) c0 = .ok ev)
    (hcomp : c0 &&& 0x80 ≠ 0) (hn : n < 64) (hd : read_byte mem ev.track = .ok (0x80 + n)) :
    decompress_track (f + 1) p ch off m mem t =
      if m = 1 then .ok (repeat_rows ev.pattern ch ev.offset ev.out n, ev.offset + n)
      else decompress_track f (repeat_rows ev.pattern ch ev.offset ev.out n) ch (ev.offset + n)
        (m - 1) mem (ev.track + 1) := by
  have key : ∀ d < 64, (0x80 + d) &&& 0x40 = 0 ∧ (0x80 + d) &&& 0x80 ≠ 0 ∧
      (0x80 + d) &&& 0x3f = d := by decide
  obtain ⟨k1, k2, k4⟩ := key n hn
  rw [decompress_track, if_neg (by simpa [PT_PATTERN_ROWS] using hoff)]
  simp only [hb, hev]
  rw [if_pos (by simpa [CHANNEL_COMPRESSED] using hcomp)]
  simp only [hd]
  rw [if_neg (by simp [COMPRESSION_JUMP, k1]), if_pos (by simpa [COMPRESSION_REPEAT_ROWS] using k2)]
  simp only [COMPRESSION_DATA_BITS, k4]
  exact budget_step f _ ch _ m mem _

/-- Reading an empty event stores nothing; the cursor moves on by one
exactly when the compression bit is clear. -/
theorem read_event_empty (p : p61a_pattern_t) (ch off : Nat) (mem : List Nat) (t c0 : Nat)
    (h : p61a_shape_of c0 = .empty) :
    read_event p ch off mem t c0 =
      .ok ⟨⟨0, 0, 0⟩, p, if c0 &&& 0x80 = 0 then off + 1 else off, t⟩ := by
  have h1 : c0 &&& CHANNEL_EMPTY = CHANNEL_EMPTY := by
    unfold p61a_shape_of at h
    split_ifs at h
    assumption
  unfold read_event
  rw [if_pos h1]
  rfl

/-- Reading a non-empty event that is wholly inside the stream stores it at
the cursor, with its first byte as read, and moves the cursor on by one. -/
theorem read_event_nonempty (p : p61a_pattern_t) (ch off : Nat) (mem : List Nat) (t c0 : Nat)
    (hne : p61a_shape_of c0 ≠ .empty)
    (hroom : t + get_channel_length ⟨c0, 0, 0⟩ ≤ mem.length) :
    ∃ E : p61a_channel_t,
      read_event p ch off mem (t + 1) c0 =
        .ok ⟨E, store_row p off ch E, off + 1, t + get_channel_length ⟨c0, 0, 0⟩⟩ ∧
      E.data0 = c0 ∧ mem[t + 1]? = some E.data1 ∧
      (get_channel_length ⟨c0, 0, 0⟩ = 3 → mem[t + 2]? = some E.data2) ∧
      (get_channel_length ⟨c0, 0, 0⟩ = 2 → E.data2 = 0) := by
  have h1 : ¬ c0 &&& CHANNEL_EMPTY = CHANNEL_EMPTY := by
    intro hh
    apply hne
    unfold p61a_shape_of
    rw [if_pos hh]
  unfold get_channel_length at hroom ⊢
  simp only [] at hroom ⊢
  rw [if_neg h1] at hroom
  unfold read_event
  rw [if_neg h1]
  simp only [if_neg h1]
  obtain ⟨c1, hb1⟩ := read_byte_of_lt mem (t + 1) (by split_ifs at hroom <;> omega)
  have hg1 := (read_byte_ok_iff mem (t + 1) c1).1 hb1
  by_cases h2 : c0 &&& CHANNEL_NOTE_INSTRUMENT = CHANNEL_NOTE_INSTRUMENT
  · simp only [if_pos h2, hb1]
    exact ⟨⟨c0, c1, 0⟩, rfl, rfl, hg1, by simp, fun _ => rfl⟩
  · rw [if_neg h2] at hroom
    simp only [if_neg h2]
    by_cases h3 : c0 &&& CHANNEL_COMMAND = CHANNEL_COMMAND
    · simp only [if_pos h3, hb1]
      exact ⟨⟨c0, c1, 0⟩, rfl, rfl, hg1, by simp, fun _ => rfl⟩
    · rw [if_neg h3] at hroom
      obtain ⟨c2, hb2⟩ := read_byte_of_lt mem (t + 1 + 1) (by omega)
      have hg2 := (read_byte_ok_iff mem (t + 1 + 1) c2).1 hb2
      simp only [if_neg h3, hb1, hb2]
      exact ⟨⟨c0, c1, c2⟩, rfl, rfl, hg1, fun _ => hg2, by simp⟩

/-- The MOD form of a P61A event does not depend on its compression bit. -/
theorem to_protracker_channel_compression_bit (c0 c1 c2 : Nat) :
    to_protracker_channel ⟨c0, c1, c2⟩ = to_protracker_channel ⟨c0 &&& 0x7f, c1, c2⟩ := by
  have h : ∀ m, 0x7f &&& m = m → (c0 &&& 0x7f) &&& m = c0 &&& m := by
    intro m hm
    rw [Nat.and_assoc, hm]
  have e1 := h 0x7f (by decide)
  have e2 := h 0x70 (by decide)
  have e3 := h 0x60 (by decide)
  have e4 := h 0x07 (by decide)
  have e5 := h 0x0f (by decide)
  have e6 := h 0x7e (by decide)
  have e7 := h 0x01 (by decide)
  simp only [to_protracker_channel, CHANNEL_EMPTY, CHANNEL_NOTE_INSTRUMENT, CHANNEL_COMMAND,
    e1, e2, e3, e4, e5, e6, e7]

theorem getElem?_room (mem : List Nat) (i b : Nat) (h : mem[i]? = some b) : i < mem.length := by
  by_contra hn
  rw [List.getElem?_eq_none (by omega)] at h
  simp at h

/-- C11, counterexample: on the bytes 08 21 00 C0 02 the decoder never returns
a pattern. Byte 08 has no compression bit, so C0 02 is read as the start of a
second full event whose third byte lies behind the stream. The event 08 21 00
itself has instrument 2 and command 1, not instrument 1 and command 0. -/
theorem scenario_bytes_not_decoded :
    (¬ ∃ fuel r, decompress_track fuel p61a_pattern_zero 0 0 0 [0x08, 0x21, 0x00, 0xc0, 0x02] 0 =
      .ok r) ∧
    protracker_get_sample (to_protracker_channel ⟨0x08, 0x21, 0x00⟩) = 2 ∧
    (protracker_get_effect (to_protracker_channel ⟨0x08, 0x21, 0x00⟩)).cmd = 1 := by
  refine ⟨?_, by decide, by decide⟩
  rintro ⟨fuel, r, h⟩
  match fuel, h with
  | 0, h => simp [decompress_track] at h
  | 1, h =>
    rw [decompress_track_plain_step 0 p61a_pattern_zero 0 0 0 [0x08, 0x21, 0x00, 0xc0, 0x02] 0 0x08
      ⟨⟨0x08, 0x21, 0x00⟩, store_row p61a_pattern_zero 0 0 ⟨0x08, 0x21, 0x00⟩, 1, 3⟩
      (by decide) rfl rfl (by decide)] at h
    simp [decompress_track] at h
  | f + 2, h =>
    rw [decompress_track_plain_step (f + 1) p61a_pattern_zero 0 0 0 [0x08, 0x21, 0x00, 0xc0, 0x02] 0 0x08
      ⟨⟨0x08, 0x21, 0x00⟩, store_row p61a_pattern_zero 0 0 ⟨0x08, 0x21, 0x00⟩, 1, 3⟩
      (by decide) rfl rfl (by decide), if_neg (by decide),
      decompress_track_event_error f _ 0 1 _ [0x08, 0x21, 0x00, 0xc0, 0x02] 3 0xc0 .out_of_bounds (by decide) rfl rfl] at h
    simp at h

/-- C11, amended: decoded from row 0 with a row budget of one event, the bytes
08 21 00 C0 02 give a full event with note 4 (period 720), instrument 2,
command 1 and argument 0 in row 0; byte 08 has no compression bit, so no
directive follows, C0 starts a second full event, and decoding on runs off
the five bytes. A track that decodes as the scenario describes is
08 10 00 FF 40 06 FF 3E: a full event with note 4, instrument 1, command 0 and
argument 0 in row 0, an empty event whose back-reference replays that event
into row 1, and an empty run; rows 0 and 1 then hold identical events, rows
from 2 on are empty and the cursor is 64. -/
theorem scenario_back_reference :
    decompress_track 1 p61a_pattern_zero 0 0 1 [0x08, 0x21, 0x00, 0xc0, 0x02] 0 =
      .ok (store_row p61a_pattern_zero 0 0 ⟨0x08, 0x21, 0x00⟩, 1) ∧
    to_protracker_channel ⟨0x08, 0x21, 0x00⟩ = mod_event 720 2 1 0 ∧
    index_from_period 720 = 4 ∧ 0x08 &&& CHANNEL_COMPRESSED = 0 ∧
    p61a_shape_of 0xc0 = .full ∧
    (∀ fuel, decompress_track (fuel + 2) p61a_pattern_zero 0 0 0
      [0x08, 0x21, 0x00, 0xc0, 0x02] 0 = .error .out_of_bounds) ∧
    (∃ p', decompress_track 4 p61a_pattern_zero 0 0 0
        [0x08, 0x10, 0x00, 0xff, 0x40, 0x06, 0xff, 0x3e] 0 = .ok (p', 64) ∧
      p' 0 0 = ⟨0x08, 0x10, 0x00⟩ ∧ p' 1 0 = ⟨0x08, 0x10, 0x00⟩ ∧
      (∀ r, 2 ≤ r → p' r 0 = ⟨0, 0, 0⟩)) ∧
    to_protracker_channel ⟨0x08, 0x10, 0x00⟩ = mod_event 720 1 0 0 := by
  refine ⟨rfl, by decide, by decide, by decide, by decide, ?_, ?_, by decide⟩
  · intro f
    rw [decompress_track_plain_step (f + 1) p61a_pattern_zero 0 0 0 [0x08, 0x21, 0x00, 0xc0, 0x02] 0 0x08
      ⟨⟨0x08, 0x21, 0x00⟩, store_row p61a_pattern_zero 0 0 ⟨0x08, 0x21, 0x00⟩, 1, 3⟩
      (by decide) rfl rfl (by decide), if_neg (by decide),
      decompress_track_event_error f _ 0 1 _ [0x08, 0x21, 0x00, 0xc0, 0x02] 3 0xc0 .out_of_bounds (by decide) rfl rfl]
  · refine ⟨store_row (store_row p61a_pattern_zero 0 0 ⟨0x08, 0x10, 0x00⟩) 1 0
      ⟨0x08, 0x10, 0x00⟩, rfl, rfl, rfl, ?_⟩
    intro r hr
    simp only [store_row, p61a_pattern_zero]
    rw [if_neg (by omega), if_neg (by omega)]

/-- C12: in a loop iteration of `decompress_track` at a row r below 64, the
byte 7F stores nothing and moves the cursor on by 1; the byte FF followed by
the directive 00nn_nnnn stores nothing and moves the cursor on by n; a
non-empty event with the compression bit followed by 00nn_nnnn is stored at
row r and moves the cursor on by 1 + n, and the rows r+1 .. r+n are as they
were, also when the run has come to its end. -/
theorem empty_run_directive (f : Nat) (p : p61a_pattern_t) (ch r m : Nat) (mem : List Nat)
    (t : Nat) (hr : r < 64) :
    (mem[t]? = some 0x7f →
      decompress_track (f + 1) p ch r m mem t =
        if m = 1 then .ok (p, r + 1) else decompress_track f p ch (r + 1) (m - 1) mem (t + 1)) ∧
    (∀ n, n < 64 → mem[t]? = some 0xff → mem[t + 1]? = some n →
      decompress_track (f + 1) p ch r m mem t =
        if m = 1 then .ok (p, r + n) else decompress_track f p ch (r + n) (m - 1) mem (t + 2)) ∧
    (∀ c0 n, n < 64 → mem[t]? = some c0 → c0 &&& 0x80 ≠ 0 → p61a_shape_of c0 ≠ .empty →
      mem[t + get_channel_length ⟨c0, 0, 0⟩]? = some n →
      ∃ E : p61a_channel_t, E.data0 = c0 ∧ mem[t + 1]? = some E.data1 ∧
        (get_channel_length ⟨c0, 0, 0⟩ = 3 → mem[t + 2]? = some E.data2) ∧
        (get_channel_length ⟨c0, 0, 0⟩ = 2 → E.data2 = 0) ∧
        decompress_track (f + 1) p ch r m mem t =
          (if m = 1 then .ok (store_row p r ch E, r + 1 + n)
           else decompress_track f (store_row p r ch E) ch (r + 1 + n) (m - 1) mem
             (t + get_channel_length ⟨c0, 0, 0⟩ + 1)) ∧
        ∀ p' off', decompress_track (f + 1) p ch r m mem t = .ok (p', off') →
          r + 1 + n ≤ off' ∧ p' r ch = E ∧
          ∀ row, r < row → row < r + 1 + n → p' row ch = p row ch) := by
  refine ⟨fun h0 => ?_, fun n hn h0 h1 => ?_, fun c0 n hn h0 hcomp hne hd => ?_⟩
  · have hev := read_event_empty p ch r mem (t + 1) 0x7f (by decide)
    rw [decompress_track_plain_step f p ch r m mem t 0x7f _ hr
      ((read_byte_ok_iff mem t _).2 h0) hev (by decide)]
    rfl
  · have hev := read_event_empty p ch r mem (t + 1) 0xff (by decide)
    rw [decompress_track_empty_run_step f p ch r m mem t 0xff _ n hr
      ((read_byte_ok_iff mem t _).2 h0) hev (by decide) ((read_byte_ok_iff mem _ _).2 h1) hn]
    rfl
  · obtain ⟨E, hev, e0, e1, e2, e3⟩ := read_event_nonempty p ch r mem t c0 hne
      (Nat.le_of_lt (getElem?_room mem _ n hd))
    have hstep := decompress_track_empty_run_step f p ch r m mem t c0 _ n hr
      ((read_byte_ok_iff mem t _).2 h0) hev hcomp ((read_byte_ok_iff mem _ _).2 hd) hn
    simp only at hstep
    refine ⟨E, e0, e1, e2, e3, hstep, fun p' off' hok => ?_⟩
    rw [hstep] at hok
    have hfr : r + 1 + n ≤ off' ∧
        ∀ row c, (row < r + 1 + n ∨ off' ≤ row ∨ c ≠ ch) → p' row c = store_row p r ch E row c := by
      by_cases hm : m = 1
      · rw [if_pos hm] at hok
        simp only [Except.ok.injEq, Prod.mk.injEq] at hok
        obtain ⟨hp, ho⟩ := hok
        subst hp; subst ho
        exact ⟨Nat.le_refl _, fun _ _ _ => rfl⟩
      · rw [if_neg hm] at hok
        exact decompress_track_frame f _ _ _ _ _ _ _ _ hok
    refine ⟨hfr.1, ?_, fun row h1 h2 => ?_⟩
    · rw [hfr.2 r ch (Or.inl (by omega))]
      simp [store_row]
    · rw [hfr.2 row ch (Or.inl h2)]
      exact store_row_frame _ _ _ _ _ _ (Or.inl (by omega))

/-- C12 at the stream FF 05 decoded at row 3 with a row budget of one event. -/
theorem empty_run_directive_witness :
    decompress_track (0 + 1) p61a_pattern_zero 0 3 1 [0xff, 0x05] 0 =
      if 1 = 1 then .ok (p61a_pattern_zero, 3 + 5)
      else decompress_track 0 p61a_pattern_zero 0 (3 + 5) (1 - 1) [0xff, 0x05] (0 + 2) :=
  (empty_run_directive 0 p61a_pattern_zero 0 3 1 [0xff, 0x05] 0 (by decide)).2.1 5
    (by decide) rfl rfl

/-- C13: a non-empty event E read at row r with the compression bit and
followed by the directive 10nn_nnnn, with r + 1 + n at most 64, is stored in
the rows r .. r+n and the cursor moves to r + 1 + n; no other row changes.
Each of these rows holds E, also when the run has come to its end, and its
MOD form is that of E without the compression bit. -/
theorem repeat_directive (f : Nat) (p : p61a_pattern_t) (ch r m : Nat) (mem : List Nat)
    (t c0 n : Nat) (hn : n < 64) (hrow : r + 1 + n ≤ 64) (h0 : mem[t]? = some c0)
    (hcomp : c0 &&& 0x80 ≠ 0) (hne : p61a_shape_of c0 ≠ .empty)
    (hd : mem[t + get_channel_length ⟨c0, 0, 0⟩]? = some (0x80 + n)) :
    ∃ (E : p61a_channel_t) (P : p61a_pattern_t),
      E.data0 = c0 ∧ mem[t + 1]? = some E.data1 ∧
      (get_channel_length ⟨c0, 0, 0⟩ = 3 → mem[t + 2]? = some E.data2) ∧
      (get_channel_length ⟨c0, 0, 0⟩ = 2 → E.data2 = 0) ∧
      decompress_track (f + 1) p ch r m mem t =
        (if m = 1 then .ok (P, r + 1 + n)
         else decompress_track f P ch (r + 1 + n) (m - 1) mem
           (t + get_channel_length ⟨c0, 0, 0⟩ + 1)) ∧
      (∀ row, r ≤ row → row ≤ r + n → P row ch = E) ∧
      (∀ row c, (row < r ∨ r + n < row ∨ c ≠ ch) → P row c = p row c) ∧
      to_protracker_channel E = to_protracker_channel ⟨c0 &&& 0x7f, E.data1, E.data2⟩ ∧
      ∀ p' off', decompress_track (f + 1) p ch r m mem t = .ok (p', off') →
        r + 1 + n ≤ off' ∧ ∀ row, r ≤ row → row ≤ r + n → p' row ch = E := by
  obtain ⟨E, hev, e0, e1, e2, e3⟩ := read_event_nonempty p ch r mem t c0 hne
    (Nat.le_of_lt (getElem?_room mem _ _ hd))
  have hstep := decompress_track_repeat_step f p ch r m mem t c0 _ n (by omega)
    ((read_byte_ok_iff mem t _).2 h0) hev hcomp hn ((read_byte_ok_iff mem _ _).2 hd)
  simp only at hstep
  have hin : ∀ row, r ≤ row → row ≤ r + n →
      repeat_rows (store_row p r ch E) ch (r + 1) E n row ch = E := by
    intro row h1 h2
    by_cases h : row = r
    · subst h
      rw [repeat_rows_frame ch E n _ (row + 1) row ch (Or.inl (by omega))]
      simp [store_row]
    · exact repeat_rows_inside ch E n _ _ _ (by omega) (by omega)
  refine ⟨E, repeat_rows (store_row p r ch E) ch (r + 1) E n, e0, e1, e2, e3, hstep, hin,
    fun row c hrc => ?_, ?_, fun p' off' hok => ?_⟩
  · rw [repeat_rows_frame ch E n _ (r + 1) row c (by omega)]
    exact store_row_frame _ _ _ _ _ _ (by omega)
  · obtain ⟨a, b, c⟩ := E
    simp only at e0
    subst e0
    exact to_protracker_channel_compression_bit a b c
  · rw [hstep] at hok
    have hfr : r + 1 + n ≤ off' ∧ ∀ row c, (row < r + 1 + n ∨ off' ≤ row ∨ c ≠ ch) →
        p' row c = repeat_rows (store_row p r ch E) ch (r + 1) E n row c := by
      by_cases hm : m = 1
      · rw [if_pos hm] at hok
        simp only [Except.ok.injEq, Prod.mk.injEq] at hok
        obtain ⟨hp, ho⟩ := hok
        subst hp; subst ho
        exact ⟨Nat.le_refl _, fun _ _ _ => rfl⟩
      · rw [if_neg hm] at hok
        exact decompress_track_frame f _ _ _ _ _ _ _ _ hok
    refine ⟨hfr.1, fun row h1 h2 => ?_⟩
    rw [hfr.2 row ch (Or.inl (by omega))]
    exact hin row h1 h2

/-- C13 at the stream 88 10 00 82 decoded at row 0: the event is stored in
rows 0, 1 and 2. -/
theorem repeat_directive_witness :
    ∃ (E : p61a_channel_t) (P : p61a_pattern_t),
      E.data0 = 0x88 ∧ [0x88, 0x10, 0x00, 0x82][0 + 1]? = some E.data1 ∧
      (get_channel_length ⟨0x88, 0, 0⟩ = 3 → [0x88, 0x10, 0x00, 0x82][0 + 2]? = some E.data2) ∧
      (get_channel_length ⟨0x88, 0, 0⟩ = 2 → E.data2 = 0) ∧
      decompress_track (1 + 1) p61a_pattern_zero 0 0 0 [0x88, 0x10, 0x00, 0x82] 0 =
        (if 0 = 1 then .ok (P, 0 + 1 + 2)
         else decompress_track 1 P 0 (0 + 1 + 2) (0 - 1) [0x88, 0x10, 0x00, 0x82]
           (0 + get_channel_length ⟨0x88, 0, 0⟩ + 1)) ∧
      (∀ row, 0 ≤ row → row ≤ 0 + 2 → P row 0 = E) ∧
      (∀ row c, (row < 0 ∨ 0 + 2 < row ∨ c ≠ 0) → P row c = p61a_pattern_zero row c) ∧
      to_protracker_channel E = to_protracker_channel ⟨0x88 &&& 0x7f, E.data1, E.data2⟩ ∧
      ∀ p' off', decompress_track (1 + 1) p61a_pattern_zero 0 0 0 [0x88, 0x10, 0x00, 0x82] 0 =
          .ok (p', off') →
        0 + 1 + 2 ≤ off' ∧ ∀ row, 0 ≤ row → row ≤ 0 + 2 → p' row 0 = E :=
  repeat_directive 1 p61a_pattern_zero 0 0 0 [0x88, 0x10, 0x00, 0x82] 0 0x88 2
    (by decide) (by decide) rfl (by decide) (by decide) rfl

/-! ## The sample table -/

/-- What the loop of `build_samples` leaves: the header of every used slot it
visits, the payloads of the used slots in the order of the visit, and the
other fields as they were. -/
theorem build_samples_loop_spec (module : protracker_t) (usage : Nat → Bool) (slots : List Nat) :
    ∀ (output : player61a_t) (usecode : Nat),
      let r := (build_samples_loop module usage slots (output, usecode)).1
      (∀ k, r.sample_headers k =
        if k ∈ slots ∧ usage k = true then build_sample_header (module.sample_headers k)
        else output.sample_headers k) ∧
      r.samples = output.samples ++
        (slots.filter (fun i => usage i)).flatMap
          (fun i => build_sample_payload (module.sample_headers i) (module.sample_data i)) ∧
      r.patterns = output.patterns ∧ r.pattern_offsets = output.pattern_offsets ∧
      r.song = output.song ∧ r.pattern_count = output.pattern_count ∧
      r.sample_count = output.sample_count := by
  induction slots with
  | nil =>
    intro output usecode
    simp [build_samples_loop]
  | cons i rest ih =>
    intro output usecode
    simp only [build_samples_loop]
    by_cases hu : usage i = false
    · rw [if_pos hu]
      obtain ⟨h1, h2, h3⟩ := ih output usecode
      refine ⟨fun k => ?_, ?_, h3⟩
      · rw [h1 k]
        by_cases hk : k = i
        · subst hk; simp [hu]
        · simp [hk]
      · rw [h2, List.filter_cons_of_neg (by simp [hu])]
    · rw [if_neg hu]
      have hu' : usage i = true := by simpa using hu
      obtain ⟨h1, h2, h3⟩ := ih
        { output with
          sample_headers := fun k =>
            if k = i then build_sample_header (module.sample_headers i)
            else output.sample_headers k
          samples := output.samples ++
            build_sample_payload (module.sample_headers i) (module.sample_data i) }
        (if (build_sample_header (module.sample_headers i)).finetone ≠ 0
          then (usecode ||| 1) % 2 ^ 32 else usecode)
      refine ⟨fun k => ?_, ?_, h3⟩
      · rw [h1 k]
        by_cases hk : k = i
        · subst hk; simp [hu']
        · simp [hk]
      · rw [h2, List.filter_cons_of_pos (by simp [hu'])]
        simp [List.flatMap_cons]

/-- The inner loop of `build_patterns` leaves the sample fields, the song and
the pattern count as they were. -/
theorem build_patterns_inner_keeps (j : Nat) (patterns : List protracker_pattern_t) :
    ∀ (i : Nat) (s : player61a_t × Nat),
      let r := (build_patterns_inner j patterns i s).1
      r.sample_headers = s.1.sample_headers ∧ r.samples = s.1.samples ∧
      r.sample_count = s.1.sample_count ∧ r.song = s.1.song ∧
      r.pattern_count = s.1.pattern_count := by
  induction patterns with
  | nil => intro i s; simp [build_patterns_inner]
  | cons p rest ih =>
    intro i s
    obtain ⟨output, usecode⟩ := s
    simp only [build_patterns_inner]
    exact ih (i + 1) _

theorem build_patterns_outer_keeps (patterns : List protracker_pattern_t) (channels : List Nat) :
    ∀ (s : player61a_t × Nat),
      let r := (build_patterns_outer patterns channels s).1
      r.sample_headers = s.1.sample_headers ∧ r.samples = s.1.samples ∧
      r.sample_count = s.1.sample_count ∧ r.song = s.1.song ∧
      r.pattern_count = s.1.pattern_count := by
  induction channels with
  | nil => intro s; simp [build_patterns_outer]
  | cons j rest ih =>
    intro s
    simp only [build_patterns_outer]
    obtain ⟨a1, a2, a3, a4, a5⟩ := ih (build_patterns_inner j patterns 0 s)
    obtain ⟨b1, b2, b3, b4, b5⟩ := build_patterns_inner_keeps j patterns 0 s
    exact ⟨a1.trans b1, a2.trans b2, a3.trans b3, a4.trans b4, a5.trans b5⟩

/-- The sample side and the song of the module `player61a_convert` builds. -/
theorem player61a_build_samples (module : protracker_t) (usage : Nat → Bool) :
    let temp := player61a_build module usage
    (∀ k, temp.sample_headers k =
      if k < PT_NUM_SAMPLES ∧ usage k = true then build_sample_header (module.sample_headers k)
      else ⟨0, 0, 0, 0⟩) ∧
    temp.samples = ((List.range PT_NUM_SAMPLES).filter (fun i => usage i)).flatMap
      (fun i => build_sample_payload (module.sample_headers i) (module.sample_data i)) ∧
    temp.sample_count = used_sample_count usage % 256 ∧
    temp.song = ⟨module.song.length, module.song.positions⟩ ∧
    temp.pattern_count = module.patterns.length % 256 := by
  intro temp
  obtain ⟨a1, a2, a3, a4, a5⟩ := build_patterns_outer_keeps module.patterns
    (List.range PT_NUM_CHANNELS)
    ({ (build_samples player61a_create module usage 0).1 with
        pattern_count := module.patterns.length % 256
        song := ⟨module.song.length, module.song.positions⟩ },
     (build_samples player61a_create module usage 0).2)
  obtain ⟨s1, s2, _⟩ := build_samples_loop_spec module usage (List.range PT_NUM_SAMPLES)
    player61a_create 0
  have e : temp = (build_patterns_outer module.patterns (List.range PT_NUM_CHANNELS)
    ({ (build_samples player61a_create module usage 0).1 with
        pattern_count := module.patterns.length % 256
        song := ⟨module.song.length, module.song.positions⟩ },
     (build_samples player61a_create module usage 0).2)).1 := rfl
  rw [e]
  refine ⟨fun k => ?_, ?_, ?_, ?_, ?_⟩
  · rw [a1]
    simp only [build_samples]
    rw [s1 k]
    simp [player61a_create]
  · rw [a2]
    simp only [build_samples]
    rw [s2]
    simp [player61a_create]
  · rw [a3]; rfl
  · rw [a4]
  · rw [a5]

theorem be16_bytes_of_lt (x : Nat) (h : x < 65536) : be16_bytes x = [x / 256, x % 256] := by
  unfold be16_bytes
  rw [Nat.mod_eq_of_lt h]

/-- C14, failing input: the usage table marks slot indices 0 and 2 and not
index 1; the module has no pattern and an empty song. `player61a_convert`
writes sample_count 2 and a table of two records: the record of slot 0 and
the empty-sample record of the unused slot 1. The header built for slot 2,
the second used slot, is 00 03 00 40 FF FF and is not written. -/
theorem sample_table_keeps_gaps :
    player61a_convert []
      { song := ⟨0, 0, List.replicate 128 0⟩, patterns := [],
        sample_headers := fun i =>
          if i = 0 then ⟨2, 0, 64, 0, 1⟩ else if i = 2 then ⟨3, 0, 64, 0, 1⟩
          else ⟨0, 0, 0, 0, 0⟩,
        sample_data := fun _ _ => 0 }
      (fun i => i = 0 || i = 2) ⟨false, true, false⟩ =
      [0x00, 0x12, 0x00, 0x02,
       0x00, 0x02, 0x00, 0x40, 0xff, 0xff,
       0x00, 0x01, 0x00, 0x00, 0xff, 0xff,
       0xff, 0x00] ∧
    write_sample_record (build_sample_header ⟨3, 0, 64, 0, 1⟩) =
      [0x00, 0x03, 0x00, 0x40, 0xff, 0xff] ∧
    (List.range PT_NUM_SAMPLES).filter (fun i => i = 0 || i = 2) = [0, 2] := by
  refine ⟨by decide, by decide, by decide⟩

/-- C17: for a used slot whose sample has length > 0, finetone at most 15
and, when it loops, its loop inside the sample, `build_samples` writes a
header with the volume cut at 64 and the same finetone; when the sample does
not loop, with repeat_offset 0xFFFF and the same length, and
`player61a_load` turns it into repeat_offset 0 and repeat_length 1; when it
loops, with the same repeat_offset, below 0xFFFF, and length
repeat_offset + repeat_length, and `player61a_load` gives the repeat_offset
and repeat_length of the module back. -/
theorem sample_header_roundtrip (output : player61a_t) (module : protracker_t)
    (usage : Nat → Bool) (usecode i : Nat) (hi : i < PT_NUM_SAMPLES) (hu : usage i = true)
    (hwf : (module.sample_headers i).wf) (hlen : (module.sample_headers i).length > 0)
    (hft : (module.sample_headers i).finetone ≤ 15)
    (hloop : (module.sample_headers i).repeat_length > 1 →
      (module.sample_headers i).repeat_offset + (module.sample_headers i).repeat_length ≤
        (module.sample_headers i).length) :
    let s := module.sample_headers i
    let h := (build_samples output module usage usecode).1.sample_headers i
    h = build_sample_header s ∧
    h.volume = min s.volume 64 ∧ h.finetone = s.finetone ∧
    (load_sample_header h).finetone = s.finetone ∧
    (load_sample_header h).volume = min s.volume 64 ∧
    (load_sample_header h).length = h.length ∧
    (¬ s.repeat_length > 1 →
      h.repeat_offset = 0xffff ∧ h.length = s.length ∧
      (load_sample_header h).repeat_offset = 0 ∧ (load_sample_header h).repeat_length = 1) ∧
    (s.repeat_length > 1 →
      h.repeat_offset = s.repeat_offset ∧ h.repeat_offset < 0xffff ∧
      h.length = s.repeat_offset + s.repeat_length ∧
      (load_sample_header h).repeat_offset = s.repeat_offset ∧
      (load_sample_header h).repeat_length = s.repeat_length) := by
  intro s h
  have hh : h = build_sample_header s := by
    obtain ⟨s1, _⟩ := build_samples_loop_spec module usage (List.range PT_NUM_SAMPLES) output
      usecode
    show (build_samples output module usage usecode).1.sample_headers i = _
    simp only [build_samples]
    rw [s1 i, if_pos ⟨List.mem_range.2 hi, hu⟩]
  have hwf' : s.wf := hwf
  have hlen0 : s.length > 0 := hlen
  have hft0 : s.finetone ≤ 15 := hft
  have hloop' : s.repeat_length > 1 → s.repeat_offset + s.repeat_length ≤ s.length := hloop
  clear hwf hlen hft hloop
  refine ⟨hh, ?_⟩
  rw [hh]
  clear hh
  clear_value h s
  have hft' : s.finetone &&& 0x0f = s.finetone := and_15_of_lt _ (by omega)
  obtain ⟨w1, w2, w3, w4, w5⟩ := hwf'
  have hlen' : s.length ≠ 0 := by omega
  by_cases hl : s.repeat_length > 1
  · have hin := hloop' hl
    have hb : build_sample_header s = ⟨(s.repeat_offset + s.repeat_length) % 65536, s.finetone,
        if s.volume > 64 then 64 else s.volume, s.repeat_offset⟩ := by
      unfold build_sample_header
      rw [if_neg hlen', if_pos hl]
    have hmod : (s.repeat_offset + s.repeat_length) % 65536 = s.repeat_offset + s.repeat_length :=
      Nat.mod_eq_of_lt (by omega)
    rw [hb, hmod]
    have hne : s.repeat_offset ≠ 0xffff := by omega
    simp only [load_sample_header, if_neg hne, hft']
    refine ⟨by split_ifs <;> omega, trivial, trivial, by split_ifs <;> omega, trivial,
      fun h => absurd hl h, fun _ => ⟨trivial, by omega, trivial, trivial, by omega⟩⟩
  · have hb : build_sample_header s = ⟨s.length, s.finetone,
        if s.volume > 64 then 64 else s.volume, 0xffff⟩ := by
      unfold build_sample_header
      rw [if_neg hlen', if_neg hl]
    rw [hb]
    simp only [load_sample_header, if_true, hft']
    refine ⟨by split_ifs <;> omega, trivial, trivial, by split_ifs <;> omega, trivial,
      fun _ => ⟨trivial, trivial, trivial, trivial⟩, fun h => absurd h hl⟩

/-- C17 at a looping sample of 8 words with loop 2..6, finetone 3 and volume
70 in slot 0. -/
theorem sample_header_roundtrip_witness :
    (build_samples player61a_create
        { song := ⟨0, 0, []⟩, patterns := [],
          sample_headers := fun _ => ⟨8, 3, 70, 2, 4⟩, sample_data := fun _ _ => 0 }
        (fun _ => true) 0).1.sample_headers 0 = build_sample_header ⟨8, 3, 70, 2, 4⟩ ∧
    load_sample_header (build_sample_header ⟨8, 3, 70, 2, 4⟩) = ⟨6, 3, 64, 2, 4⟩ := by
  have h := sample_header_roundtrip player61a_create
    { song := ⟨0, 0, []⟩, patterns := [],
      sample_headers := fun _ => ⟨8, 3, 70, 2, 4⟩, sample_data := fun _ _ => 0 }
    (fun _ => true) 0 0 (by decide) rfl (by decide) (by decide) (by decide) (by decide)
  exact ⟨h.1, by decide⟩


/-! ## The track layout -/

/-- The event `to_p61a_channel` writes does not depend on the use-code. -/
theorem to_p61a_channel_out_usecode (e : protracker_channel_t) (usecode : Nat) :
    (to_p61a_channel e usecode).out = (to_p61a_channel e 0).out := by
  unfold to_p61a_channel
  simp only []
  by_cases h1 : index_from_period (protracker_get_period e) = 0 ∧ protracker_get_sample e = 0 ∧
      (normalize_effect (protracker_get_effect e)).2 = false
  · rw [if_pos h1, if_pos h1]
  rw [if_neg h1, if_neg h1]
  by_cases h2 : index_from_period (protracker_get_period e) ≠ 0 ∧ protracker_get_sample e ≠ 0 ∧
      (normalize_effect (protracker_get_effect e)).2 = false
  · rw [if_pos h2, if_pos h2]
  rw [if_neg h2, if_neg h2]
  by_cases h3 : index_from_period (protracker_get_period e) = 0 ∧ protracker_get_sample e = 0 ∧
      (normalize_effect (protracker_get_effect e)).2 = true
  · rw [if_pos h3, if_pos h3]
  rw [if_neg h3, if_neg h3]

theorem build_track_loop_events (pattern : protracker_pattern_t) (j : Nat) (rows : List Nat) :
    ∀ (channel : List p61a_channel_t) (usecode : Nat),
      (build_track_loop pattern j rows (channel, usecode)).1 =
        channel ++ rows.map (fun row => (to_p61a_channel (pattern row j) 0).out) := by
  induction rows with
  | nil => intro channel usecode; simp [build_track_loop]
  | cons i rest ih =>
    intro channel usecode
    simp only [build_track_loop]
    rw [ih, to_p61a_channel_out_usecode]
    simp

/-- The bytes appended for a track are `track_bytes`, whatever the use-code. -/
theorem build_track_bytes (pattern : protracker_pattern_t) (j usecode : Nat) :
    (build_track pattern j usecode).1.flatMap channel_bytes = track_bytes pattern j := by
  unfold build_track track_bytes
  rw [build_track_loop_events, List.nil_append, List.flatMap_map]

theorem channel_bytes_length (c : p61a_channel_t) :
    (channel_bytes c).length = get_channel_length c := by
  unfold channel_bytes
  have := get_channel_length_le c
  simp
  omega

theorem length_flatMap_ge {α : Type} (l : List α) (f : α → List Nat) (k : Nat)
    (h : ∀ a ∈ l, k ≤ (f a).length) : k * l.length ≤ (l.flatMap f).length := by
  induction l with
  | nil => simp
  | cons a rest ih =>
    simp only [List.flatMap_cons, List.length_append, List.length_cons]
    have h1 := h a (List.mem_cons_self _ _)
    have h2 := ih (fun b hb => h b (List.mem_cons_of_mem _ hb))
    rw [Nat.mul_succ]
    omega

theorem length_flatMap_sum {α : Type} (l : List α) (f : α → List Nat) :
    (l.flatMap f).length = (l.map (fun a => (f a).length)).sum := by
  induction l with
  | nil => simp
  | cons a rest ih => simp [ih]

theorem track_bytes_length_ge (pattern : protracker_pattern_t) (j : Nat) :
    64 ≤ (track_bytes pattern j).length := by
  unfold track_bytes
  have := length_flatMap_ge (List.range PT_PATTERN_ROWS)
    (fun row => channel_bytes (to_p61a_channel (pattern row j) 0).out) 1
    (fun a _ => by rw [channel_bytes_length]; exact (get_channel_length_le _).1)
  simpa [PT_PATTERN_ROWS] using this

/-- The inner loop of `build_patterns`: the tracks of channel `j` are appended
in pattern order, and the offset recorded for each is the size of the buffer
before it, as a `uint16_t`. -/
theorem build_patterns_inner_spec (j : Nat) (patterns : List protracker_pattern_t) :
    ∀ (i : Nat) (s : player61a_t × Nat),
      let r := (build_patterns_inner j patterns i s).1
      r.patterns = s.1.patterns ++ patterns.flatMap (fun p => track_bytes p j) ∧
      ∀ i' j', r.pattern_offsets i' j' =
        if j' = j ∧ i ≤ i' ∧ i' < i + patterns.length then
          (s.1.patterns.length +
            ((patterns.take (i' - i)).flatMap (fun p => track_bytes p j)).length) % 65536
        else s.1.pattern_offsets i' j' := by
  induction patterns with
  | nil =>
    intro i s
    simp only [build_patterns_inner, List.flatMap_nil, List.append_nil, List.length_nil,
      Nat.add_zero, true_and]
    intro i' j'
    rw [if_neg (by omega)]
  | cons p rest ih =>
    intro i s
    obtain ⟨output, usecode⟩ := s
    simp only [build_patterns_inner]
    obtain ⟨h1, h2⟩ := ih (i + 1)
      ({ output with
          pattern_offsets := fun i' j' =>
            if i' = i ∧ j' = j then output.patterns.length % 65536
            else output.pattern_offsets i' j'
          patterns := output.patterns ++ (build_track p j usecode).1.flatMap channel_bytes },
       (build_track p j usecode).2)
    refine ⟨?_, fun i' j' => ?_⟩
    · rw [h1]
      simp only [build_track_bytes, List.flatMap_cons, List.append_assoc]
    · rw [h2 i' j']
      simp only [build_track_bytes, List.length_append, List.length_cons]
      by_cases hj : j' = j
      · by_cases hlt : i + 1 ≤ i' ∧ i' < i + 1 + rest.length
        · rw [if_pos ⟨hj, hlt⟩, if_pos ⟨hj, by omega, by omega⟩]
          have : i' - i = (i' - (i + 1)) + 1 := by omega
          rw [this, List.take_succ_cons, List.flatMap_cons, List.length_append]
          congr 1
          omega
        · rw [if_neg (fun h => hlt h.2)]
          by_cases hi : i' = i
          · subst hi
            rw [if_pos ⟨rfl, hj⟩, if_pos ⟨hj, by omega, by omega⟩]
            simp
          · rw [if_neg (fun h => hi h.1), if_neg (by omega)]
      · rw [if_neg (fun h => hj h.1), if_neg (fun h => hj h.2), if_neg (fun h => hj h.1)]

/-- The four passes of the outer loop of `build_patterns`: the tracks are laid
out channel by channel, within a channel pattern by pattern, and every
recorded offset is the size of the buffer before the track. -/
theorem build_patterns_outer_spec (patterns : List protracker_pattern_t)
    (s : player61a_t × Nat) (r : player61a_t)
    (hr : r = (build_patterns_outer patterns (List.range PT_NUM_CHANNELS) s).1) :
    r.patterns = s.1.patterns ++
      (List.range PT_NUM_CHANNELS).flatMap (fun j => patterns.flatMap (fun p => track_bytes p j)) ∧
    ∀ i j, i < patterns.length → j < PT_NUM_CHANNELS →
      r.pattern_offsets i j =
        (s.1.patterns.length +
          ((List.range j).flatMap (fun j' => patterns.flatMap (fun p => track_bytes p j'))).length +
          ((patterns.take i).flatMap (fun p => track_bytes p j)).length) % 65536 := by
  have h4 : List.range PT_NUM_CHANNELS = [0, 1, 2, 3] := by decide
  have hstep : ∀ (j : Nat) (rest : List Nat) (s' : player61a_t × Nat),
      build_patterns_outer patterns (j :: rest) s' =
        build_patterns_outer patterns rest (build_patterns_inner j patterns 0 s') :=
    fun _ _ _ => rfl
  have hnil : ∀ s' : player61a_t × Nat, build_patterns_outer patterns [] s' = s' :=
    fun _ => rfl
  rw [h4] at hr ⊢
  rw [hstep, hstep, hstep, hstep, hnil] at hr
  obtain ⟨a1, a2⟩ := build_patterns_inner_spec 0 patterns 0 s
  obtain ⟨b1, b2⟩ := build_patterns_inner_spec 1 patterns 0 (build_patterns_inner 0 patterns 0 s)
  obtain ⟨c1, c2⟩ := build_patterns_inner_spec 2 patterns 0
    (build_patterns_inner 1 patterns 0 (build_patterns_inner 0 patterns 0 s))
  obtain ⟨d1, d2⟩ := build_patterns_inner_spec 3 patterns 0
    (build_patterns_inner 2 patterns 0
      (build_patterns_inner 1 patterns 0 (build_patterns_inner 0 patterns 0 s)))
  subst hr
  refine ⟨?_, fun i j hi hj => ?_⟩
  · rw [d1, c1, b1, a1]
    simp [List.flatMap_cons, List.append_assoc]
  · have r1 : List.range 1 = [0] := by decide
    have r2 : List.range 2 = [0, 1] := by decide
    have r3 : List.range 3 = [0, 1, 2] := by decide
    have hj' : j < 4 := hj
    rw [d2 i j]
    interval_cases j
    · rw [if_neg (by omega), c2, if_neg (by omega), b2, if_neg (by omega), a2,
        if_pos ⟨rfl, by omega, by omega⟩]
      simp
    · rw [if_neg (by omega), c2, if_neg (by omega), b2, if_pos ⟨rfl, by omega, by omega⟩, a1, r1]
      simp [List.flatMap_cons]
    · rw [if_neg (by omega), c2, if_pos ⟨rfl, by omega, by omega⟩, b1, a1, r2]
      simp [List.flatMap_cons, Nat.add_assoc]
    · rw [if_pos ⟨rfl, by omega, by omega⟩, c1, b1, a1, r3]
      simp [List.flatMap_cons, Nat.add_assoc]

/-- What `build_patterns` leaves in the track buffer and the offset table. -/
theorem build_patterns_spec (output : player61a_t) (input : protracker_t) (usecode : Nat) :
    (build_patterns output input usecode).1.patterns = output.patterns ++
      (List.range PT_NUM_CHANNELS).flatMap
        (fun j => input.patterns.flatMap (fun p => track_bytes p j)) ∧
    ∀ i j, i < input.patterns.length → j < PT_NUM_CHANNELS →
      (build_patterns output input usecode).1.pattern_offsets i j =
        (output.patterns.length +
          ((List.range j).flatMap
            (fun j' => input.patterns.flatMap (fun p => track_bytes p j'))).length +
          ((input.patterns.take i).flatMap (fun p => track_bytes p j)).length) % 65536 := by
  unfold build_patterns
  exact build_patterns_outer_spec input.patterns _ _ rfl

theorem build_samples_patterns (output : player61a_t) (module : protracker_t)
    (usage : Nat → Bool) (usecode : Nat) :
    (build_samples output module usage usecode).1.patterns = output.patterns := by
  obtain ⟨_, _, s3, _⟩ := build_samples_loop_spec module usage (List.range PT_NUM_SAMPLES)
    output usecode
  simp only [build_samples]
  exact s3


theorem player61a_build_eq (module : protracker_t) (usage : Nat → Bool) :
    player61a_build module usage =
      (build_patterns (build_samples player61a_create module usage 0).1 module
        (build_samples player61a_create module usage 0).2).1 := rfl

/-- The pattern side of the module `player61a_convert` builds. -/
theorem player61a_build_patterns (module : protracker_t) (usage : Nat → Bool) :
    (player61a_build module usage).patterns = (List.range PT_NUM_CHANNELS).flatMap
      (fun j => module.patterns.flatMap (fun p => track_bytes p j)) ∧
    ∀ i j, i < module.patterns.length → j < PT_NUM_CHANNELS →
      (player61a_build module usage).pattern_offsets i j =
        (((List.range j).flatMap
            (fun j' => module.patterns.flatMap (fun p => track_bytes p j'))).length +
          ((module.patterns.take i).flatMap (fun p => track_bytes p j)).length) % 65536 := by
  rw [player61a_build_eq]
  obtain ⟨h1, h2⟩ := build_patterns_spec (build_samples player61a_create module usage 0).1 module
    (build_samples player61a_create module usage 0).2
  have hp : (build_samples player61a_create module usage 0).1.patterns = [] :=
    build_samples_patterns _ _ _ _
  refine ⟨?_, fun i j hi hj => ?_⟩
  · rw [h1, hp, List.nil_append]
  · rw [h2 i j hi hj, hp, List.length_nil, Nat.zero_add]

/-! ## The song part -/

theorem length_flatMap_const {α : Type} (l : List α) (f : α → List Nat) (k : Nat)
    (h : ∀ a ∈ l, (f a).length = k) : (l.flatMap f).length = k * l.length := by
  induction l with
  | nil => simp
  | cons a rest ih =>
    simp only [List.flatMap_cons, List.length_append, List.length_cons]
    rw [h a (List.mem_cons_self _ _), ih (fun b hb => h b (List.mem_cons_of_mem _ hb)),
      Nat.mul_succ]
    omega

theorem flatMap_congr_mem {α : Type} (l : List α) (f g : α → List Nat)
    (h : ∀ a ∈ l, f a = g a) : l.flatMap f = l.flatMap g := by
  induction l with
  | nil => rfl
  | cons a rest ih =>
    simp only [List.flatMap_cons]
    rw [h a (List.mem_cons_self _ _), ih (fun b hb => h b (List.mem_cons_of_mem _ hb))]

theorem write_sample_record_length (inp : p61a_sample_t) :
    (write_sample_record inp).length = sizeof_p61a_sample_t := by
  unfold write_sample_record be16_bytes
  split_ifs <;> rfl

theorem sample_table_length (module : player61a_t) :
    (sample_table module).length = sizeof_p61a_sample_t * module.sample_count := by
  unfold sample_table
  rw [length_flatMap_const _ _ sizeof_p61a_sample_t (fun a _ => write_sample_record_length _),
    List.length_range]

theorem pattern_offset_table_length (module : player61a_t) :
    (pattern_offset_table module).length = sizeof_p61a_pattern_offset_t * module.pattern_count := by
  unfold pattern_offset_table
  rw [length_flatMap_const _ _ sizeof_p61a_pattern_offset_t, List.length_range]
  intro a _
  rw [length_flatMap_const (List.range PT_NUM_CHANNELS)
    (fun j => be16_bytes (module.pattern_offsets a j)) 2 (fun b _ => rfl)]
  rfl

/-- The layout of what `write_song` appends: the signature when asked for,
then a body that starts with the header, holds the two tables, the positions
with their terminator and the tracks, and has `get_sample_offset` bytes. -/
theorem write_song_layout (buffer : List Nat) (module : player61a_t) (options : p61a_options_t)
    (hL : module.song.length ≤ module.song.positions.length)
    (heven : buffer.length % 2 = 0) :
    ∃ pad,
      write_song buffer module options =
        buffer ++ (if options.sign then signature else []) ++
          (be16_bytes (get_sample_offset module) ++ [module.pattern_count, module.sample_count] ++
            sample_table module ++ pattern_offset_table module ++
            (module.song.positions.take module.song.length ++ [0xff] ++ module.patterns) ++
            pad) ∧
      (pad = [] ∨ pad = [0]) ∧
      (be16_bytes (get_sample_offset module) ++ [module.pattern_count, module.sample_count] ++
        sample_table module ++ pattern_offset_table module ++
        (module.song.positions.take module.song.length ++ [0xff] ++ module.patterns) ++
        pad).length = get_sample_offset module := by
  have hsig : (if options.sign then signature else []).length % 2 = 0 := by
    split_ifs <;> rfl
  have hinner : (be16_bytes (get_sample_offset module) ++
      [module.pattern_count, module.sample_count] ++ sample_table module ++
      pattern_offset_table module ++
      (module.song.positions.take module.song.length ++ [0xff] ++ module.patterns)).length =
      sizeof_p61a_header_t + sizeof_p61a_sample_t * module.sample_count +
        sizeof_p61a_pattern_offset_t * module.pattern_count + (module.song.length + 1) +
        module.patterns.length := by
    simp only [List.length_append, sample_table_length, pattern_offset_table_length,
      List.length_take, List.length_cons, List.length_nil, be16_bytes, sizeof_p61a_header_t]
    rw [Nat.min_eq_left hL]
    omega
  have hws : write_song buffer module options =
      (if ((buffer ++ (if options.sign then signature else [])) ++
          (be16_bytes (get_sample_offset module) ++
            [module.pattern_count, module.sample_count] ++ sample_table module ++
            pattern_offset_table module ++
            (module.song.positions.take module.song.length ++ [0xff] ++ module.patterns))).length
          % 2 = 1
       then (buffer ++ (if options.sign then signature else [])) ++
          (be16_bytes (get_sample_offset module) ++
            [module.pattern_count, module.sample_count] ++ sample_table module ++
            pattern_offset_table module ++
            (module.song.positions.take module.song.length ++ [0xff] ++ module.patterns)) ++ [0]
       else (buffer ++ (if options.sign then signature else [])) ++
          (be16_bytes (get_sample_offset module) ++
            [module.pattern_count, module.sample_count] ++ sample_table module ++
            pattern_offset_table module ++
            (module.song.positions.take module.song.length ++ [0xff] ++ module.patterns))) := by
    unfold write_song sample_table pattern_offset_table
    simp only []
    by_cases hs : options.sign = true
    · simp only [hs, if_true, List.append_assoc]
    · simp only [hs, Bool.false_eq_true, if_false, List.append_nil, List.append_assoc]
  rw [hws]
  generalize be16_bytes (get_sample_offset module) ++
      [module.pattern_count, module.sample_count] ++ sample_table module ++
      pattern_offset_table module ++
      (module.song.positions.take module.song.length ++ [0xff] ++ module.patterns) = inner
    at hinner
  have hso : get_sample_offset module =
      if inner.length % 2 = 1 then inner.length + 1 else inner.length := by
    unfold get_sample_offset
    simp only []
    rw [hinner]
  have hpar : ((buffer ++ (if options.sign then signature else [])) ++ inner).length % 2 =
      inner.length % 2 := by
    simp only [List.length_append]
    omega
  rw [hpar]
  by_cases hodd : inner.length % 2 = 1
  · rw [if_pos hodd]
    refine ⟨[0], ?_, Or.inr rfl, ?_⟩
    · simp only [List.append_assoc]
    · rw [hso, if_pos hodd]
      simp only [List.length_append, List.length_cons, List.length_nil]
  · rw [if_neg hodd]
    refine ⟨[], ?_, Or.inl rfl, ?_⟩
    · simp only [List.append_assoc, List.append_nil]
    · rw [hso, if_neg hodd]
      simp only [List.length_append, List.length_cons, List.length_nil, Nat.add_zero]

/-- The tables of `write_song`: whatever the module, the output is the buffer,
the signature when asked for, the four header bytes, the sample table, the
pattern-offset table, and the rest. -/
theorem write_song_tables (buffer : List Nat) (module : player61a_t) (options : p61a_options_t) :
    ∃ post,
      write_song buffer module options =
        buffer ++ (if options.sign then signature else []) ++
          (be16_bytes (get_sample_offset module) ++ [module.pattern_count, module.sample_count]) ++
          sample_table module ++ pattern_offset_table module ++ post := by
  unfold write_song sample_table pattern_offset_table
  simp only []
  by_cases hs : options.sign = true
  · simp only [hs, if_true]
    split_ifs
    · exact ⟨module.song.positions.take module.song.length ++ [0xff] ++ module.patterns ++ [0],
        by simp only [List.append_assoc]⟩
    · exact ⟨module.song.positions.take module.song.length ++ [0xff] ++ module.patterns,
        by simp only [List.append_assoc]⟩
  · simp only [hs, Bool.false_eq_true, if_false, List.append_nil]
    split_ifs
    · exact ⟨module.song.positions.take module.song.length ++ [0xff] ++ module.patterns ++ [0],
        by simp only [List.append_assoc]⟩
    · exact ⟨module.song.positions.take module.song.length ++ [0xff] ++ module.patterns,
        by simp only [List.append_assoc]⟩

/-- The output of `player61a_convert` into an empty buffer with the song part
enabled: the signature when asked for, a song part of `get_sample_offset`
bytes whose first two bytes are that number as a big-endian word, and the
sample payloads when asked for. -/
theorem player61a_convert_song (module : protracker_t) (usage : Nat → Bool)
    (options : p61a_options_t) (hsong : options.song = true)
    (hL : module.song.length ≤ module.song.positions.length) :
    ∃ body,
      player61a_convert [] module usage options =
        (if options.sign then signature else []) ++ body ++
          (if options.samples then (player61a_build module usage).samples else []) ∧
      body.length = get_sample_offset (player61a_build module usage) ∧
      body.take 2 = be16_bytes (get_sample_offset (player61a_build module usage)) := by
  have hsg := (player61a_build_samples module usage).2.2.2.1
  simp only [] at hsg
  have hL' : (player61a_build module usage).song.length ≤
      (player61a_build module usage).song.positions.length := by
    rw [hsg]
    exact hL
  obtain ⟨pad, hw, _, hlen⟩ := write_song_layout [] (player61a_build module usage) options hL' rfl
  refine ⟨_, ?_, hlen, ?_⟩
  · unfold player61a_convert write_samples
    simp only [hsong, if_true]
    rw [hw]
    by_cases hsm : options.samples = true
    · simp only [hsm, if_true, List.nil_append]
    · simp only [hsm, Bool.false_eq_true, if_false, List.nil_append, List.append_nil]
  · simp [be16_bytes]

/-- The track of a pattern whose events are all the same full event has
3 bytes for each of the 64 rows. -/
theorem track_bytes_full_length (e : protracker_channel_t) (j : Nat)
    (h : (channel_bytes (to_p61a_channel e 0).out).length = 3) :
    (track_bytes (fun _ _ => e) j).length = 192 := by
  unfold track_bytes
  rw [length_flatMap_const _ _ 3 (fun _ _ => h), List.length_range]
  rfl

/-- C15, counterexample: a module of 100 patterns whose events all carry
sample 1 and nothing else (three bytes each), no sample, an empty song. The
song part written into an empty buffer has 77606 bytes, and its first two
bytes, the sample_offset field, are 2F 26, which is 12070. -/
theorem sample_offset_wraps :
    ∃ body,
      player61a_convert []
        { song := ⟨0, 0, List.replicate PT_NUM_POSITIONS 0⟩,
          patterns := List.replicate 100 (fun _ _ => ⟨0x00, 0x00, 0x10, 0x00⟩),
          sample_headers := fun _ => ⟨0, 0, 0, 0, 0⟩, sample_data := fun _ _ => 0 }
        (fun _ => false) ⟨false, true, false⟩ = body ∧
      body.length = 77606 ∧ body.take 2 = [0x2f, 0x26] ∧ 0x2f * 256 + 0x26 = 12070 := by
  obtain ⟨body, h1, h2, h3⟩ := player61a_convert_song
    { song := ⟨0, 0, List.replicate PT_NUM_POSITIONS 0⟩,
      patterns := List.replicate 100 (fun _ _ => ⟨0x00, 0x00, 0x10, 0x00⟩),
      sample_headers := fun _ => ⟨0, 0, 0, 0, 0⟩, sample_data := fun _ _ => 0 }
    (fun _ => false) ⟨false, true, false⟩ rfl (Nat.zero_le _)
  obtain ⟨_, _, s3, s4, s5⟩ := player61a_build_samples
    { song := ⟨0, 0, List.replicate PT_NUM_POSITIONS 0⟩,
      patterns := List.replicate 100 (fun _ _ => ⟨0x00, 0x00, 0x10, 0x00⟩),
      sample_headers := fun _ => ⟨0, 0, 0, 0, 0⟩, sample_data := fun _ _ => 0 }
    (fun _ => false)
  obtain ⟨p1, _⟩ := player61a_build_patterns
    { song := ⟨0, 0, List.replicate PT_NUM_POSITIONS 0⟩,
      patterns := List.replicate 100 (fun _ _ => ⟨0x00, 0x00, 0x10, 0x00⟩),
      sample_headers := fun _ => ⟨0, 0, 0, 0, 0⟩, sample_data := fun _ _ => 0 }
    (fun _ => false)
  simp only [] at s3 s4 s5 p1
  have hused : used_sample_count (fun _ => false) = 0 := by decide
  have htr : ∀ j, ((List.replicate 100
      (fun (_ _ : Nat) => (⟨0x00, 0x00, 0x10, 0x00⟩ : protracker_channel_t))).flatMap
        (fun p => track_bytes p j)).length = 19200 := by
    intro j
    rw [length_flatMap_const _ _ 192, List.length_replicate]
    intro p hp
    rw [List.eq_of_mem_replicate hp]
    exact track_bytes_full_length _ j (by decide)
  have hpl : (player61a_build
      { song := ⟨0, 0, List.replicate PT_NUM_POSITIONS 0⟩,
        patterns := List.replicate 100 (fun _ _ => ⟨0x00, 0x00, 0x10, 0x00⟩),
        sample_headers := fun _ => ⟨0, 0, 0, 0, 0⟩, sample_data := fun _ _ => 0 }
      (fun _ => false)).patterns.length = 76800 := by
    rw [p1, length_flatMap_const _ _ 19200 (fun j _ => htr j)]
    rfl
  have hso : get_sample_offset (player61a_build
      { song := ⟨0, 0, List.replicate PT_NUM_POSITIONS 0⟩,
        patterns := List.replicate 100 (fun _ _ => ⟨0x00, 0x00, 0x10, 0x00⟩),
        sample_headers := fun _ => ⟨0, 0, 0, 0, 0⟩, sample_data := fun _ _ => 0 }
      (fun _ => false)) = 77606 := by
    unfold get_sample_offset
    simp only []
    rw [hpl, s3, s4, s5, hused, List.length_replicate]
    rfl
  rw [hso] at h2 h3
  refine ⟨body, ?_, h2, ?_, rfl⟩
  · rw [h1]
    simp
  · rw [h3]
    rfl

/-- C15, amended: for every module whose song length is within its position
list, `player61a_convert` with the song part enabled, writing into an empty
buffer, emits after the optional signature a song part whose first two bytes,
the sample_offset field, hold the number of bytes of the song part (header to
alignment pad) modulo 65536, big-endian; the sample payloads follow the song
part. When the song part is shorter than 65536 bytes the field is that
number. -/
theorem sample_offset_field (module : protracker_t) (usage : Nat → Bool)
    (options : p61a_options_t) (hsong : options.song = true)
    (hL : module.song.length ≤ module.song.positions.length) :
    ∃ body,
      player61a_convert [] module usage options =
        (if options.sign then signature else []) ++ body ++
          (if options.samples then (player61a_build module usage).samples else []) ∧
      body.take 2 = [(body.length % 65536) / 256, body.length % 256] ∧
      (body.length < 65536 → body.take 2 = [body.length / 256, body.length % 256]) := by
  obtain ⟨body, h1, h2, h3⟩ := player61a_convert_song module usage options hsong hL
  refine ⟨body, h1, ?_, fun hlt => ?_⟩
  · rw [h3, h2]
    rfl
  · rw [h3, h2, be16_bytes_of_lt _ (h2 ▸ hlt)]

/-- C15 at a module with no pattern, no sample and one position, written with
signature, song part and samples. -/
theorem sample_offset_field_witness :
    ∃ body,
      player61a_convert []
        { song := ⟨1, 0, List.replicate PT_NUM_POSITIONS 0⟩, patterns := [],
          sample_headers := fun _ => ⟨0, 0, 0, 0, 0⟩, sample_data := fun _ _ => 0 }
        (fun _ => false) ⟨true, true, true⟩ =
        (if (⟨true, true, true⟩ : p61a_options_t).sign then signature else []) ++ body ++
          (if (⟨true, true, true⟩ : p61a_options_t).samples then
            (player61a_build
              { song := ⟨1, 0, List.replicate PT_NUM_POSITIONS 0⟩, patterns := [],
                sample_headers := fun _ => ⟨0, 0, 0, 0, 0⟩, sample_data := fun _ _ => 0 }
              (fun _ => false)).samples else []) ∧
      body.take 2 = [(body.length % 65536) / 256, body.length % 256] ∧
      (body.length < 65536 → body.take 2 = [body.length / 256, body.length % 256]) :=
  sample_offset_field
    { song := ⟨1, 0, List.replicate PT_NUM_POSITIONS 0⟩, patterns := [],
      sample_headers := fun _ => ⟨0, 0, 0, 0, 0⟩, sample_data := fun _ _ => 0 }
    (fun _ => false) ⟨true, true, true⟩ rfl (by simp [PT_NUM_POSITIONS])

/-! ## The sample payloads and the empty sample -/

theorem build_sample_payload_length (input : protracker_sample_t) (data : Nat → Nat) :
    (build_sample_payload input data).length = (build_sample_header input).length * 2 := by
  unfold build_sample_payload
  by_cases h : input.length > 0
  · rw [if_pos h, List.length_map, List.length_range]
  · rw [if_neg h]
    have h0 : input.length = 0 := by omega
    unfold build_sample_header
    rw [if_pos h0]
    rfl

/-- C16, counterexample: slot 0 is used and empty (length 0 in the module);
the sample payload block `player61a_convert` writes is two zero bytes. -/
theorem empty_sample_payload :
    player61a_convert []
      { song := ⟨0, 0, List.replicate PT_NUM_POSITIONS 0⟩, patterns := [],
        sample_headers := fun _ => ⟨0, 0, 0, 0, 0⟩, sample_data := fun _ _ => 0 }
      (fun i => decide (i = 0)) ⟨false, false, true⟩ = [0, 0] := by
  decide

/-- C16, amended: the sample payload block written by `player61a_convert` is
the concatenation, in slot order, of the payloads of the used sample slots,
each of exactly (its P61A header length) x 2 bytes: the first bytes of the
slot's sample data when the module's length is not 0, and two zero bytes
(the P61A header length being 1) for an empty sample. -/
theorem sample_payload_block (buffer : List Nat) (module : protracker_t) (usage : Nat → Bool)
    (options : p61a_options_t) :
    let temp := player61a_build module usage
    (options.samples = true →
      player61a_convert buffer module usage options =
        (if options.song then write_song buffer temp options else buffer) ++ temp.samples) ∧
    temp.samples = ((List.range PT_NUM_SAMPLES).filter (fun i => usage i)).flatMap
      (fun i => build_sample_payload (module.sample_headers i) (module.sample_data i)) ∧
    (∀ i, (build_sample_payload (module.sample_headers i) (module.sample_data i)).length =
      (build_sample_header (module.sample_headers i)).length * 2) ∧
    (∀ i, (module.sample_headers i).length ≠ 0 →
      build_sample_payload (module.sample_headers i) (module.sample_data i) =
        (List.range ((build_sample_header (module.sample_headers i)).length * 2)).map
          (module.sample_data i)) ∧
    (∀ i, (module.sample_headers i).length = 0 →
      (build_sample_header (module.sample_headers i)).length = 1 ∧
      build_sample_payload (module.sample_headers i) (module.sample_data i) = [0, 0]) := by
  intro temp
  refine ⟨fun hs => ?_, (player61a_build_samples module usage).2.1,
    fun i => build_sample_payload_length _ _, fun i hi => ?_, fun i hi => ⟨?_, ?_⟩⟩
  · unfold player61a_convert write_samples
    simp only [hs, if_true]
  · unfold build_sample_payload
    rw [if_pos (Nat.pos_of_ne_zero hi)]
  · unfold build_sample_header
    rw [if_pos hi]
  · unfold build_sample_payload
    rw [if_neg (by omega)]

/-- C18: the sample-table record `write_song` writes for an empty sample is
00 01 00 00 FF FF. The record of the header `build_samples` makes from a
module header of length 0 is that, whatever its other fields; so is the
record of table entry `k` of the module `player61a_convert` builds whenever
slot `k` of the input has length 0, used or not; so is the record of every
P61A header of length 0. The table `write_song` writes is made of these
records, after the signature and the four header bytes. -/
theorem empty_sample_record :
    (∀ s : protracker_sample_t, s.length = 0 →
      write_sample_record (build_sample_header s) = [0x00, 0x01, 0x00, 0x00, 0xff, 0xff]) ∧
    (∀ (module : protracker_t) (usage : Nat → Bool) (k : Nat),
      (module.sample_headers k).length = 0 →
      write_sample_record ((player61a_build module usage).sample_headers k) =
        [0x00, 0x01, 0x00, 0x00, 0xff, 0xff]) ∧
    (∀ inp : p61a_sample_t, inp.length = 0 →
      write_sample_record inp = [0x00, 0x01, 0x00, 0x00, 0xff, 0xff]) ∧
    (∀ (buffer : List Nat) (module : player61a_t) (options : p61a_options_t),
      ∃ pre post,
        write_song buffer module options =
          pre ++ (List.range module.sample_count).flatMap
            (fun k => write_sample_record (module.sample_headers k)) ++ post ∧
        pre.length = buffer.length + (if options.sign then 4 else 0) + 4) := by
  have hrec : ∀ s : protracker_sample_t, s.length = 0 →
      write_sample_record (build_sample_header s) = [0x00, 0x01, 0x00, 0x00, 0xff, 0xff] := by
    intro s hs
    unfold build_sample_header
    rw [if_pos hs]
    rfl
  have hzero : ∀ inp : p61a_sample_t, inp.length = 0 →
      write_sample_record inp = [0x00, 0x01, 0x00, 0x00, 0xff, 0xff] := by
    intro inp h0
    unfold write_sample_record
    rw [if_neg (by simpa using h0)]
    rfl
  refine ⟨hrec, fun module usage k hk => ?_, hzero, fun buffer module options => ?_⟩
  · have h := (player61a_build_samples module usage).1 k
    simp only [] at h
    rw [h]
    split_ifs
    · exact hrec _ hk
    · rfl
  · obtain ⟨post, hw⟩ := write_song_tables buffer module options
    refine ⟨buffer ++ (if options.sign then signature else []) ++
      (be16_bytes (get_sample_offset module) ++ [module.pattern_count, module.sample_count]),
      pattern_offset_table module ++ post, ?_, ?_⟩
    · rw [hw]
      unfold sample_table
      simp only [List.append_assoc]
    · simp only [List.length_append, be16_bytes, List.length_cons, List.length_nil]
      split_ifs <;> rfl

/-! ## The pattern offsets -/

theorem flatMap_split {α : Type} (l : List α) (f : α → List Nat) (i : Nat) (a : α)
    (h : l[i]? = some a) :
    l.flatMap f = (l.take i).flatMap f ++ f a ++ (l.drop (i + 1)).flatMap f := by
  induction l generalizing i with
  | nil => simp at h
  | cons b rest ih =>
    cases i with
    | zero =>
      simp at h
      subst h
      simp
    | succ i =>
      simp at h
      simp only [List.take_succ_cons, List.drop_succ_cons, List.flatMap_cons, List.append_assoc]
      rw [ih i h]
      simp

theorem sum_take_le {α : Type} (l : List α) (g : α → Nat) (i : Nat) :
    ((l.take i).map g).sum ≤ (l.map g).sum := by
  have h : (l.map g).sum = ((l.take i).map g).sum + ((l.drop i).map g).sum := by
    rw [← List.sum_append, ← List.map_append, List.take_append_drop]
  omega

theorem sum_map_ge {α : Type} (l : List α) (g : α → Nat) (k : Nat) (h : ∀ a ∈ l, k ≤ g a) :
    k * l.length ≤ (l.map g).sum := by
  induction l with
  | nil => simp
  | cons a rest ih =>
    simp only [List.map_cons, List.sum_cons, List.length_cons]
    have h1 := h a (List.mem_cons_self _ _)
    have h2 := ih (fun b hb => h b (List.mem_cons_of_mem _ hb))
    rw [Nat.mul_succ]
    omega

/-- The layout `build_patterns` gives the tracks, with the module built and
the offset function named. -/
theorem build_patterns_layout (buffer : List Nat) (module : protracker_t) (usage : Nat → Bool)
    (options : p61a_options_t)
    (htotal : ((List.range PT_NUM_CHANNELS).map (fun j =>
      (module.patterns.map (fun p => (track_bytes p j).length)).sum)).sum < 65536)
    (temp : player61a_t) (ht : temp = player61a_build module usage)
    (before : Nat → Nat → Nat)
    (hb : before = fun i j =>
      ((List.range j).map (fun j' =>
        (module.patterns.map (fun p => (track_bytes p j').length)).sum)).sum +
      ((module.patterns.take i).map (fun p => (track_bytes p j).length)).sum) :
    temp.patterns = (List.range PT_NUM_CHANNELS).flatMap
      (fun j => module.patterns.flatMap (fun p => track_bytes p j)) ∧
    temp.pattern_count = module.patterns.length ∧
    before 0 0 = 0 ∧
    (∀ i j p, module.patterns[i]? = some p → j < PT_NUM_CHANNELS →
      temp.pattern_offsets i j = before i j ∧
      (temp.patterns.drop (before i j)).take (track_bytes p j).length = track_bytes p j) ∧
    ∃ pre post,
      write_song buffer temp options =
        pre ++ (List.range module.patterns.length).flatMap (fun i =>
          (List.range PT_NUM_CHANNELS).flatMap
            (fun j => [before i j / 256, before i j % 256])) ++ post ∧
      pre.length = buffer.length + (if options.sign then 4 else 0) + 4 +
        6 * temp.sample_count := by
  obtain ⟨hp, ho⟩ := player61a_build_patterns module usage
  have hpc := (player61a_build_samples module usage).2.2.2.2
  simp only [] at hpc
  rw [← ht] at hp ho hpc
  -- the sums
  have hS : ∀ j, 64 * module.patterns.length ≤
      (module.patterns.map (fun p => (track_bytes p j).length)).sum :=
    fun j => sum_map_ge _ _ 64 (fun p _ => track_bytes_length_ge p j)
  have hr4 : List.range PT_NUM_CHANNELS = [0, 1, 2, 3] := rfl
  have htot := htotal
  rw [hr4] at htot
  simp only [List.map_cons, List.map_nil, List.sum_cons, List.sum_nil] at htot
  have hn : module.patterns.length < 256 := by
    have h0 := hS 0
    have h1 := hS 1
    have h2 := hS 2
    have h3 := hS 3
    omega
  have hbe : ∀ i j, before i j =
      ((List.range j).map (fun j' =>
        (module.patterns.map (fun p => (track_bytes p j').length)).sum)).sum +
      ((module.patterns.take i).map (fun p => (track_bytes p j).length)).sum := by
    intro i j
    rw [hb]
  have hlt : ∀ i j, j < PT_NUM_CHANNELS → before i j < 65536 := by
    intro i j hj
    have ht := sum_take_le module.patterns (fun p => (track_bytes p j).length) i
    rw [hbe]
    have hj4 : j < 4 := hj
    interval_cases j
    · simp only [List.range_zero, List.map_nil, List.sum_nil]
      omega
    · have : List.range 1 = [0] := rfl
      rw [this]
      simp only [List.map_cons, List.map_nil, List.sum_cons, List.sum_nil]
      omega
    · have : List.range 2 = [0, 1] := rfl
      rw [this]
      simp only [List.map_cons, List.map_nil, List.sum_cons, List.sum_nil]
      omega
    · have : List.range 3 = [0, 1, 2] := rfl
      rw [this]
      simp only [List.map_cons, List.map_nil, List.sum_cons, List.sum_nil]
      omega
  have hlenA : ∀ i j, (((List.range j).flatMap
      (fun j' => module.patterns.flatMap (fun p => track_bytes p j'))) ++
      ((module.patterns.take i).flatMap (fun p => track_bytes p j))).length = before i j := by
    intro i j
    rw [hbe, List.length_append, length_flatMap_sum, length_flatMap_sum]
    simp only [length_flatMap_sum]
  have hoff : ∀ i j, i < module.patterns.length → j < PT_NUM_CHANNELS →
      temp.pattern_offsets i j = before i j := by
    intro i j hi hj
    rw [ho i j hi hj, ← List.length_append, hlenA, Nat.mod_eq_of_lt (hlt i j hj)]
  refine ⟨hp, ?_, ?_, ?_, ?_⟩
  · rw [hpc, Nat.mod_eq_of_lt hn]
  · rw [hbe]
    rfl
  · intro i j p hip hj
    have hi : i < module.patterns.length := by
      by_contra hge
      rw [List.getElem?_eq_none (by omega)] at hip
      exact Option.noConfusion hip
    refine ⟨hoff i j hi hj, ?_⟩
    have hjr : (List.range PT_NUM_CHANNELS)[j]? = some j := by
      rw [List.getElem?_range hj]
    have h1 := flatMap_split (List.range PT_NUM_CHANNELS)
      (fun j => module.patterns.flatMap (fun p => track_bytes p j)) j j hjr
    have h2 := flatMap_split module.patterns (fun p => track_bytes p j) i p hip
    have htk : (List.range PT_NUM_CHANNELS).take j = List.range j := by
      rw [List.take_range, Nat.min_eq_left (Nat.le_of_lt hj)]
    rw [htk] at h1
    simp only [] at h1
    rw [h2] at h1
    rw [hp, h1, ← hlenA i j]
    simp only [List.append_assoc]
    rw [← List.append_assoc, List.drop_left, List.take_left]
  · obtain ⟨post, hw⟩ := write_song_tables buffer temp options
    refine ⟨buffer ++ (if options.sign then signature else []) ++
      (be16_bytes (get_sample_offset temp) ++ [temp.pattern_count, temp.sample_count]) ++
      sample_table temp, post, ?_, ?_⟩
    · rw [hw]
      congr 2
      unfold pattern_offset_table
      rw [hpc, Nat.mod_eq_of_lt hn]
      apply flatMap_congr_mem
      intro i hi
      apply flatMap_congr_mem
      intro j hj
      rw [hoff i j (List.mem_range.mp hi) (List.mem_range.mp hj),
        be16_bytes_of_lt _ (hlt i j (List.mem_range.mp hj))]
    · simp only [List.length_append, sample_table_length, be16_bytes, List.length_cons,
        List.length_nil, sizeof_p61a_sample_t]
      split_ifs <;> simp [signature]

/-- C19: `build_patterns` lays the tracks out channel-major, pattern-minor.
For every module whose track bytes total less than 65536, the offset recorded
for pattern `i`, channel `j` is the sum of the byte lengths of the tracks of
all patterns on the channels before `j` and of the patterns before `i` on
channel `j`; the track's bytes stand at that offset in the track area; the
offset of pattern 0, channel 0 is 0; and `write_song` stores the offsets as
four big-endian words per pattern, in pattern order, after the sample
table. -/
theorem pattern_offsets_layout (buffer : List Nat) (module : protracker_t) (usage : Nat → Bool)
    (options : p61a_options_t)
    (htotal : ((List.range PT_NUM_CHANNELS).map (fun j =>
      (module.patterns.map (fun p => (track_bytes p j).length)).sum)).sum < 65536) :
    let temp := player61a_build module usage
    let before := fun i j =>
      ((List.range j).map (fun j' =>
        (module.patterns.map (fun p => (track_bytes p j').length)).sum)).sum +
      ((module.patterns.take i).map (fun p => (track_bytes p j).length)).sum
    temp.patterns = (List.range PT_NUM_CHANNELS).flatMap
      (fun j => module.patterns.flatMap (fun p => track_bytes p j)) ∧
    temp.pattern_count = module.patterns.length ∧
    before 0 0 = 0 ∧
    (∀ i j p, module.patterns[i]? = some p → j < PT_NUM_CHANNELS →
      temp.pattern_offsets i j = before i j ∧
      (temp.patterns.drop (before i j)).take (track_bytes p j).length = track_bytes p j) ∧
    ∃ pre post,
      write_song buffer temp options =
        pre ++ (List.range module.patterns.length).flatMap (fun i =>
          (List.range PT_NUM_CHANNELS).flatMap
            (fun j => [before i j / 256, before i j % 256])) ++ post ∧
      pre.length = buffer.length + (if options.sign then 4 else 0) + 4 +
        6 * temp.sample_count := by
  intro temp before
  exact build_patterns_layout buffer module usage options htotal temp rfl before rfl

-- C19 at a module of two patterns, the first of empty events (64 bytes a
-- track), the second of full events (192 bytes a track): the track of pattern
-- 1, channel 2 starts at 256 + 256 + 64 = 576.
set_option maxRecDepth 100000 in
theorem pattern_offsets_layout_witness :
    (player61a_build
      { song := ⟨1, 0, List.replicate PT_NUM_POSITIONS 0⟩,
        patterns := [fun _ _ => ⟨0, 0, 0, 0⟩, fun _ _ => ⟨0x00, 0x00, 0x10, 0x00⟩],
        sample_headers := fun _ => ⟨0, 0, 0, 0, 0⟩, sample_data := fun _ _ => 0 }
      (fun _ => false)).pattern_offsets 1 2 = 576 :=
  ((pattern_offsets_layout []
    { song := ⟨1, 0, List.replicate PT_NUM_POSITIONS 0⟩,
      patterns := [fun _ _ => ⟨0, 0, 0, 0⟩, fun _ _ => ⟨0x00, 0x00, 0x10, 0x00⟩],
      sample_headers := fun _ => ⟨0, 0, 0, 0, 0⟩, sample_data := fun _ _ => 0 }
    (fun _ => false) ⟨false, true, false⟩ (by decide)).2.2.2.1 1 2
      (fun _ _ => ⟨0x00, 0x00, 0x10, 0x00⟩) rfl (by decide)).1.trans (by decide)

/-! ## The song positions -/

theorem read_song_positions_loop_stop (mem : List Nat) (n i : Nat) (song : p61a_song_t)
    (curr : Nat) (h : mem[curr]? = some 0xff) :
    read_song_positions_loop mem (n + 1) i song curr =
      some ({ song with length := i }, curr + 1) := by
  have hlt : curr < mem.length := by
    by_contra hge
    rw [List.getElem?_eq_none (by omega)] at h
    exact Option.noConfusion h
  unfold read_song_positions_loop
  rw [if_neg (by omega), h]
  simp only [if_true]

theorem read_song_positions_loop_step (mem : List Nat) (n i : Nat) (song : p61a_song_t)
    (curr b : Nat) (h : mem[curr]? = some b) (hb : b ≠ 0xff) :
    read_song_positions_loop mem (n + 1) i song curr =
      read_song_positions_loop mem n (i + 1)
        { song with positions := song.positions.set i b } (curr + 1) := by
  have hlt : curr < mem.length := by
    by_contra hge
    rw [List.getElem?_eq_none (by omega)] at h
    exact Option.noConfusion h
  conv_lhs => unfold read_song_positions_loop
  rw [if_neg (by omega), h]
  simp only [if_neg hb]

theorem getElem?_after (pre : List Nat) (b : Nat) (rest : List Nat) :
    (pre ++ b :: rest)[pre.length]? = some b := by
  rw [List.getElem?_append_right (Nat.le_refl _)]
  simp

/-- The positions after storing `bytes` from index `i` on. -/
theorem stored_positions (positions : List Nat) (i b : Nat) (bs : List Nat) (ps : List Nat)
    (hlen : ps.length = (positions.set i b).length)
    (hps : ∀ k, ps[k]? = if i + 1 ≤ k ∧ k < i + 1 + bs.length ∧ k < (positions.set i b).length
      then bs[k - (i + 1)]? else (positions.set i b)[k]?) :
    ps.length = positions.length ∧
    ∀ k, ps[k]? = if i ≤ k ∧ k < i + (b :: bs).length ∧ k < positions.length
      then (b :: bs)[k - i]? else positions[k]? := by
  rw [List.length_set] at hlen hps
  refine ⟨hlen, fun k => ?_⟩
  rw [hps k]
  by_cases hki : k = i
  · subst hki
    rw [if_neg (by omega)]
    by_cases hk : k < positions.length
    · rw [if_pos ⟨Nat.le_refl _, by simp, hk⟩, List.getElem?_set_self hk]
      simp
    · rw [if_neg (by omega), List.getElem?_eq_none (by rw [List.length_set]; omega),
        List.getElem?_eq_none (by omega)]
  · rw [List.getElem?_set_ne (fun h => hki h.symm)]
    by_cases hc : i + 1 ≤ k ∧ k < i + 1 + bs.length ∧ k < positions.length
    · rw [if_pos hc, if_pos ⟨by omega, by simp only [List.length_cons]; omega, hc.2.2⟩]
      obtain ⟨d, hd⟩ : ∃ d, k = i + 1 + d := ⟨k - (i + 1), by omega⟩
      subst hd
      have e1 : i + 1 + d - (i + 1) = d := by omega
      have e2 : i + 1 + d - i = d + 1 := by omega
      rw [e1, e2, List.getElem?_cons_succ]
    · rw [if_neg hc, if_neg (by simp only [List.length_cons]; omega)]

/-- The loop of `read_song_positions` on `bytes`, none 0xFF, then 0xFF, with
more iterations left than there are bytes: the length is the number of
bytes, they are stored from index `i` on, and the cursor is after the 0xFF. -/
theorem read_song_positions_loop_terminated (bytes : List Nat) :
    ∀ (pre rest : List Nat) (n i : Nat) (song : p61a_song_t), bytes.length < n →
      (∀ b ∈ bytes, b ≠ 0xff) →
      ∃ ps, read_song_positions_loop (pre ++ bytes ++ [0xff] ++ rest) n i song pre.length =
          some (⟨i + bytes.length, ps⟩, pre.length + bytes.length + 1) ∧
        ps.length = song.positions.length ∧
        ∀ k, ps[k]? = if i ≤ k ∧ k < i + bytes.length ∧ k < song.positions.length
          then bytes[k - i]? else song.positions[k]? := by
  induction bytes with
  | nil =>
    intro pre rest n i song hn _
    obtain ⟨m, rfl⟩ : ∃ m, n = m + 1 := ⟨n - 1, by simp at hn; omega⟩
    refine ⟨song.positions, ?_, rfl, fun k => ?_⟩
    · rw [read_song_positions_loop_stop _ _ _ _ _ (by simpa using getElem?_after pre 0xff rest)]
      rfl
    · rw [if_neg (by simp only [List.length_nil]; omega)]
  | cons b bs ih =>
    intro pre rest n i song hn hne
    obtain ⟨m, rfl⟩ : ∃ m, n = m + 1 := ⟨n - 1, by simp at hn; omega⟩
    have hb : b ≠ 0xff := hne b (List.mem_cons_self _ _)
    have hmem : pre ++ b :: bs ++ [0xff] ++ rest = (pre ++ [b]) ++ bs ++ [0xff] ++ rest := by
      simp
    obtain ⟨ps, h1, h2, h3⟩ := ih (pre ++ [b]) rest m (i + 1)
      { song with positions := song.positions.set i b }
      (by simp only [List.length_cons] at hn; omega)
      (fun x hx => hne x (List.mem_cons_of_mem _ hx))
    obtain ⟨g1, g2⟩ := stored_positions song.positions i b bs ps h2 h3
    refine ⟨ps, ?_, g1, g2⟩
    rw [read_song_positions_loop_step _ _ _ _ _ b (by simpa using getElem?_after pre b _) hb, hmem]
    have hl : (pre ++ [b]).length = pre.length + 1 := by simp
    rw [hl] at h1
    rw [h1]
    simp only [List.length_cons]
    have e : i + 1 + bs.length = i + (bs.length + 1) := by omega
    have e2 : pre.length + 1 + bs.length + 1 = pre.length + (bs.length + 1) + 1 := by omega
    rw [e, e2]

/-- The loop of `read_song_positions` on as many bytes, none 0xFF, as it has
iterations left: it ends without a length and without reading further. -/
theorem read_song_positions_loop_full (bytes : List Nat) :
    ∀ (pre rest : List Nat) (i : Nat) (song : p61a_song_t),
      (∀ b ∈ bytes, b ≠ 0xff) →
      ∃ ps, read_song_positions_loop (pre ++ bytes ++ rest) bytes.length i song pre.length =
          some (⟨song.length, ps⟩, pre.length + bytes.length) ∧
        ps.length = song.positions.length ∧
        ∀ k, ps[k]? = if i ≤ k ∧ k < i + bytes.length ∧ k < song.positions.length
          then bytes[k - i]? else song.positions[k]? := by
  induction bytes with
  | nil =>
    intro pre rest i song _
    refine ⟨song.positions, rfl, rfl, fun k => ?_⟩
    rw [if_neg (by simp only [List.length_nil]; omega)]
  | cons b bs ih =>
    intro pre rest i song hne
    have hb : b ≠ 0xff := hne b (List.mem_cons_self _ _)
    have hmem : pre ++ b :: bs ++ rest = (pre ++ [b]) ++ bs ++ rest := by
      simp
    obtain ⟨ps, h1, h2, h3⟩ := ih (pre ++ [b]) rest (i + 1)
      { song with positions := song.positions.set i b }
      (fun x hx => hne x (List.mem_cons_of_mem _ hx))
    obtain ⟨g1, g2⟩ := stored_positions song.positions i b bs ps h2 h3
    refine ⟨ps, ?_, g1, g2⟩
    simp only [List.length_cons]
    rw [read_song_positions_loop_step _ _ _ _ _ b (by simpa using getElem?_after pre b _) hb, hmem]
    have hl : (pre ++ [b]).length = pre.length + 1 := by simp
    rw [hl] at h1
    rw [h1]
    have e2 : pre.length + 1 + bs.length = pre.length + (bs.length + 1) := by omega
    rw [e2]

theorem take_of_stored (ps positions bytes : List Nat)
    (hle : bytes.length ≤ positions.length)
    (hps : ∀ k, ps[k]? = if 0 ≤ k ∧ k < 0 + bytes.length ∧ k < positions.length
      then bytes[k - 0]? else positions[k]?) :
    ps.take bytes.length = bytes := by
  apply List.ext_getElem?
  intro k
  rw [List.getElem?_take]
  by_cases hk : k < bytes.length
  · rw [if_pos hk, hps k, if_pos ⟨Nat.zero_le _, by omega, by omega⟩]
    rfl
  · rw [if_neg hk, List.getElem?_eq_none (by omega)]

/-- C20, the code on the block `write_song` emits for a song: with fewer than
128 position bytes before the 0xFF, `read_song_positions` returns their
number as the song length, the bytes as the first positions, and a cursor
just after the 0xFF. With 128 position bytes the loop ends on its count: the
song length is left as it was (0 in `player61a_load`) and the cursor is on
the 0xFF, not after it. The last part is the case of 128 bytes 01 and a song
initialised to zero. -/
theorem read_song_positions_terminator :
    (∀ (song : p61a_song_t) (pre bytes rest : List Nat),
      song.positions.length = PT_NUM_POSITIONS → bytes.length < PT_NUM_POSITIONS →
      (∀ b ∈ bytes, b ≠ 0xff) →
      ∃ ps, read_song_positions song (pre ++ bytes ++ [0xff] ++ rest) pre.length =
          some (⟨bytes.length, ps⟩, pre.length + bytes.length + 1) ∧
        ps.take bytes.length = bytes) ∧
    (∀ (song : p61a_song_t) (pre bytes rest : List Nat),
      song.positions.length = PT_NUM_POSITIONS → bytes.length = PT_NUM_POSITIONS →
      (∀ b ∈ bytes, b ≠ 0xff) →
      read_song_positions song (pre ++ bytes ++ [0xff] ++ rest) pre.length =
        some (⟨song.length, bytes⟩, pre.length + PT_NUM_POSITIONS)) ∧
    read_song_positions ⟨0, List.replicate PT_NUM_POSITIONS 0⟩
      (List.replicate PT_NUM_POSITIONS 0x01 ++ [0xff]) 0 =
      some (⟨0, List.replicate PT_NUM_POSITIONS 0x01⟩, 128) := by
  have h2 : ∀ (song : p61a_song_t) (pre bytes rest : List Nat),
      song.positions.length = PT_NUM_POSITIONS → bytes.length = PT_NUM_POSITIONS →
      (∀ b ∈ bytes, b ≠ 0xff) →
      read_song_positions song (pre ++ bytes ++ [0xff] ++ rest) pre.length =
        some (⟨song.length, bytes⟩, pre.length + PT_NUM_POSITIONS) := by
    intro song pre bytes rest hs hb hne
    obtain ⟨ps, g1, g2, g3⟩ := read_song_positions_loop_full bytes pre ([0xff] ++ rest) 0 song hne
    have ht := take_of_stored ps song.positions bytes (by omega) g3
    have hps : ps = bytes := by
      rw [← ht, List.take_of_length_le (by omega)]
    unfold read_song_positions
    rw [← hb, List.append_assoc, g1, hps]
  refine ⟨fun song pre bytes rest hs hb hne => ?_, h2, ?_⟩
  · obtain ⟨ps, g1, g2, g3⟩ := read_song_positions_loop_terminated bytes pre rest
      PT_NUM_POSITIONS 0 song hb hne
    refine ⟨ps, ?_, take_of_stored ps song.positions bytes (by omega) g3⟩
    unfold read_song_positions
    rw [g1, Nat.zero_add]
  · have h := h2 ⟨0, List.replicate PT_NUM_POSITIONS 0⟩ [] (List.replicate PT_NUM_POSITIONS 0x01)
      [] (List.length_replicate _ _) (List.length_replicate _ _)
      (fun b hb => by rw [List.eq_of_mem_replicate hb]; decide)
    rw [List.nil_append, List.append_nil] at h
    exact h

/-! ## Song part and sample part of the output -/

/-- C22: for every module, usage table and setting of `sign`, the output of
`player61a_convert` into an empty buffer with song and samples enabled is
its output with only the song enabled followed by its output with only the
samples enabled; with only the samples enabled the output is the sample
payload block, and with both disabled it is empty. -/
theorem convert_song_then_samples (module : protracker_t) (usage : Nat → Bool) ( sign : Bool) :
    player61a_convert [] module usage ⟨sign, true, true⟩ =
      player61a_convert [] module usage ⟨sign, true, false⟩ ++
        player61a_convert [] module usage ⟨sign, false, true⟩ ∧
    player61a_convert [] module usage ⟨sign, true, false⟩ =
      write_song [] (player61a_build module usage) ⟨sign, true, false⟩ ∧
    player61a_convert [] module usage ⟨sign, false, true⟩ =
      (player61a_build module usage).samples ∧
    (player61a_build module usage).samples =
      ((List.range PT_NUM_SAMPLES).filter (fun i => usage i)).flatMap
        (fun i => build_sample_payload (module.sample_headers i) (module.sample_data i)) ∧
    player61a_convert [] module usage ⟨sign, false, false⟩ = [] := by
  have hw : ∀ a b, write_song [] (player61a_build module usage) ⟨sign, true, a⟩ =
      write_song [] (player61a_build module usage) ⟨sign, true, b⟩ := fun _ _ => rfl
  refine ⟨?_, ?_, ?_, (player61a_build_samples module usage).2.1, ?_⟩
  · unfold player61a_convert write_samples
    simp only [if_true, Bool.false_eq_true, if_false, List.nil_append]
    rw [hw true false]
  · unfold player61a_convert
    simp only [if_true, Bool.false_eq_true, if_false]
  · unfold player61a_convert write_samples
    simp only [if_true, Bool.false_eq_true, if_false, List.nil_append]
  · unfold player61a_convert
    simp only [Bool.false_eq_true, if_false]

/-! ## Periods outside the table -/

theorem get_period_set_period_zero (e : protracker_channel_t) :
    protracker_get_period (protracker_set_period e 0) = 0 ∧
    protracker_get_sample (protracker_set_period e 0) = protracker_get_sample e ∧
    protracker_get_effect (protracker_set_period e 0) = protracker_get_effect e := by
  have h1 : ∀ d : Nat, ((d &&& 0xf0) ||| ((0 >>> 8) &&& 0x0f)) &&& 0x0f = 0 := by
    intro d
    apply Nat.eq_of_testBit_eq
    intro i
    simp only [Nat.testBit_and, Nat.testBit_or, Nat.zero_shiftRight, Nat.zero_and,
      Nat.zero_testBit, Bool.or_false]
    by_cases h : i < 4
    · have : Nat.testBit 0xf0 i = false := by interval_cases i <;> rfl
      simp [this]
    · have : Nat.testBit 0x0f i = false := by
        apply Nat.testBit_lt_two_pow
        calc 0x0f < 2 ^ 4 := by decide
          _ ≤ 2 ^ i := Nat.pow_le_pow_right (by decide) (by omega)
      simp [this]
  have h2 : ∀ d : Nat, ((d &&& 0xf0) ||| ((0 >>> 8) &&& 0x0f)) &&& 0xf0 = d &&& 0xf0 := by
    intro d
    have : (0 >>> 8) &&& 0x0f = 0 := rfl
    rw [this, Nat.or_zero, Nat.and_assoc, Nat.and_self]
  refine ⟨?_, ?_, rfl⟩
  · simp only [protracker_get_period, protracker_set_period]
    rw [h1]
    rfl
  · simp only [protracker_get_sample, protracker_set_period]
    rw [h2]

theorem zero_not_period : (0 : Nat) ∉ periods := by decide

/-- An event whose period is not in the table is encoded as the same event
with period 0. -/
theorem to_p61a_channel_period_outside (e : protracker_channel_t) (usecode : Nat)
    (h : protracker_get_period e ∉ periods) :
    to_p61a_channel e usecode = to_p61a_channel (protracker_set_period e 0) usecode := by
  obtain ⟨g1, g2, g3⟩ := get_period_set_period_zero e
  have i1 : index_from_period (protracker_get_period e) = 0 :=
    (index_from_period_eq_zero_iff _).2 h
  have i2 : index_from_period 0 = 0 := (index_from_period_eq_zero_iff _).2 zero_not_period
  unfold to_p61a_channel
  simp only []
  rw [g1, g2, g3, i1, i2]

/-- The loop of `build_track` sees a pattern only through `to_p61a_channel`. -/
theorem build_track_loop_congr (p q : protracker_pattern_t) (j : Nat)
    (h : ∀ row u, to_p61a_channel (p row j) u = to_p61a_channel (q row j) u) (rows : List Nat) :
    ∀ s, build_track_loop p j rows s = build_track_loop q j rows s := by
  induction rows with
  | nil => intro s; rfl
  | cons i rest ih =>
    intro s
    obtain ⟨channel, usecode⟩ := s
    simp only [build_track_loop]
    rw [h i usecode, ih]

theorem build_patterns_inner_congr (f : protracker_pattern_t → protracker_pattern_t)
    (h : ∀ p row j u, to_p61a_channel (f p row j) u = to_p61a_channel (p row j) u) (j : Nat)
    (patterns : List protracker_pattern_t) :
    ∀ i s, build_patterns_inner j (patterns.map f) i s = build_patterns_inner j patterns i s := by
  induction patterns with
  | nil => intro i s; rfl
  | cons p rest ih =>
    intro i s
    obtain ⟨output, usecode⟩ := s
    have ht : build_track (f p) j usecode = build_track p j usecode :=
      build_track_loop_congr (f p) p j (fun row u => h p row j u) _ _
    simp only [List.map_cons, build_patterns_inner]
    rw [ht, ih]

theorem build_patterns_outer_congr (f : protracker_pattern_t → protracker_pattern_t)
    (h : ∀ p row j u, to_p61a_channel (f p row j) u = to_p61a_channel (p row j) u)
    (patterns : List protracker_pattern_t) (channels : List Nat) :
    ∀ s, build_patterns_outer (patterns.map f) channels s =
      build_patterns_outer patterns channels s := by
  induction channels with
  | nil => intro s; rfl
  | cons j rest ih =>
    intro s
    simp only [build_patterns_outer]
    rw [build_patterns_inner_congr f h, ih]

theorem build_samples_loop_patterns (module : protracker_t) (patterns : List protracker_pattern_t)
    (usage : Nat → Bool) (slots : List Nat) :
    ∀ s, build_samples_loop { module with patterns := patterns } usage slots s =
      build_samples_loop module usage slots s := by
  induction slots with
  | nil => intro s; rfl
  | cons i rest ih =>
    intro s
    obtain ⟨output, usecode⟩ := s
    simp only [build_samples_loop]
    rw [ih, ih]

/-- Changing events without changing what `to_p61a_channel` makes of them
does not change the module `player61a_convert` builds. -/
theorem player61a_build_congr (f : protracker_pattern_t → protracker_pattern_t)
    (h : ∀ p row j u, to_p61a_channel (f p row j) u = to_p61a_channel (p row j) u)
    (module : protracker_t) (usage : Nat → Bool) :
    player61a_build { module with patterns := module.patterns.map f } usage =
      player61a_build module usage := by
  have hs : build_samples player61a_create { module with patterns := module.patterns.map f }
      usage 0 = build_samples player61a_create module usage 0 := by
    unfold build_samples
    simp only []
    rw [build_samples_loop_patterns]
  rw [player61a_build_eq, player61a_build_eq, hs]
  unfold build_patterns
  simp only [List.length_map]
  rw [build_patterns_outer_congr f h]

/-- Setting the periods that are not in the table to 0 does not change the
output of `player61a_convert`. -/
theorem convert_period_outside (buffer : List Nat) (module : protracker_t)
    (usage : Nat → Bool) (options : p61a_options_t) :
    player61a_convert buffer
      { module with patterns := module.patterns.map (fun p row ch =>
          if protracker_get_period (p row ch) ∈ periods then p row ch
          else protracker_set_period (p row ch) 0) }
      usage options = player61a_convert buffer module usage options := by
  have h := player61a_build_congr (fun p row ch =>
      if protracker_get_period (p row ch) ∈ periods then p row ch
      else protracker_set_period (p row ch) 0)
    (fun p row j u => by
      by_cases hp : protracker_get_period (p row j) ∈ periods
      · simp only [hp, if_true]
      · simp only [hp, if_false]
        exact (to_p61a_channel_period_outside _ u hp).symm)
    module usage
  unfold player61a_convert
  simp only []
  rw [h]

/-- C26, counterexample: the event 01 F4 00 00 has period 500, which is not
in the period table. `to_p61a_channel` gives it note index 0 and writes the
empty event 7F with length 1, as for the event 00 00 00 00; a module whose
only pattern holds this event everywhere is converted to the same bytes as
the module with the zero pattern. -/
theorem period_outside_table_is_no_note :
    protracker_get_period ⟨0x01, 0xf4, 0x00, 0x00⟩ = 500 ∧ 500 ∉ periods ∧
    index_from_period 500 = 0 ∧
    to_p61a_channel ⟨0x01, 0xf4, 0x00, 0x00⟩ 0 = ⟨⟨0x7f, 0, 0⟩, 1, 0⟩ ∧
    to_p61a_channel ⟨0x00, 0x00, 0x00, 0x00⟩ 0 = ⟨⟨0x7f, 0, 0⟩, 1, 0⟩ ∧
    player61a_convert []
      { song := ⟨1, 0, [0]⟩, patterns := [fun _ _ => ⟨0x01, 0xf4, 0x00, 0x00⟩],
        sample_headers := fun _ => ⟨0, 0, 0, 0, 0⟩, sample_data := fun _ _ => 0 }
      (fun _ => false) ⟨false, true, true⟩ =
    player61a_convert []
      { song := ⟨1, 0, [0]⟩, patterns := [fun _ _ => ⟨0x00, 0x00, 0x00, 0x00⟩],
        sample_headers := fun _ => ⟨0, 0, 0, 0, 0⟩, sample_data := fun _ _ => 0 }
      (fun _ => false) ⟨false, true, true⟩ := by
  refine ⟨by decide, by decide, by decide, by decide, by decide, ?_⟩
  have h := convert_period_outside []
    { song := ⟨1, 0, [0]⟩, patterns := [fun _ _ => ⟨0x01, 0xf4, 0x00, 0x00⟩],
      sample_headers := fun _ => ⟨0, 0, 0, 0, 0⟩, sample_data := fun _ _ => 0 }
    (fun _ => false) ⟨false, true, true⟩
  have hp : (fun (_ _ : Nat) => if protracker_get_period ⟨0x01, 0xf4, 0x00, 0x00⟩ ∈ periods
      then (⟨0x01, 0xf4, 0x00, 0x00⟩ : protracker_channel_t)
      else protracker_set_period ⟨0x01, 0xf4, 0x00, 0x00⟩ 0) =
      fun _ _ => ⟨0x00, 0x00, 0x00, 0x00⟩ := by
    funext _ _
    decide
  simp only [List.map_cons, List.map_nil, hp] at h
  exact h.symm

/-- C26, amended: a lookup that falls outside the period table gives note
index 0 and no failure: `to_p61a_channel` encodes an event whose period is
not one of the 36 table periods exactly as the same event with period 0 (same
bytes, length and use-code), and `player61a_convert` writes for a module the
bytes it writes for the module with those periods set to 0. -/
theorem period_outside_table_emitted (buffer : List Nat) (module : protracker_t)
    (usage : Nat → Bool) (options : p61a_options_t) :
    (∀ period, period ∉ periods → index_from_period period = 0) ∧
    (∀ e usecode, protracker_get_period e ∉ periods →
      protracker_get_period (protracker_set_period e 0) = 0 ∧
      to_p61a_channel e usecode = to_p61a_channel (protracker_set_period e 0) usecode) ∧
    player61a_convert buffer
      { module with patterns := module.patterns.map (fun p row ch =>
          if protracker_get_period (p row ch) ∈ periods then p row ch
          else protracker_set_period (p row ch) 0) }
      usage options = player61a_convert buffer module usage options := by
  exact ⟨fun period h => (index_from_period_eq_zero_iff _).2 h,
    fun e usecode h => ⟨(get_period_set_period_zero e).1,
      to_p61a_channel_period_outside e usecode h⟩,
    convert_period_outside buffer module usage options⟩

/-! ## The length of an encoded event -/

theorem get_channel_length_of_shape (c : p61a_channel_t) :
    get_channel_length c =
      match p61a_shape_of c.data0 with
      | .empty => 1
      | .note_instrument => 2
      | .command => 2
      | .full => 3 := by
  unfold get_channel_length p61a_shape_of
  split_ifs <;> rfl

/-- The length `get_channel_length` finds from byte 0 of an encoded event is
the length `to_p61a_channel` returns. -/
theorem get_channel_length_encoded (e : protracker_channel_t) (usecode : Nat) :
    get_channel_length (to_p61a_channel e usecode).out = (to_p61a_channel e usecode).length := by
  have hn : index_from_period (protracker_get_period e) ≤ 36 := index_from_period_le _
  rw [get_channel_length_of_shape]
  unfold to_p61a_channel
  simp only []
  split_ifs <;>
    simp only [shape_of_empty, shape_of_note_instrument _ hn, shape_of_command,
      shape_of_full _ _ hn]

theorem track_bytes_length_le (pattern : protracker_pattern_t) (j : Nat) :
    (track_bytes pattern j).length ≤ 192 := by
  unfold track_bytes
  rw [length_flatMap_sum]
  have h : ∀ (l : List Nat),
      (l.map (fun row => (channel_bytes (to_p61a_channel (pattern row j) 0).out).length)).sum ≤
        3 * l.length := by
    intro l
    induction l with
    | nil => simp
    | cons a rest ih =>
      simp only [List.map_cons, List.sum_cons, List.length_cons]
      have := (get_channel_length_le (to_p61a_channel (pattern a j) 0).out).2
      rw [channel_bytes_length]
      omega
  have := h (List.range PT_PATTERN_ROWS)
  rw [List.length_range] at this
  exact this

/-- C30: for every MOD channel event, `get_channel_length` applied to the
event `to_p61a_channel` writes is the length `to_p61a_channel` returns, so
the bytes `build_patterns` appends for the event are its first `length`
bytes; every track `build_track` makes has 64 events, and its bytes in the
track area number between 64 and 192. -/
theorem encoded_length_agrees (e : protracker_channel_t) (pattern : protracker_pattern_t)
    (j usecode : Nat) :
    get_channel_length (to_p61a_channel e usecode).out = (to_p61a_channel e usecode).length ∧
    channel_bytes (to_p61a_channel e usecode).out =
      [(to_p61a_channel e usecode).out.data0, (to_p61a_channel e usecode).out.data1,
        (to_p61a_channel e usecode).out.data2].take (to_p61a_channel e usecode).length ∧
    (build_track pattern j usecode).1.length = 64 ∧
    (build_track pattern j usecode).1.flatMap channel_bytes = track_bytes pattern j ∧
    64 ≤ (track_bytes pattern j).length ∧ (track_bytes pattern j).length ≤ 192 := by
  refine ⟨get_channel_length_encoded e usecode, ?_, ?_, build_track_bytes pattern j usecode,
    track_bytes_length_ge pattern j, track_bytes_length_le pattern j⟩
  · unfold channel_bytes
    rw [get_channel_length_encoded]
  · unfold build_track
    rw [build_track_loop_events, List.nil_append, List.length_map, List.length_range]
    rfl

/-! ## The MOD accessors and their setters -/

set_option maxRecDepth 100000 in
theorem low_nibble_slot : ∀ d < 256, ∀ x < 16,
    ((d &&& 0xf0) ||| (x &&& 0x0f)) &&& 0x0f = x ∧
    ((d &&& 0xf0) ||| (x &&& 0x0f)) &&& 0xf0 = d &&& 0xf0 ∧
    ((d &&& 0xf0) ||| (x &&& 0x0f)) >>> 4 = d >>> 4 := by decide

set_option maxRecDepth 100000 in
theorem sample_slots : ∀ n < 16, ∀ s < 32,
    (n ||| (s &&& 0xf0)) &&& 0xf0 = s &&& 0xf0 ∧
    (n ||| (s &&& 0xf0)) &&& 0x0f = n ∧
    (n ||| ((s &&& 0x0f) <<< 4)) >>> 4 = s &&& 0x0f ∧
    (n ||| ((s &&& 0x0f) <<< 4)) &&& 0x0f = n ∧
    (s &&& 0xf0) ||| (s &&& 0x0f) = s := by decide

theorem period_halves (p : Nat) (hp : p ≤ 4095) :
    p >>> 8 < 16 ∧ p &&& 0xff < 256 ∧ ((p >>> 8) <<< 8) ||| (p &&& 0xff) = p := by
  refine ⟨?_, ?_, ?_⟩
  · rw [Nat.shiftRight_eq_div_pow]
    have : (2 : Nat) ^ 8 = 256 := by decide
    omega
  · exact Nat.lt_of_le_of_lt Nat.and_le_right (by decide)
  · apply Nat.eq_of_testBit_eq
    intro i
    simp only [Nat.testBit_or, Nat.testBit_shiftLeft, Nat.testBit_shiftRight, Nat.testBit_and]
    by_cases h : i < 8
    · have h1 : decide (i ≥ 8) = false := by simp; omega
      have h2 : Nat.testBit 0xff i = true := by interval_cases i <;> rfl
      simp [h1, h2]
    · have h1 : decide (i ≥ 8) = true := by simp; omega
      have h2 : Nat.testBit 0xff i = false := by
        apply Nat.testBit_lt_two_pow
        calc 0xff < 2 ^ 8 := by decide
          _ ≤ 2 ^ i := Nat.pow_le_pow_right (by decide) (by omega)
      have h3 : 8 + (i - 8) = i := by omega
      simp [h1, h2, h3]

/-- C27: the accessors read the four-byte layout, and each setter followed by
its getter gives the value set (a period up to 4095, a sample index up to 31,
a command nibble with an argument byte) while the other two getters keep
their values. -/
theorem accessors_invert_setters (e : protracker_channel_t) (p s c v : Nat) (he : e.wf)
    (hp : p ≤ 4095) (hs : s ≤ 31) (hc : c ≤ 15) :
    protracker_get_period e = ((e.data0 &&& 0x0f) <<< 8) ||| e.data1 ∧
    protracker_get_sample e = (e.data0 &&& 0xf0) ||| (e.data2 >>> 4) ∧
    (protracker_get_effect e).cmd = e.data2 &&& 0x0f ∧
    (protracker_get_effect e).value = e.data3 ∧
    protracker_get_period (protracker_set_period e p) = p ∧
    protracker_get_sample (protracker_set_period e p) = protracker_get_sample e ∧
    protracker_get_effect (protracker_set_period e p) = protracker_get_effect e ∧
    protracker_get_sample (protracker_set_sample e s) = s ∧
    protracker_get_period (protracker_set_sample e s) = protracker_get_period e ∧
    protracker_get_effect (protracker_set_sample e s) = protracker_get_effect e ∧
    protracker_get_effect (protracker_set_effect e ⟨c, v⟩) = ⟨c, v⟩ ∧
    protracker_get_period (protracker_set_effect e ⟨c, v⟩) = protracker_get_period e ∧
    protracker_get_sample (protracker_set_effect e ⟨c, v⟩) = protracker_get_sample e := by
  obtain ⟨d0, d1, d2, d3⟩ := e
  obtain ⟨h0, _, h2, _⟩ := he
  simp only at h0 h2
  obtain ⟨q1, q2, q3⟩ := period_halves p hp
  obtain ⟨a1, a2, _⟩ := low_nibble_slot d0 h0 (p >>> 8) q1
  obtain ⟨b1, b2, b3⟩ := low_nibble_slot d2 h2 c (by omega)
  obtain ⟨s1, s2, _, _, s5⟩ := sample_slots (d0 &&& 0x0f) (and_15_lt d0) s (by omega)
  obtain ⟨_, _, t3, t4, _⟩ := sample_slots (d2 &&& 0x0f) (and_15_lt d2) s (by omega)
  simp only [protracker_get_period, protracker_get_sample, protracker_get_effect,
    protracker_set_period, protracker_set_sample, protracker_set_effect]
  refine ⟨trivial, trivial, trivial, trivial, ?_, ?_, trivial, ?_, ?_, ?_, ?_, trivial, ?_⟩
  · rw [a1, q3]
  · rw [a2]
  · rw [s1, t3, s5]
  · rw [s2]
  · rw [t4]
  · rw [b1]
  · rw [b3]

/-- C27 at the event 0F FF F0 00 (period 4095, sample 15) with period 428,
sample 31, command 12 and argument 64. -/
theorem accessors_invert_setters_witness :
    protracker_get_period (protracker_set_period ⟨0x0f, 0xff, 0xf0, 0x00⟩ 428) = 428 ∧
    protracker_get_sample (protracker_set_sample ⟨0x0f, 0xff, 0xf0, 0x00⟩ 31) = 31 ∧
    protracker_get_effect (protracker_set_effect ⟨0x0f, 0xff, 0xf0, 0x00⟩ ⟨12, 64⟩) = ⟨12, 64⟩ :=
  have h := accessors_invert_setters ⟨0x0f, 0xff, 0xf0, 0x00⟩ 428 31 12 64 (by decide)
    (by decide) (by decide) (by decide)
  ⟨h.2.2.2.2.1, h.2.2.2.2.2.2.2.1, h.2.2.2.2.2.2.2.2.2.2.1⟩

/-! ## Decoding an encoded track -/

/-- Byte 0 of an encoded event has the compression bit clear. -/
theorem encoded_bit7_clear (e : protracker_channel_t) (usecode : Nat) :
    (to_p61a_channel e usecode).out.data0 &&& 0x80 = 0 := by
  have hn : index_from_period (protracker_get_period e) < 37 :=
    Nat.lt_succ_of_le (index_from_period_le _)
  have k0 : CHANNEL_EMPTY &&& 0x80 = 0 := by decide
  have k1 : ∀ m < 37, (CHANNEL_NOTE_INSTRUMENT ||| ((m >>> 3) &&& 0x7)) &&& 0x80 = 0 := by
    decide
  have k2 : ∀ c < 16, (CHANNEL_COMMAND ||| c) &&& 0x80 = 0 := by decide
  have k3 : ∀ m < 37, ∀ b < 2, (CHANNEL_ALL ||| ((m <<< 1) &&& 0x7e) ||| b) &&& 0x80 = 0 := by
    decide
  unfold to_p61a_channel
  simp only []
  split_ifs
  all_goals
    first
    | exact k0
    | exact k1 _ hn
    | exact k2 _ (and_15_lt _)
    | exact k3 _ hn _ (and_1_lt _)

theorem channel_bytes_of_shape (e : p61a_channel_t) :
    channel_bytes e =
      match p61a_shape_of e.data0 with
      | .empty => [e.data0]
      | .note_instrument => [e.data0, e.data1]
      | .command => [e.data0, e.data1]
      | .full => [e.data0, e.data1, e.data2] := by
  unfold channel_bytes
  rw [get_channel_length_of_shape]
  cases p61a_shape_of e.data0 <;> rfl

theorem getElem?_behind (pre mid : List Nat) (k : Nat) :
    (pre ++ mid)[pre.length + k]? = mid[k]? := by
  rw [List.getElem?_append_right (by omega)]
  congr 1
  omega

/-- Reading the bytes of an event without compression bit: the read position
moves behind them, the cursor moves on by one, nothing is stored for an empty
event, and what is stored for another has the MOD form of the event. -/
theorem read_encoded_event (p : p61a_pattern_t) (ch off : Nat) (pre : List Nat)
    (e : p61a_channel_t) (rest : List Nat) (hc : e.data0 &&& 0x80 = 0) :
    read_byte (pre ++ (channel_bytes e ++ rest)) pre.length = .ok e.data0 ∧
    ∃ ev, read_event p ch off (pre ++ (channel_bytes e ++ rest)) (pre.length + 1) e.data0 =
        .ok ev ∧
      ev.track = pre.length + (channel_bytes e).length ∧ ev.offset = off + 1 ∧
      (∀ r c, (r ≠ off ∨ c ≠ ch) → ev.pattern r c = p r c) ∧
      ((p61a_shape_of e.data0 = .empty ∧ ev.pattern = p) ∨
       (p61a_shape_of e.data0 ≠ .empty ∧
        to_protracker_channel (ev.pattern off ch) = to_protracker_channel e)) := by
  obtain ⟨d0, d1, d2⟩ := e
  simp only at hc
  have hcb := channel_bytes_of_shape ⟨d0, d1, d2⟩
  have hgl := get_channel_length_of_shape ⟨d0, d1, d2⟩
  have hgl' : get_channel_length ⟨d0, 0, 0⟩ = get_channel_length ⟨d0, d1, d2⟩ := rfl
  have hlen := channel_bytes_length ⟨d0, d1, d2⟩
  simp only at hcb hgl
  have g0 : (pre ++ (channel_bytes ⟨d0, d1, d2⟩ ++ rest))[pre.length]? = some d0 := by
    have h := getElem?_behind pre (channel_bytes ⟨d0, d1, d2⟩ ++ rest) 0
    rw [Nat.add_zero] at h
    rw [h, hcb]
    cases p61a_shape_of d0 <;> simp
  have hstore : ∀ (E : p61a_channel_t) (r c : Nat), (r ≠ off ∨ c ≠ ch) →
      store_row p off ch E r c = p r c := by
    intro E r c h
    unfold store_row
    rw [if_neg (by intro hh; rcases h with h | h; exact h hh.1; exact h hh.2)]
  have hat : ∀ E : p61a_channel_t, store_row p off ch E off ch = E := by
    intro E
    unfold store_row
    rw [if_pos ⟨rfl, rfl⟩]
  cases hs : p61a_shape_of d0 with
  | empty =>
    rw [hs] at hcb hgl
    simp only at hcb hgl
    refine ⟨(read_byte_ok_iff _ _ _).2 g0, ?_⟩
    · rw [read_event_empty p ch off _ _ d0 hs, if_pos hc]
      refine ⟨_, rfl, ?_, rfl, fun _ _ _ => rfl, Or.inl ⟨rfl, rfl⟩⟩
      rw [hlen, hgl]
  | note_instrument =>
    rw [hs] at hcb hgl
    simp only at hcb hgl
    have hne : p61a_shape_of d0 ≠ .empty := by rw [hs]; exact fun h => nomatch h
    have g1 : (pre ++ (channel_bytes ⟨d0, d1, d2⟩ ++ rest))[pre.length + 1]? = some d1 := by
      rw [getElem?_behind, hcb]
      simp
    obtain ⟨E, hE, e0, e1, _, e3⟩ := read_event_nonempty p ch off
      (pre ++ (channel_bytes ⟨d0, d1, d2⟩ ++ rest)) pre.length d0 hne
      (by rw [hgl', hgl]; simp only [List.length_append, hlen, hgl]; omega)
    rw [g1] at e1
    have e1' : E.data1 = d1 := (Option.some.inj e1).symm
    have hE2 : E = ⟨d0, d1, 0⟩ := by
      obtain ⟨a, b, c⟩ := E
      simp only at e0 e1' e3
      rw [e0, e1', e3 (by rw [hgl', hgl])]
    refine ⟨(read_byte_ok_iff _ _ _).2 g0, _, hE, ?_, rfl, fun r c h => hstore E r c h,
      Or.inr ⟨by decide, ?_⟩⟩
    · rw [hlen, hgl, hgl', hgl]
    · show to_protracker_channel (store_row p off ch E off ch) = _
      rw [hat, hE2, to_protracker_channel_of_note_instrument d0 d1 0 hs,
        to_protracker_channel_of_note_instrument d0 d1 d2 hs]
  | command =>
    rw [hs] at hcb hgl
    simp only at hcb hgl
    have hne : p61a_shape_of d0 ≠ .empty := by rw [hs]; exact fun h => nomatch h
    have g1 : (pre ++ (channel_bytes ⟨d0, d1, d2⟩ ++ rest))[pre.length + 1]? = some d1 := by
      rw [getElem?_behind, hcb]
      simp
    obtain ⟨E, hE, e0, e1, _, e3⟩ := read_event_nonempty p ch off
      (pre ++ (channel_bytes ⟨d0, d1, d2⟩ ++ rest)) pre.length d0 hne
      (by rw [hgl', hgl]; simp only [List.length_append, hlen, hgl]; omega)
    rw [g1] at e1
    have e1' : E.data1 = d1 := (Option.some.inj e1).symm
    have hE2 : E = ⟨d0, d1, 0⟩ := by
      obtain ⟨a, b, c⟩ := E
      simp only at e0 e1' e3
      rw [e0, e1', e3 (by rw [hgl', hgl])]
    refine ⟨(read_byte_ok_iff _ _ _).2 g0, _, hE, ?_, rfl, fun r c h => hstore E r c h,
      Or.inr ⟨by decide, ?_⟩⟩
    · rw [hlen, hgl, hgl', hgl]
    · show to_protracker_channel (store_row p off ch E off ch) = _
      rw [hat, hE2, to_protracker_channel_of_command d0 d1 0 hs,
        to_protracker_channel_of_command d0 d1 d2 hs]
  | full =>
    rw [hs] at hcb hgl
    simp only at hcb hgl
    have hne : p61a_shape_of d0 ≠ .empty := by rw [hs]; exact fun h => nomatch h
    have g1 : (pre ++ (channel_bytes ⟨d0, d1, d2⟩ ++ rest))[pre.length + 1]? = some d1 := by
      rw [getElem?_behind, hcb]
      simp
    have g2 : (pre ++ (channel_bytes ⟨d0, d1, d2⟩ ++ rest))[pre.length + 2]? = some d2 := by
      rw [getElem?_behind, hcb]
      simp
    obtain ⟨E, hE, e0, e1, e2, _⟩ := read_event_nonempty p ch off
      (pre ++ (channel_bytes ⟨d0, d1, d2⟩ ++ rest)) pre.length d0 hne
      (by rw [hgl', hgl]; simp only [List.length_append, hlen, hgl]; omega)
    rw [g1] at e1
    have e2' := e2 (by rw [hgl', hgl])
    rw [g2] at e2'
    have hE2 : E = ⟨d0, d1, d2⟩ := by
      obtain ⟨a, b, c⟩ := E
      simp only at e0 e1 e2'
      rw [e0, (Option.some.inj e1).symm, (Option.some.inj e2').symm]
    refine ⟨(read_byte_ok_iff _ _ _).2 g0, _, hE, ?_, rfl, fun r c h => hstore E r c h,
      Or.inr ⟨by decide, ?_⟩⟩
    · rw [hlen, hgl, hgl', hgl]
    · show to_protracker_channel (store_row p off ch E off ch) = _
      rw [hat, hE2]

/-- Decoding, with no row budget, a run of events without compression bit
that fills the pattern from row `off` to row 63: the cursor ends at 64, only
rows `off..63` of the column change, a row keeps its content where the event
is empty and else takes the MOD form of the event. -/
theorem decode_track_events (ch : Nat) (evs : List p61a_channel_t) :
    ∀ (f : Nat) (p : p61a_pattern_t) (off : Nat) (pre rest : List Nat),
      (∀ e ∈ evs, e.data0 &&& 0x80 = 0) → off + evs.length = 64 → evs.length + 1 ≤ f →
      ∃ p1, decompress_track f p ch off 0 (pre ++ (evs.flatMap channel_bytes ++ rest))
          pre.length = .ok (p1, 64) ∧
        (∀ r c, (r < off ∨ 64 ≤ r ∨ c ≠ ch) → p1 r c = p r c) ∧
        ∀ k e, evs[k]? = some e →
          (p61a_shape_of e.data0 = .empty ∧ p1 (off + k) ch = p (off + k) ch) ∨
          (p61a_shape_of e.data0 ≠ .empty ∧
            to_protracker_channel (p1 (off + k) ch) = to_protracker_channel e) := by
  induction evs with
  | nil =>
    intro f p off pre rest _ hoff hf
    obtain ⟨f', rfl⟩ : ∃ f', f = f' + 1 := ⟨f - 1, by omega⟩
    simp only [List.length_nil, Nat.add_zero] at hoff
    refine ⟨p, ?_, fun _ _ _ => rfl, fun k e hk => ?_⟩
    · rw [decompress_track_done f' p ch off 0 _ _ (by omega), hoff]
    · simp at hk
  | cons e es ih =>
    intro f p off pre rest hc hoff hf
    obtain ⟨f', rfl⟩ : ∃ f', f = f' + 1 := ⟨f - 1, by omega⟩
    simp only [List.length_cons] at hoff hf
    have hmem : pre ++ ((e :: es).flatMap channel_bytes ++ rest) =
        pre ++ (channel_bytes e ++ (es.flatMap channel_bytes ++ rest)) := by
      rw [List.flatMap_cons, List.append_assoc]
    have hmem2 : pre ++ (channel_bytes e ++ (es.flatMap channel_bytes ++ rest)) =
        (pre ++ channel_bytes e) ++ (es.flatMap channel_bytes ++ rest) := by
      rw [List.append_assoc]
    obtain ⟨hb, ev, hev, htr, hof, hfr, hcase⟩ := read_encoded_event p ch off pre e
      (es.flatMap channel_bytes ++ rest) (hc e (List.mem_cons_self _ _))
    obtain ⟨p1, h1, h2, h3⟩ := ih f' ev.pattern (off + 1) (pre ++ channel_bytes e) rest
      (fun x hx => hc x (List.mem_cons_of_mem _ hx)) (by omega) (by omega)
    refine ⟨p1, ?_, fun r c hr => ?_, fun k x hk => ?_⟩
    · rw [hmem, decompress_track_plain_step f' p ch off 0 _ pre.length e.data0 ev (by omega) hb
        hev (hc e (List.mem_cons_self _ _)), if_neg (by decide), hof, htr, hmem2]
      rw [List.length_append] at h1
      exact h1
    · rw [h2 r c (by omega), hfr r c (by omega)]
    · cases k with
      | zero =>
        simp only [List.getElem?_cons_zero, Option.some.injEq] at hk
        subst hk
        rw [Nat.add_zero, h2 off ch (Or.inl (by omega))]
        rcases hcase with ⟨hs, hp⟩ | ⟨hs, hp⟩
        · exact Or.inl ⟨hs, by rw [hp]⟩
        · exact Or.inr ⟨hs, hp⟩
      | succ k =>
        simp only [List.getElem?_cons_succ] at hk
        have := h3 k x hk
        rw [hfr (off + 1 + k) ch (Or.inl (by omega))] at this
        have e1 : off + (k + 1) = off + 1 + k := by omega
        rw [e1]
        exact this

theorem decompress_track_byte_error (f : Nat) (p : p61a_pattern_t) (ch off m : Nat)
    (mem : List Nat) (t : Nat) (hoff : off < 64) (ht : mem.length ≤ t) :
    decompress_track (f + 1) p ch off m mem t = .error .out_of_bounds := by
  have hb : read_byte mem t = .error .out_of_bounds := by
    unfold read_byte
    rw [List.getElem?_eq_none ht]
  rw [decompress_track, if_neg (by simpa [PT_PATTERN_ROWS] using hoff)]
  simp only [hb]

/-- An event that is not empty and whose bytes are not all in the stream
cannot be read. -/
theorem read_event_truncated (p : p61a_pattern_t) (ch off : Nat) (mem : List Nat) (t c0 : Nat)
    (hne : p61a_shape_of c0 ≠ .empty) (hlen : mem.length < t + get_channel_length ⟨c0, 0, 0⟩) :
    read_event p ch off mem (t + 1) c0 = .error .out_of_bounds := by
  have h1 : ¬ c0 &&& CHANNEL_EMPTY = CHANNEL_EMPTY := by
    intro hh
    apply hne
    unfold p61a_shape_of
    rw [if_pos hh]
  have hroom : ∀ i b, read_byte mem i = .ok b → i < mem.length :=
    fun i b h => getElem?_room mem i b ((read_byte_ok_iff mem i b).1 h)
  unfold get_channel_length at hlen
  simp only [] at hlen
  rw [if_neg h1] at hlen
  cases hr : read_event p ch off mem (t + 1) c0 with
  | error e => rw [read_event_error p ch off mem (t + 1) c0 e hr]
  | ok ev =>
    exfalso
    unfold read_event at hr
    rw [if_neg h1] at hr
    cases hb1 : read_byte mem (t + 1) with
    | error e1 => split_ifs at hr <;> simp [hb1] at hr
    | ok c1 =>
      have r1 := hroom _ _ hb1
      cases hb2 : read_byte mem (t + 1 + 1) with
      | error e2 =>
        split_ifs at hr hlen
        · omega
        · omega
        · simp [hb1, hb2] at hr
      | ok c2 =>
        have r2 := hroom _ _ hb2
        split_ifs at hlen <;> omega

/-- The decoder reads every byte of such a run: cut short, the stream ends
under the decoder. -/
theorem decode_track_truncated (ch : Nat) (evs : List p61a_channel_t) :
    ∀ (f : Nat) (p : p61a_pattern_t) (off : Nat) (pre : List Nat) (n : Nat),
      (∀ e ∈ evs, e.data0 &&& 0x80 = 0) → off + evs.length = 64 → evs.length + 1 ≤ f →
      n < (evs.flatMap channel_bytes).length →
      decompress_track f p ch off 0 (pre ++ (evs.flatMap channel_bytes).take n) pre.length =
        .error .out_of_bounds := by
  induction evs with
  | nil =>
    intro f p off pre n _ _ _ hn
    simp at hn
  | cons e es ih =>
    intro f p off pre n hc hoff hf hn
    obtain ⟨f', rfl⟩ : ∃ f', f = f' + 1 := ⟨f - 1, by omega⟩
    simp only [List.length_cons] at hoff hf
    rw [List.flatMap_cons] at hn ⊢
    rw [List.length_append] at hn
    have hce := hc e (List.mem_cons_self _ _)
    by_cases hlen : (channel_bytes e).length ≤ n
    · obtain ⟨i, rfl⟩ : ∃ i, n = (channel_bytes e).length + i :=
        ⟨n - (channel_bytes e).length, by omega⟩
      rw [List.take_append]
      obtain ⟨hb, ev, hev, htr, hof, _, _⟩ := read_encoded_event p ch off pre e
        ((es.flatMap channel_bytes).take i) hce
      rw [decompress_track_plain_step f' p ch off 0 _ pre.length e.data0 ev (by omega) hb
        hev hce, if_neg (by decide), hof, htr, ← List.append_assoc, ← List.length_append]
      exact ih f' ev.pattern (off + 1) (pre ++ channel_bytes e) i
        (fun x hx => hc x (List.mem_cons_of_mem _ hx)) (by omega) (by omega) (by omega)
    · rw [List.take_append_of_le_length (by omega)]
      have hcl := channel_bytes_length e
      have hgl : get_channel_length ⟨e.data0, 0, 0⟩ = get_channel_length e := rfl
      by_cases hn0 : n = 0
      · subst hn0
        rw [List.take_zero, List.append_nil]
        exact decompress_track_byte_error f' p ch off 0 pre pre.length (by omega) (Nat.le_refl _)
      · have hne : p61a_shape_of e.data0 ≠ .empty := by
          intro hs
          have := get_channel_length_of_shape e
          rw [hs] at this
          simp only at this
          omega
        have hb : read_byte (pre ++ (channel_bytes e).take n) pre.length = .ok e.data0 := by
          rw [read_byte_ok_iff]
          have h := getElem?_behind pre ((channel_bytes e).take n) 0
          rw [Nat.add_zero] at h
          rw [h, List.getElem?_take, if_pos (by omega), channel_bytes_of_shape]
          cases p61a_shape_of e.data0 <;> simp
        have hev := read_event_truncated p ch off (pre ++ (channel_bytes e).take n) pre.length
          e.data0 hne (by
            rw [List.length_append, List.length_take, hgl]
            omega)
        exact decompress_track_event_error f' p ch off 0 _ pre.length e.data0 _ (by omega) hb hev

theorem track_bytes_events (pattern : protracker_pattern_t) (j : Nat) :
    track_bytes pattern j =
      ((List.range PT_PATTERN_ROWS).map
        (fun row => (to_p61a_channel (pattern row j) 0).out)).flatMap channel_bytes := by
  unfold track_bytes
  rw [List.flatMap_map]

/-- C29: for every pattern and channel `j`, `decompress_track` run from row 0
with row budget 0 on the bytes `build_patterns` emits for the track (wherever
they stand in the stream, with enough fuel, into the zero-filled pattern)
returns row cursor 64 and leaves in each of the 64 rows of column `j` an
event whose MOD form is that of the encoded event of the row; nothing else
changes. It reads those bytes and no other: what follows them does not
matter, and with any of them cut off the read runs out of the stream. -/
theorem track_roundtrip (pattern : protracker_pattern_t) (j fuel : Nat) (pre rest : List Nat)
    (hf : 65 ≤ fuel) :
    (∃ p1, decompress_track fuel p61a_pattern_zero j 0 0
        (pre ++ (track_bytes pattern j ++ rest)) pre.length = .ok (p1, 64) ∧
      (∀ row usecode, row < 64 →
        to_protracker_channel (p1 row j) =
          to_protracker_channel (to_p61a_channel (pattern row j) usecode).out) ∧
      (∀ r c, (64 ≤ r ∨ c ≠ j) → p1 r c = p61a_pattern_zero r c)) ∧
    (∀ n, n < (track_bytes pattern j).length →
      decompress_track fuel p61a_pattern_zero j 0 0
        (pre ++ (track_bytes pattern j).take n) pre.length = .error .out_of_bounds) := by
  have hlen : ((List.range PT_PATTERN_ROWS).map
      (fun row => (to_p61a_channel (pattern row j) 0).out)).length = 64 := by
    rw [List.length_map, List.length_range]
    rfl
  have hc : ∀ e ∈ (List.range PT_PATTERN_ROWS).map
      (fun row => (to_p61a_channel (pattern row j) 0).out), e.data0 &&& 0x80 = 0 := by
    intro e he
    obtain ⟨row, _, rfl⟩ := List.mem_map.1 he
    exact encoded_bit7_clear _ _
  rw [track_bytes_events]
  refine ⟨?_, fun n hn => ?_⟩
  · obtain ⟨p1, h1, h2, h3⟩ := decode_track_events j _ fuel p61a_pattern_zero 0 pre rest hc
      (by rw [hlen]) (by rw [hlen]; omega)
    refine ⟨p1, h1, fun row usecode hrow => ?_, fun r c hr => h2 r c (by omega)⟩
    have hk : ((List.range PT_PATTERN_ROWS).map
        (fun row => (to_p61a_channel (pattern row j) 0).out))[row]? =
        some (to_p61a_channel (pattern row j) 0).out := by
      rw [List.getElem?_map, List.getElem?_range (by simpa [PT_PATTERN_ROWS] using hrow)]
      rfl
    rw [to_p61a_channel_out_usecode]
    rcases h3 row _ hk with ⟨hs, hp⟩ | ⟨_, hp⟩
    · rw [Nat.zero_add] at hp
      rw [hp]
      have hz : to_protracker_channel ⟨0, 0, 0⟩ = mod_event 0 0 0 0 := by decide
      have he := to_protracker_channel_of_empty (to_p61a_channel (pattern row j) 0).out.data0
        (to_p61a_channel (pattern row j) 0).out.data1
        (to_p61a_channel (pattern row j) 0).out.data2 hs
      rw [he]
      exact hz
    · rw [Nat.zero_add] at hp
      exact hp
  · exact decode_track_truncated j _ fuel p61a_pattern_zero 0 pre n hc (by rw [hlen])
      (by rw [hlen]; omega) hn

/-- C29 at the pattern of zero events, channel 0, with 65 steps of fuel. -/
theorem track_roundtrip_witness :
    ∃ p1, decompress_track 65 p61a_pattern_zero 0 0 0
      ([] ++ (track_bytes (fun _ _ => ⟨0, 0, 0, 0⟩) 0 ++ [])) 0 = .ok (p1, 64) :=
  let ⟨p1, h, _⟩ := (track_roundtrip (fun _ _ => ⟨0, 0, 0, 0⟩) 0 65 [] [] (by decide)).1
  ⟨p1, h⟩

/-! ## Data behind a prefix -/

theorem getD_behind (pre mem : List Nat) (k d : Nat) :
    (pre ++ mem).getD (pre.length + k) d = mem.getD k d := by
  rw [List.getD_eq_getElem?_getD, List.getD_eq_getElem?_getD, getElem?_behind]

theorem length_behind (pre mem : List Nat) (k : Nat) :
    (pre ++ mem).length - (pre.length + k) = mem.length - k := by
  rw [List.length_append]
  omega

theorem read_byte_behind (pre mem : List Nat) (k : Nat) :
    read_byte (pre ++ mem) (pre.length + k) = read_byte mem k := by
  unfold read_byte
  rw [getElem?_behind]

theorem read_sample_headers_behind (pre mem : List Nat) (count : Nat) :
    ∀ curr, read_sample_headers (pre ++ mem) count (pre.length + curr) =
      (read_sample_headers mem count curr).map (fun r => (r.1, pre.length + r.2)) := by
  induction count with
  | zero => intro curr; rfl
  | succ n ih =>
    intro curr
    simp only [read_sample_headers]
    rw [length_behind]
    by_cases h : mem.length - curr < sizeof_p61a_sample_t
    · rw [if_pos h, if_pos h]
      rfl
    · rw [if_neg h, if_neg h]
      have e : ∀ k, pre.length + curr + k = pre.length + (curr + k) := fun k => by omega
      rw [e, e 1, e 2, e 3, e 4, e 5, ih]
      simp only [getD_behind]
      cases read_sample_headers mem n (curr + sizeof_p61a_sample_t) <;> rfl

theorem read_pattern_offsets_behind (pre mem : List Nat) (count : Nat) :
    ∀ curr, read_pattern_offsets (pre ++ mem) count (pre.length + curr) =
      (read_pattern_offsets mem count curr).map (fun r => (r.1, pre.length + r.2)) := by
  induction count with
  | zero => intro curr; rfl
  | succ n ih =>
    intro curr
    simp only [read_pattern_offsets]
    rw [length_behind]
    by_cases h : mem.length - curr < sizeof_p61a_pattern_offset_t
    · rw [if_pos h, if_pos h]
      rfl
    · rw [if_neg h, if_neg h]
      have e : ∀ k, pre.length + curr + k = pre.length + (curr + k) := fun k => by omega
      rw [e, ih]
      simp only [Nat.add_assoc, getD_behind]
      cases read_pattern_offsets mem n (curr + sizeof_p61a_pattern_offset_t) <;> rfl

theorem read_song_positions_loop_behind (pre mem : List Nat) (n : Nat) :
    ∀ i song curr, read_song_positions_loop (pre ++ mem) n i song (pre.length + curr) =
      (read_song_positions_loop mem n i song curr).map (fun r => (r.1, pre.length + r.2)) := by
  induction n with
  | zero => intro i song curr; rfl
  | succ n ih =>
    intro i song curr
    simp only [read_song_positions_loop]
    rw [length_behind, getElem?_behind]
    by_cases h : mem.length - curr < 1
    · rw [if_pos h, if_pos h]
      rfl
    · rw [if_neg h, if_neg h]
      cases mem[curr]? with
      | none => rfl
      | some position =>
        simp only []
        by_cases hp : position = 0xff
        · rw [if_pos hp, if_pos hp]
          rfl
        · rw [if_neg hp, if_neg hp]
          have e : pre.length + curr + 1 = pre.length + (curr + 1) := by omega
          rw [e, ih]

theorem read_event_behind (p : p61a_pattern_t) (ch off : Nat) (pre mem : List Nat) (t c0 : Nat) :
    read_event p ch off (pre ++ mem) (pre.length + t) c0 =
      match read_event p ch off mem t c0 with
      | .error e => .error e
      | .ok ev => .ok { ev with track := pre.length + ev.track } := by
  unfold read_event
  have e : pre.length + t + 1 = pre.length + (t + 1) := by omega
  rw [e, read_byte_behind, read_byte_behind]
  split_ifs
  · rfl
  · rfl
  · cases read_byte mem t <;> rfl
  · cases read_byte mem t <;> rfl
  · cases read_byte mem t with
    | error e => rfl
    | ok c1 => cases read_byte mem (t + 1) <;> rfl

theorem read_distance_behind (pre mem : List Nat) (t d0 : Nat) :
    read_distance (pre ++ mem) (pre.length + t) d0 =
      match read_distance mem t d0 with
      | .error e => .error e
      | .ok r => .ok (r.1, pre.length + r.2) := by
  unfold read_distance
  have e : pre.length + t + 1 = pre.length + (t + 1) := by omega
  rw [e, read_byte_behind, read_byte_behind]
  cases read_byte mem t with
  | error e => rfl
  | ok dist =>
    simp only []
    split_ifs
    · cases read_byte mem (t + 1) <;> rfl
    · rfl

/-- A run of the decoder that stays inside the data gives the same result
when the data stands behind a prefix. -/
theorem decompress_track_behind (pre mem : List Nat) (fuel : Nat) :
    ∀ (p : p61a_pattern_t) (ch off m t : Nat) (r : p61a_pattern_t × Nat),
      decompress_track fuel p ch off m mem t = .ok r →
      decompress_track fuel p ch off m (pre ++ mem) (pre.length + t) = .ok r := by
  induction fuel with
  | zero =>
    intro p ch off m t r h
    simp [decompress_track] at h
  | succ f ih =>
    intro p ch off m t r h
    rw [decompress_track] at h ⊢
    by_cases hoff : ¬ off < PT_PATTERN_ROWS
    · rw [if_pos hoff] at h ⊢
      exact h
    rw [if_neg hoff] at h ⊢
    have e1 : pre.length + t + 1 = pre.length + (t + 1) := by omega
    rw [read_byte_behind, e1]
    cases hb : read_byte mem t with
    | error e => simp [hb] at h
    | ok c0 =>
      simp only [hb] at h ⊢
      rw [read_event_behind]
      cases hev : read_event p ch off mem (t + 1) c0 with
      | error e => simp [hev] at h
      | ok ev =>
        simp only [hev] at h ⊢
        have hfin : ∀ (p1 : p61a_pattern_t) (off1 t1 : Nat),
            (if m > 0 ∧ m - 1 = 0 then (Except.ok (p1, off1) : Except decode_error _)
             else decompress_track f p1 ch off1 (if m > 0 then m - 1 else m) mem t1) = .ok r →
            (if m > 0 ∧ m - 1 = 0 then (Except.ok (p1, off1) : Except decode_error _)
             else decompress_track f p1 ch off1 (if m > 0 then m - 1 else m) (pre ++ mem)
               (pre.length + t1)) = .ok r := by
          intro p1 off1 t1 hh
          by_cases hm : m > 0 ∧ m - 1 = 0
          · rw [if_pos hm] at hh ⊢
            exact hh
          · rw [if_neg hm] at hh ⊢
            exact ih _ _ _ _ _ _ hh
        by_cases hcomp : c0 &&& CHANNEL_COMPRESSED ≠ 0
        · rw [if_pos hcomp] at h ⊢
          rw [read_byte_behind]
          cases hd : read_byte mem ev.track with
          | error e => simp [hd] at h
          | ok d0 =>
            simp only [hd] at h ⊢
            by_cases hj : d0 &&& COMPRESSION_JUMP ≠ 0
            · rw [if_pos hj] at h ⊢
              have e2 : pre.length + ev.track + 1 = pre.length + (ev.track + 1) := by omega
              rw [e2, read_distance_behind]
              cases hdist : read_distance mem (ev.track + 1) d0 with
              | error e => simp [hdist] at h
              | ok dt =>
                obtain ⟨dist, t1⟩ := dt
                simp only [hdist] at h ⊢
                by_cases hgt : dist > t1
                · rw [if_pos hgt] at h
                  simp at h
                · rw [if_neg hgt] at h
                  rw [if_neg (by omega)]
                  have e3 : pre.length + t1 - dist = pre.length + (t1 - dist) := by omega
                  rw [e3]
                  cases hrec : decompress_track f ev.pattern ch ev.offset
                      ((d0 &&& COMPRESSION_DATA_BITS) + 1) mem (t1 - dist) with
                  | error e => simp [hrec] at h
                  | ok r1 =>
                    obtain ⟨p1, off1⟩ := r1
                    rw [ih _ _ _ _ _ _ hrec]
                    simp only [hrec] at h ⊢
                    exact hfin _ _ _ h
            · rw [if_neg hj] at h ⊢
              have e2 : pre.length + ev.track + 1 = pre.length + (ev.track + 1) := by omega
              rw [e2]
              by_cases hrep : d0 &&& COMPRESSION_REPEAT_ROWS ≠ 0
              · rw [if_pos hrep] at h ⊢
                simp only [] at h ⊢
                exact hfin _ _ _ h
              · rw [if_neg hrep] at h ⊢
                by_cases hem : d0 &&& COMPRESSION_CMD_BITS = COMPRESSION_EMPTY_ROWS
                · rw [if_pos hem] at h ⊢
                  simp only [] at h ⊢
                  exact hfin _ _ _ h
                · rw [if_neg hem] at h ⊢
                  simp only [] at h ⊢
                  exact hfin _ _ _ h
        · rw [if_neg hcomp] at h ⊢
          simp only [] at h ⊢
          exact hfin _ _ _ h

theorem read_patterns_channels_behind (pre mem : List Nat) (fuel curr : Nat) (offsets : List Nat)
    (i : Nat) (channels : List Nat) :
    ∀ (patterns r : p61a_pattern_t),
      read_patterns_channels fuel mem curr offsets i channels patterns = .ok r →
      read_patterns_channels fuel (pre ++ mem) (pre.length + curr) offsets i channels patterns =
        .ok r := by
  induction channels with
  | nil => intro patterns r h; exact h
  | cons j rest ih =>
    intro patterns r h
    simp only [read_patterns_channels] at h ⊢
    rw [Nat.add_assoc]
    cases hd : decompress_track fuel (pattern_at patterns i) j 0 0 mem
        (curr + offsets.getD j 0) with
    | error e =>
      rw [hd] at h
      exact Except.noConfusion h
    | ok r1 =>
      rw [decompress_track_behind pre mem fuel _ _ _ _ _ _ hd]
      simp only [hd] at h ⊢
      exact ih _ _ h

theorem read_patterns_behind (pre mem : List Nat) (fuel curr : Nat)
    (offsets : List (List Nat)) :
    ∀ (i : Nat) (patterns r : p61a_pattern_t),
      read_patterns fuel mem curr offsets i patterns = .ok r →
      read_patterns fuel (pre ++ mem) (pre.length + curr) offsets i patterns = .ok r := by
  induction offsets with
  | nil => intro i patterns r h; exact h
  | cons o rest ih =>
    intro i patterns r h
    simp only [read_patterns] at h ⊢
    cases hc : read_patterns_channels fuel mem curr o i (List.range PT_NUM_CHANNELS)
        patterns with
    | error e => simp [hc] at h
    | ok r1 =>
      rw [read_patterns_channels_behind pre mem fuel curr o i _ _ _ hc]
      simp only [hc] at h ⊢
      exact ih _ _ _ h

theorem read_sample_data_behind (pre mem : List Nat) (headers : List p61a_sample_t) :
    ∀ (i samples : Nat) (data r : Nat → Nat → Nat),
      read_sample_data mem headers i samples data = .ok r →
      read_sample_data (pre ++ mem) headers i (pre.length + samples) data = .ok r := by
  induction headers with
  | nil => intro i samples data r h; exact h
  | cons s rest ih =>
    intro i samples data r h
    simp only [read_sample_data] at h ⊢
    by_cases h0 : s.length = 0
    · rw [if_pos h0] at h ⊢
      exact ih _ _ _ _ h
    · rw [if_neg h0] at h ⊢
      by_cases hl : mem.length < samples + s.length * 2
      · rw [if_pos hl] at h
        simp at h
      · rw [if_neg hl] at h
        rw [if_neg (by rw [List.length_append]; omega)]
        have := ih _ _ _ _ h
        simp only [Nat.add_assoc, getD_behind] at this ⊢
        exact this

/-- The part of `player61a_load` behind the signature check sees the data
from the header on only (as long as no read leaves the data). -/
theorem player61a_load_from_behind (fuel : Nat) (created : protracker_t) (pre mem : List Nat)
    (raw : Nat) (r : Option protracker_t)
    (h : player61a_load_from fuel created mem raw = .ok r) :
    player61a_load_from fuel created (pre ++ mem) (pre.length + raw) = .ok r := by
  unfold player61a_load_from at h ⊢
  simp only [] at h ⊢
  have e0 := getD_behind pre mem raw 0
  have e1 := getD_behind pre mem (raw + 1) 0
  have e2 := getD_behind pre mem (raw + 2) 0
  have e3 := getD_behind pre mem (raw + 3) 0
  simp only [← Nat.add_assoc] at e1 e2 e3
  rw [e0, e1, e2, e3]
  by_cases hp : mem.getD (raw + 2) 0 = 0
  · rw [if_pos hp] at h ⊢
    exact h
  rw [if_neg hp] at h ⊢
  by_cases hs : mem.getD (raw + 3) 0 > PT_NUM_SAMPLES
  · rw [if_pos hs] at h ⊢
    exact h
  rw [if_neg hs] at h ⊢
  rw [Nat.add_assoc, read_sample_headers_behind]
  cases hsh : read_sample_headers mem (mem.getD (raw + 3) 0) (raw + sizeof_p61a_header_t) with
  | none =>
    simp only [hsh] at h
    exact h
  | some sh =>
    obtain ⟨sample_headers, curr1⟩ := sh
    simp only [hsh, Option.map_some'] at h ⊢
    rw [read_pattern_offsets_behind]
    cases hpo : read_pattern_offsets mem (mem.getD (raw + 2) 0) curr1 with
    | none =>
      simp only [hpo] at h
      exact h
    | some po =>
      obtain ⟨pattern_offsets, curr2⟩ := po
      simp only [hpo, Option.map_some'] at h ⊢
      unfold read_song_positions at h ⊢
      rw [read_song_positions_loop_behind]
      cases hsp : read_song_positions_loop mem PT_NUM_POSITIONS 0
          ⟨0, List.replicate PT_NUM_POSITIONS 0⟩ curr2 with
      | none =>
        simp only [hsp] at h
        exact h
      | some sp =>
        obtain ⟨song, curr3⟩ := sp
        simp only [hsp, Option.map_some'] at h ⊢
        cases hrp : read_patterns fuel mem curr3 pattern_offsets 0 p61a_pattern_zero with
        | error e => simp [hrp] at h
        | ok patterns =>
          rw [read_patterns_behind pre mem fuel curr3 pattern_offsets 0 _ _ hrp]
          simp only [hrp] at h ⊢
          cases hsd : read_sample_data mem sample_headers 0
              (raw + be16_value (mem.getD raw 0) (mem.getD (raw + 1) 0))
              created.sample_data with
          | error e =>
            rw [hsd] at h
            exact Except.noConfusion h
          | ok data =>
            rw [Nat.add_assoc, read_sample_data_behind pre mem sample_headers 0 _ _ _ hsd]
            simp only [hsd] at h ⊢
            exact h

/-! ## The tables of a P61A file -/

theorem read_sample_headers_of_some (mem : List Nat) (n : Nat) :
    ∀ (curr : Nat) (l : List p61a_sample_t) (c : Nat),
      read_sample_headers mem n curr = some (l, c) →
      c = curr + sizeof_p61a_sample_t * n ∧ l.length = n ∧ (0 < n → c ≤ mem.length) := by
  induction n with
  | zero =>
    intro curr l c h
    simp only [read_sample_headers, Option.some.injEq, Prod.mk.injEq] at h
    obtain ⟨rfl, rfl⟩ := h
    exact ⟨rfl, rfl, fun h => absurd h (by decide)⟩
  | succ n ih =>
    intro curr l c h
    simp only [read_sample_headers] at h
    by_cases hl : mem.length - curr < sizeof_p61a_sample_t
    · rw [if_pos hl] at h
      exact Option.noConfusion h
    · rw [if_neg hl] at h
      cases hr : read_sample_headers mem n (curr + sizeof_p61a_sample_t) with
      | none =>
        rw [hr] at h
        exact Option.noConfusion h
      | some r1 =>
        obtain ⟨l1, c1⟩ := r1
        rw [hr] at h
        simp only [Option.some.injEq, Prod.mk.injEq] at h
        obtain ⟨rfl, rfl⟩ := h
        obtain ⟨a1, a2, a3⟩ := ih _ _ _ hr
        refine ⟨by rw [a1, Nat.mul_succ]; omega, by simp [a2], fun _ => ?_⟩
        by_cases hn : 0 < n
        · exact a3 hn
        · have : n = 0 := by omega
          subst this
          simp only [sizeof_p61a_sample_t] at hl a1 ⊢
          omega

theorem read_sample_headers_eq_none (mem : List Nat) (n curr : Nat) (hn : 0 < n)
    (h : mem.length < curr + sizeof_p61a_sample_t * n) :
    read_sample_headers mem n curr = none := by
  cases hr : read_sample_headers mem n curr with
  | none => rfl
  | some r =>
    obtain ⟨l, c⟩ := r
    obtain ⟨a1, _, a3⟩ := read_sample_headers_of_some mem n curr l c hr
    have := a3 hn
    omega

theorem read_sample_headers_eq_some (mem : List Nat) (n : Nat) :
    ∀ curr, curr + sizeof_p61a_sample_t * n ≤ mem.length →
      ∃ l, read_sample_headers mem n curr = some (l, curr + sizeof_p61a_sample_t * n) := by
  induction n with
  | zero => intro curr _; exact ⟨[], rfl⟩
  | succ n ih =>
    intro curr h
    rw [Nat.mul_succ] at h
    obtain ⟨l, hl⟩ := ih (curr + sizeof_p61a_sample_t) (by omega)
    simp only [read_sample_headers]
    have e : curr + sizeof_p61a_sample_t + sizeof_p61a_sample_t * n = curr + sizeof_p61a_sample_t * (n + 1) := by
      rw [Nat.mul_succ]
      omega
    rw [if_neg (by simp only [sizeof_p61a_sample_t] at h ⊢; omega), hl, e]
    exact ⟨_, rfl⟩

theorem read_pattern_offsets_of_some (mem : List Nat) (n : Nat) :
    ∀ (curr : Nat) (l : List (List Nat)) (c : Nat),
      read_pattern_offsets mem n curr = some (l, c) →
      c = curr + sizeof_p61a_pattern_offset_t * n ∧ l.length = n ∧ (0 < n → c ≤ mem.length) := by
  induction n with
  | zero =>
    intro curr l c h
    simp only [read_pattern_offsets, Option.some.injEq, Prod.mk.injEq] at h
    obtain ⟨rfl, rfl⟩ := h
    exact ⟨rfl, rfl, fun h => absurd h (by decide)⟩
  | succ n ih =>
    intro curr l c h
    simp only [read_pattern_offsets] at h
    by_cases hl : mem.length - curr < sizeof_p61a_pattern_offset_t
    · rw [if_pos hl] at h
      exact Option.noConfusion h
    · rw [if_neg hl] at h
      cases hr : read_pattern_offsets mem n (curr + sizeof_p61a_pattern_offset_t) with
      | none =>
        rw [hr] at h
        exact Option.noConfusion h
      | some r1 =>
        obtain ⟨l1, c1⟩ := r1
        rw [hr] at h
        simp only [Option.some.injEq, Prod.mk.injEq] at h
        obtain ⟨rfl, rfl⟩ := h
        obtain ⟨a1, a2, a3⟩ := ih _ _ _ hr
        refine ⟨by rw [a1, Nat.mul_succ]; omega, by simp [a2], fun _ => ?_⟩
        by_cases hn : 0 < n
        · exact a3 hn
        · have : n = 0 := by omega
          subst this
          simp only [sizeof_p61a_pattern_offset_t] at hl a1 ⊢
          omega

theorem read_pattern_offsets_eq_none (mem : List Nat) (n curr : Nat) (hn : 0 < n)
    (h : mem.length < curr + sizeof_p61a_pattern_offset_t * n) :
    read_pattern_offsets mem n curr = none := by
  cases hr : read_pattern_offsets mem n curr with
  | none => rfl
  | some r =>
    obtain ⟨l, c⟩ := r
    obtain ⟨a1, _, a3⟩ := read_pattern_offsets_of_some mem n curr l c hr
    have := a3 hn
    omega

theorem read_pattern_offsets_eq_some (mem : List Nat) (n : Nat) :
    ∀ curr, curr + sizeof_p61a_pattern_offset_t * n ≤ mem.length →
      ∃ l, read_pattern_offsets mem n curr =
        some (l, curr + sizeof_p61a_pattern_offset_t * n) := by
  induction n with
  | zero => intro curr _; exact ⟨[], rfl⟩
  | succ n ih =>
    intro curr h
    rw [Nat.mul_succ] at h
    obtain ⟨l, hl⟩ := ih (curr + sizeof_p61a_pattern_offset_t) (by omega)
    simp only [read_pattern_offsets]
    have e : curr + sizeof_p61a_pattern_offset_t + sizeof_p61a_pattern_offset_t * n = curr + sizeof_p61a_pattern_offset_t * (n + 1) := by
      rw [Nat.mul_succ]
      omega
    rw [if_neg (by simp only [sizeof_p61a_pattern_offset_t] at h ⊢; omega), hl, e]
    exact ⟨_, rfl⟩

/-- No module comes of data that ends before the first pattern-offset
record is complete. -/
theorem player61a_load_from_short (fuel : Nat) (created : protracker_t) (mem : List Nat)
    (raw : Nat) (h : mem.length < raw + 12) :
    player61a_load_from fuel created mem raw = .ok none := by
  unfold player61a_load_from
  simp only []
  by_cases hp : mem.getD (raw + 2) 0 = 0
  · rw [if_pos hp]
  rw [if_neg hp]
  by_cases hs : mem.getD (raw + 3) 0 > PT_NUM_SAMPLES
  · rw [if_pos hs]
  rw [if_neg hs]
  cases hsh : read_sample_headers mem (mem.getD (raw + 3) 0) (raw + sizeof_p61a_header_t) with
  | none => rfl
  | some sh =>
    obtain ⟨sample_headers, curr1⟩ := sh
    obtain ⟨a1, _, _⟩ := read_sample_headers_of_some _ _ _ _ _ hsh
    simp only []
    rw [read_pattern_offsets_eq_none mem _ curr1 (Nat.pos_of_ne_zero hp) (by
      have : 1 ≤ mem.getD (raw + 2) 0 := Nat.pos_of_ne_zero hp
      simp only [sizeof_p61a_pattern_offset_t, sizeof_p61a_header_t] at a1 ⊢
      omega)]

/-- Where the part of `player61a_load` behind the signature check returns no
module on data behind a prefix, it returns no module on the data alone: no
module comes from the header counts and the three tables only, which are read
from the header on. -/
theorem player61a_load_from_none_behind (fuel : Nat) (created : protracker_t)
    (pre mem : List Nat) (raw : Nat)
    (h : player61a_load_from fuel created (pre ++ mem) (pre.length + raw) = .ok none) :
    player61a_load_from fuel created mem raw = .ok none := by
  unfold player61a_load_from at h ⊢
  simp only [] at h ⊢
  have e0 := getD_behind pre mem raw 0
  have e1 := getD_behind pre mem (raw + 1) 0
  have e2 := getD_behind pre mem (raw + 2) 0
  have e3 := getD_behind pre mem (raw + 3) 0
  simp only [← Nat.add_assoc] at e1 e2 e3
  rw [e0, e1, e2, e3] at h
  by_cases hp : mem.getD (raw + 2) 0 = 0
  · rw [if_pos hp]
  rw [if_neg hp] at h ⊢
  by_cases hs : mem.getD (raw + 3) 0 > PT_NUM_SAMPLES
  · rw [if_pos hs]
  rw [if_neg hs] at h ⊢
  rw [Nat.add_assoc, read_sample_headers_behind] at h
  cases hsh : read_sample_headers mem (mem.getD (raw + 3) 0) (raw + sizeof_p61a_header_t) with
  | none => rfl
  | some sh =>
    obtain ⟨sample_headers, curr1⟩ := sh
    simp only [hsh, Option.map_some'] at h ⊢
    rw [read_pattern_offsets_behind] at h
    cases hpo : read_pattern_offsets mem (mem.getD (raw + 2) 0) curr1 with
    | none => rfl
    | some po =>
      obtain ⟨pattern_offsets, curr2⟩ := po
      simp only [hpo, Option.map_some'] at h ⊢
      unfold read_song_positions at h ⊢
      rw [read_song_positions_loop_behind] at h
      cases hsp : read_song_positions_loop mem PT_NUM_POSITIONS 0
          ⟨0, List.replicate PT_NUM_POSITIONS 0⟩ curr2 with
      | none => rfl
      | some sp =>
        obtain ⟨song, curr3⟩ := sp
        simp only [hsp, Option.map_some'] at h ⊢
        exfalso
        cases hrp : read_patterns fuel (pre ++ mem) (pre.length + curr3) pattern_offsets 0
            p61a_pattern_zero with
        | error e =>
          rw [hrp] at h
          exact Except.noConfusion h
        | ok patterns =>
          rw [hrp] at h
          simp only [] at h
          cases hsd : read_sample_data (pre ++ mem) sample_headers 0
              (pre.length + raw + be16_value (mem.getD raw 0) (mem.getD (raw + 1) 0))
              created.sample_data with
          | error e =>
            rw [hsd] at h
            exact Except.noConfusion h
          | ok data =>
            rw [hsd] at h
            simp only [Except.ok.injEq] at h
            exact Option.noConfusion h

/-! ## The signature -/

/-- C21 fails where a back-reference reaches over the start of the input. The
stream `S` = 00 10 01 00, eight bytes 00, FF, FF 40 11 FF 3F does not begin
with P61A: one pattern, no sample, an empty song, and at position 13 the one
track of all four channels, whose first event carries a back-reference of
distance 17 from position 16. On `S` the decoder reads one byte before the
input and the load has no outcome. Behind the signature the same
back-reference reads the `A` of P61A as the first byte of the event
41 00 10, and the load returns a module with that event in row 0. -/
theorem signature_reached_by_back_reference :
    ([0x00, 0x10, 0x01, 0x00, 0x00, 0x00, 0x00, 0x00, 0x00, 0x00, 0x00, 0x00, 0xff,
      0xff, 0x40, 0x11, 0xff, 0x3f] : List Nat).take 4 ≠ signature ∧
    player61a_load 10
      { song := ⟨0, 0, List.replicate 128 0⟩, patterns := [],
        sample_headers := fun _ => ⟨0, 0, 0, 0, 0⟩, sample_data := fun _ _ => 0 }
      [0x00, 0x10, 0x01, 0x00, 0x00, 0x00, 0x00, 0x00, 0x00, 0x00, 0x00, 0x00, 0xff,
        0xff, 0x40, 0x11, 0xff, 0x3f] = .error .out_of_bounds ∧
    ∃ m, player61a_load 10
        { song := ⟨0, 0, List.replicate 128 0⟩, patterns := [],
          sample_headers := fun _ => ⟨0, 0, 0, 0, 0⟩, sample_data := fun _ _ => 0 }
        (signature ++ [0x00, 0x10, 0x01, 0x00, 0x00, 0x00, 0x00, 0x00, 0x00, 0x00, 0x00, 0x00,
          0xff, 0xff, 0x40, 0x11, 0xff, 0x3f]) = .ok (some m) ∧
      m.patterns.length = 1 ∧
      ∃ q : protracker_pattern_t, m.patterns[0]? = some q ∧
        q 0 0 = to_protracker_channel ⟨0x41, 0x00, 0x10⟩ :=
  ⟨by decide, rfl, _, rfl, rfl, _, rfl, rfl⟩

/-- C21, amended: for every byte stream `S` that does not begin with the bytes
P61A, whatever `player61a_load` returns on `S` (a module, or no module), having
read nothing outside `S`, it returns on P61A followed by `S`; and where it
returns no module on P61A followed by `S`, it returns no module on `S`. Where
the run on `S` reads before the start of `S` the C behaviour is undefined, and
behind the signature the same bytes can load as a module. -/
theorem signature_skipped (fuel : Nat) (created : protracker_t) (S : List Nat)
    (hS : S.take 4 ≠ signature) :
    (∀ r, player61a_load fuel created S = .ok r →
      player61a_load fuel created (signature ++ S) = .ok r) ∧
    (player61a_load fuel created (signature ++ S) = .ok none →
      player61a_load fuel created S = .ok none) := by
  have hsig : signature.length = 4 := rfl
  have htake : (signature ++ S).take signature.length = signature := List.take_left' rfl
  refine ⟨fun r h => ?_, fun h => ?_⟩
  · unfold player61a_load at h ⊢
    rw [htake, if_pos rfl, List.length_append]
    by_cases hlen : S.length < sizeof_p61a_header_t + signature.length
    · rw [if_pos hlen] at h
      rw [← h]
      by_cases h4 : signature.length + S.length < sizeof_p61a_header_t + signature.length
      · rw [if_pos h4]
      · rw [if_neg h4]
        apply player61a_load_from_short
        simp only [sizeof_p61a_header_t, hsig] at hlen
        rw [List.length_append, hsig]
        omega
    · rw [if_neg hlen] at h
      rw [if_neg (by omega)]
      rw [hsig] at h
      rw [if_neg hS] at h
      exact player61a_load_from_behind fuel created signature S 0 r h
  · unfold player61a_load at h ⊢
    rw [htake, if_pos rfl, List.length_append] at h
    by_cases hlen : S.length < sizeof_p61a_header_t + signature.length
    · rw [if_pos hlen]
    · rw [if_neg hlen, hsig, if_neg hS]
      rw [if_neg (by omega)] at h
      apply player61a_load_from_none_behind fuel created signature S 0
      rw [Nat.add_zero]
      exact h

/-- C21 at a file of 16 bytes: one pattern, no sample, an empty song. -/
theorem signature_skipped_witness :
    ∃ m, player61a_load 10
      { song := ⟨0, 0, List.replicate 128 0⟩, patterns := [],
        sample_headers := fun _ => ⟨0, 0, 0, 0, 0⟩, sample_data := fun _ _ => 0 }
      (signature ++ [0x00, 0x10, 0x01, 0x00, 0x00, 0x00, 0x00, 0x00, 0x00, 0x00, 0x00, 0x00,
        0xff, 0xe0, 0x00, 0x3f]) = .ok (some m) :=
  ⟨_, (signature_skipped 10
    { song := ⟨0, 0, List.replicate 128 0⟩, patterns := [],
      sample_headers := fun _ => ⟨0, 0, 0, 0, 0⟩, sample_data := fun _ _ => 0 }
    [0x00, 0x10, 0x01, 0x00, 0x00, 0x00, 0x00, 0x00, 0x00, 0x00, 0x00, 0x00,
      0xff, 0xe0, 0x00, 0x3f] (by decide)).1 (some _) rfl⟩

/-! ## What the loader rejects -/

/-- The loop of `read_song_positions` finds no end when the data stops
within its count without a byte 0xFF. -/
theorem read_song_positions_loop_none (mem : List Nat) (n : Nat) :
    ∀ (i : Nat) (song : p61a_song_t) (curr : Nat), mem.length - curr < n →
      (∀ k, curr ≤ k → k < mem.length → mem[k]? ≠ some 0xff) →
      read_song_positions_loop mem n i song curr = none := by
  induction n with
  | zero => intro i song curr h _; omega
  | succ n ih =>
    intro i song curr h hne
    simp only [read_song_positions_loop]
    by_cases hl : mem.length - curr < 1
    · rw [if_pos hl]
    · rw [if_neg hl]
      cases hg : mem[curr]? with
      | none => rfl
      | some position =>
        simp only []
        have hp : position ≠ 0xff := by
          intro hp
          apply hne curr (Nat.le_refl _) (by omega)
          rw [hg, hp]
        rw [if_neg hp]
        exact ih _ _ _ (by omega) (fun k hk hk2 => hne k (by omega) hk2)

/-- The checks of `player61a_load_from` before the tracks, by the counts in
the header and the length of the data. -/
theorem player61a_load_from_rejects (fuel : Nat) (created : protracker_t) (mem : List Nat)
    (raw : Nat) :
    (mem.getD (raw + 2) 0 = 0 → player61a_load_from fuel created mem raw = .ok none) ∧
    (mem.getD (raw + 3) 0 > PT_NUM_SAMPLES →
      player61a_load_from fuel created mem raw = .ok none) ∧
    (0 < mem.getD (raw + 3) 0 →
      mem.length < raw + 4 + 6 * mem.getD (raw + 3) 0 →
      player61a_load_from fuel created mem raw = .ok none) ∧
    (mem.length < raw + 4 + 6 * mem.getD (raw + 3) 0 + 8 * mem.getD (raw + 2) 0 →
      player61a_load_from fuel created mem raw = .ok none) ∧
    (mem.length - (raw + 4 + 6 * mem.getD (raw + 3) 0 + 8 * mem.getD (raw + 2) 0) < 128 →
      (∀ k, raw + 4 + 6 * mem.getD (raw + 3) 0 + 8 * mem.getD (raw + 2) 0 ≤ k →
        k < mem.length → mem[k]? ≠ some 0xff) →
      player61a_load_from fuel created mem raw = .ok none) := by
  have main : ∀ (P : Prop),
      (mem.getD (raw + 2) 0 ≠ 0 → ¬ mem.getD (raw + 3) 0 > PT_NUM_SAMPLES →
        (∀ l c, read_sample_headers mem (mem.getD (raw + 3) 0) (raw + sizeof_p61a_header_t) =
            some (l, c) →
          ∀ l2 c2, read_pattern_offsets mem (mem.getD (raw + 2) 0) c = some (l2, c2) →
            c2 = raw + 4 + 6 * mem.getD (raw + 3) 0 + 8 * mem.getD (raw + 2) 0 →
            c2 ≤ mem.length → c ≤ c2 → (0 < mem.getD (raw + 3) 0 → c ≤ mem.length) →
            P → read_song_positions ⟨0, List.replicate PT_NUM_POSITIONS 0⟩ mem c2 = none)) →
      P → player61a_load_from fuel created mem raw = .ok none := by
    intro P hP hp
    unfold player61a_load_from
    simp only []
    by_cases h1 : mem.getD (raw + 2) 0 = 0
    · rw [if_pos h1]
    rw [if_neg h1]
    by_cases h2 : mem.getD (raw + 3) 0 > PT_NUM_SAMPLES
    · rw [if_pos h2]
    rw [if_neg h2]
    cases hsh : read_sample_headers mem (mem.getD (raw + 3) 0) (raw + sizeof_p61a_header_t) with
    | none => rfl
    | some sh =>
      obtain ⟨l, c⟩ := sh
      simp only []
      obtain ⟨a1, _, a3⟩ := read_sample_headers_of_some _ _ _ _ _ hsh
      cases hpo : read_pattern_offsets mem (mem.getD (raw + 2) 0) c with
      | none => rfl
      | some po =>
        obtain ⟨l2, c2⟩ := po
        simp only []
        obtain ⟨b1, _, b3⟩ := read_pattern_offsets_of_some _ _ _ _ _ hpo
        rw [hP h1 h2 l c hsh l2 c2 hpo (by
          simp only [sizeof_p61a_sample_t, sizeof_p61a_header_t,
            sizeof_p61a_pattern_offset_t] at a1 b1
          omega) (b3 (Nat.pos_of_ne_zero h1)) (by omega) a3 hp]
  refine ⟨main _ (fun h1 _ _ _ _ _ _ _ _ _ _ _ hp => absurd hp h1),
    main _ (fun _ h2 _ _ _ _ _ _ _ _ _ _ hp => absurd hp h2),
    fun hpos => main _ (fun _ _ l c hsh _ _ _ _ _ _ hc hp => ?_),
    main _ (fun _ _ _ _ _ _ _ _ hc2 hle _ _ hp => ?_),
    fun hlen => main _ (fun _ _ _ _ _ _ c2 _ hc2 _ _ _ hp => ?_)⟩
  · have a1 := (read_sample_headers_of_some _ _ _ _ _ hsh).1
    have := hc hpos
    simp only [sizeof_p61a_sample_t, sizeof_p61a_header_t] at a1
    omega
  · omega
  · unfold read_song_positions
    rw [hc2]
    exact read_song_positions_loop_none mem PT_NUM_POSITIONS 0 _ _ hlen hp

-- A file of one pattern, no sample, 128 position bytes 01 and the track
-- E0 00 3F, with no byte 0xFF: a module of song length 0 is returned.
set_option maxRecDepth 100000 in
theorem unterminated_positions_load :
    ∃ m, player61a_load 10
      { song := ⟨0, 0, List.replicate 128 0⟩, patterns := [],
        sample_headers := fun _ => ⟨0, 0, 0, 0, 0⟩, sample_data := fun _ _ => 0 }
      ([0x00, 0x00, 0x01, 0x00, 0x00, 0x00, 0x00, 0x00, 0x00, 0x00, 0x00, 0x00] ++
        List.replicate 128 0x01 ++ [0xe0, 0x00, 0x3f]) = .ok (some m) ∧
      m.song.length = 0 ∧ m.patterns.length = 1 :=
  ⟨_, rfl, rfl, rfl⟩

/-- C23, the code on each case of the claim. `player61a_load` returns no
module when the input is shorter than 8 bytes, when the header's
pattern_count is 0 or its sample_count is above 31, when the data ends before
the end of the sample table or of the pattern-offset table, and when it ends
without a byte 0xFF less than 128 bytes behind the pattern-offset table. With
128 bytes or more behind the table and no 0xFF among them the loop of
`read_song_positions` ends on its count and the load goes on: the last part
is a file of one pattern, no sample, 128 position bytes 01 and the track
E0 00 3F, with no byte 0xFF at all, for which a module of song length 0 is
returned. -/
theorem load_rejects (fuel : Nat) (created : protracker_t) (buffer : List Nat) :
    let raw := if buffer.take signature.length = signature then signature.length else 0
    let pattern_count := buffer.getD (raw + 2) 0
    let sample_count := buffer.getD (raw + 3) 0
    let positions := raw + 4 + 6 * sample_count + 8 * pattern_count
    (buffer.length < 8 → player61a_load fuel created buffer = .ok none) ∧
    (pattern_count = 0 → player61a_load fuel created buffer = .ok none) ∧
    (sample_count > 31 → player61a_load fuel created buffer = .ok none) ∧
    (buffer.length < raw + 4 + 6 * sample_count →
      player61a_load fuel created buffer = .ok none) ∧
    (buffer.length < positions → player61a_load fuel created buffer = .ok none) ∧
    (buffer.length - positions < 128 →
      (∀ k, positions ≤ k → k < buffer.length → buffer[k]? ≠ some 0xff) →
      player61a_load fuel created buffer = .ok none) ∧
    ∃ m, player61a_load 10
      { song := ⟨0, 0, List.replicate 128 0⟩, patterns := [],
        sample_headers := fun _ => ⟨0, 0, 0, 0, 0⟩, sample_data := fun _ _ => 0 }
      ([0x00, 0x00, 0x01, 0x00, 0x00, 0x00, 0x00, 0x00, 0x00, 0x00, 0x00, 0x00] ++
        List.replicate 128 0x01 ++ [0xe0, 0x00, 0x3f]) = .ok (some m) ∧
      m.song.length = 0 ∧ m.patterns.length = 1 := by
  intro raw pattern_count sample_count positions
  obtain ⟨r1, r2, r3, r4, r5⟩ := player61a_load_from_rejects fuel created buffer raw
  have hl : ∀ (P : Prop), (P → 8 ≤ buffer.length →
      player61a_load_from fuel created buffer raw = .ok none) →
      P → player61a_load fuel created buffer = .ok none := by
    intro P hP hp
    unfold player61a_load
    by_cases h8 : buffer.length < sizeof_p61a_header_t + signature.length
    · rw [if_pos h8]
    · rw [if_neg h8]
      exact hP hp (by simpa [sizeof_p61a_header_t, signature] using h8)
  have hraw : raw ≤ 4 := by
    show (if buffer.take signature.length = signature then signature.length else 0) ≤ 4
    split_ifs
    · exact Nat.le_refl _
    · exact Nat.zero_le _
  refine ⟨hl _ (fun h h8 => absurd h (by omega)), hl _ (fun h _ => r1 h),
    hl _ (fun h _ => r2 h), hl _ (fun h h8 => ?_), hl _ (fun h _ => r4 h),
    fun hlen => hl _ (fun h _ => r5 hlen h), ?_⟩
  · by_cases hs : 0 < buffer.getD (raw + 3) 0
    · exact r3 hs h
    · have h0 : sample_count = 0 := by
        show buffer.getD (raw + 3) 0 = 0
        omega
      rw [h0] at h
      omega
  · exact unterminated_positions_load

/-! ## Behind the tables -/

/-- Sample data that the table asks for and the input does not hold is read
outside the input. -/
theorem read_sample_data_overflow (mem : List Nat) (headers : List p61a_sample_t) :
    ∀ (i samples : Nat) (data : Nat → Nat → Nat),
      0 < (headers.map (fun s => s.length * 2)).sum →
      mem.length < samples + (headers.map (fun s => s.length * 2)).sum →
      read_sample_data mem headers i samples data = .error .out_of_bounds := by
  induction headers with
  | nil =>
    intro i samples data h0 h
    simp only [List.map_nil, List.sum_nil] at h0
    omega
  | cons s rest ih =>
    intro i samples data hpos h
    simp only [List.map_cons, List.sum_cons] at h hpos
    simp only [read_sample_data]
    by_cases h0 : s.length = 0
    · rw [if_pos h0]
      rw [h0] at h hpos
      exact ih _ _ _ (by omega) (by omega)
    · rw [if_neg h0]
      by_cases hl : mem.length < samples + s.length * 2
      · rw [if_pos hl]
      · rw [if_neg hl]
        exact ih _ _ _ (by omega) (by omega)

theorem read_patterns_first_track (fuel : Nat) (mem : List Nat) (curr : Nat)
    (offsets : List Nat) (rest : List (List Nat)) (patterns : p61a_pattern_t)
    (h : mem.length ≤ curr + offsets.getD 0 0) :
    read_patterns (fuel + 1) mem curr (offsets :: rest) 0 patterns = .error .out_of_bounds := by
  have hr : List.range PT_NUM_CHANNELS = 0 :: [1, 2, 3] := rfl
  simp only [read_patterns]
  rw [hr]
  simp only [read_patterns_channels]
  rw [decompress_track_byte_error fuel _ 0 0 0 mem _ (by decide) h]

/-- After the tables `player61a_load_from` has no check left: a result
without module comes from the header counts or from one of the three table
readers. -/
theorem player61a_load_from_none (fuel : Nat) (created : protracker_t) (mem : List Nat)
    (raw : Nat) (h : player61a_load_from fuel created mem raw = .ok none) :
    mem.getD (raw + 2) 0 = 0 ∨ mem.getD (raw + 3) 0 > PT_NUM_SAMPLES ∨
    read_sample_headers mem (mem.getD (raw + 3) 0) (raw + sizeof_p61a_header_t) = none ∨
    (∃ l c, read_sample_headers mem (mem.getD (raw + 3) 0) (raw + sizeof_p61a_header_t) =
        some (l, c) ∧
      (read_pattern_offsets mem (mem.getD (raw + 2) 0) c = none ∨
       ∃ l2 c2, read_pattern_offsets mem (mem.getD (raw + 2) 0) c = some (l2, c2) ∧
         read_song_positions ⟨0, List.replicate PT_NUM_POSITIONS 0⟩ mem c2 = none)) := by
  unfold player61a_load_from at h
  simp only [] at h
  by_cases h1 : mem.getD (raw + 2) 0 = 0
  · exact Or.inl h1
  rw [if_neg h1] at h
  by_cases h2 : mem.getD (raw + 3) 0 > PT_NUM_SAMPLES
  · exact Or.inr (Or.inl h2)
  rw [if_neg h2] at h
  cases hsh : read_sample_headers mem (mem.getD (raw + 3) 0) (raw + sizeof_p61a_header_t) with
  | none => exact Or.inr (Or.inr (Or.inl rfl))
  | some sh =>
    obtain ⟨l, c⟩ := sh
    rw [hsh] at h
    simp only [] at h
    refine Or.inr (Or.inr (Or.inr ⟨l, c, rfl, ?_⟩))
    cases hpo : read_pattern_offsets mem (mem.getD (raw + 2) 0) c with
    | none => exact Or.inl rfl
    | some po =>
      obtain ⟨l2, c2⟩ := po
      rw [hpo] at h
      simp only [] at h
      refine Or.inr ⟨l2, c2, rfl, ?_⟩
      cases hsp : read_song_positions ⟨0, List.replicate PT_NUM_POSITIONS 0⟩ mem c2 with
      | none => rfl
      | some sp =>
        exfalso
        obtain ⟨song, c3⟩ := sp
        rw [hsp] at h
        simp only [] at h
        cases hrp : read_patterns fuel mem c3 l2 0 p61a_pattern_zero with
        | error e =>
          rw [hrp] at h
          exact Except.noConfusion h
        | ok patterns =>
          rw [hrp] at h
          simp only [] at h
          cases hsd : read_sample_data mem l 0
              (raw + be16_value (mem.getD raw 0) (mem.getD (raw + 1) 0))
              created.sample_data with
          | error e =>
            rw [hsd] at h
            exact Except.noConfusion h
          | ok data =>
            rw [hsd] at h
            simp only [Except.ok.injEq] at h
            exact Option.noConfusion h

/-- The run of `player61a_load_from` once the tables are read. -/
theorem player61a_load_from_tables (fuel : Nat) (created : protracker_t) (mem : List Nat)
    (raw : Nat) (l : List p61a_sample_t) (c : Nat) (l2 : List (List Nat)) (c2 : Nat)
    (song : p61a_song_t) (c3 : Nat)
    (h1 : mem.getD (raw + 2) 0 ≠ 0) (h2 : ¬ mem.getD (raw + 3) 0 > PT_NUM_SAMPLES)
    (hsh : read_sample_headers mem (mem.getD (raw + 3) 0) (raw + sizeof_p61a_header_t) =
      some (l, c))
    (hpo : read_pattern_offsets mem (mem.getD (raw + 2) 0) c = some (l2, c2))
    (hsp : read_song_positions ⟨0, List.replicate PT_NUM_POSITIONS 0⟩ mem c2 = some (song, c3)) :
    player61a_load_from fuel created mem raw =
      match read_patterns fuel mem c3 l2 0 p61a_pattern_zero with
      | .error e => .error e
      | .ok patterns =>
        match read_sample_data mem l 0
            (raw + be16_value (mem.getD raw 0) (mem.getD (raw + 1) 0)) created.sample_data with
        | .error e => .error e
        | .ok sample_data =>
          .ok (some
            { song :=
                { length := song.length, restart_position := 127,
                  positions := song.positions.take song.length ++
                    created.song.positions.drop song.length },
              patterns := (List.range (mem.getD (raw + 2) 0)).map (load_pattern patterns),
              sample_headers := fun i =>
                match l[i]? with
                | some inp => load_sample_header inp
                | none => created.sample_headers i,
              sample_data := sample_data }) := by
  unfold player61a_load_from
  simp only []
  rw [if_neg h1, if_neg h2, hsh]
  simp only []
  rw [hpo]
  simp only []
  rw [hsp]

/-- C24: three files of one pattern with sound tables that end mid-structure
behind the tables. In the first the track E0 00 ends before its directive; in
the second the offset of the track of channel 0 is 9, behind the end of the
file; in the third the sample table asks for 4 bytes at offset 22 of a file
of 24 bytes. `player61a_load` should return no module on each of them. It
reads outside the input instead (the `out_of_bounds` end of the model,
undefined behaviour in C): `read_patterns` is given `max` and its caller
tests the result, as for the three table readers, but it never compares with
`max`, and the sample copy does not look at the size either. -/
theorem load_reads_past_end :
    player61a_load 10
      { song := ⟨0, 0, List.replicate 128 0⟩, patterns := [],
        sample_headers := fun _ => ⟨0, 0, 0, 0, 0⟩, sample_data := fun _ _ => 0 }
      [0x00, 0x10, 0x01, 0x00, 0x00, 0x00, 0x00, 0x00, 0x00, 0x00, 0x00, 0x00, 0xff,
        0xe0, 0x00] = .error .out_of_bounds ∧
    player61a_load 10
      { song := ⟨0, 0, List.replicate 128 0⟩, patterns := [],
        sample_headers := fun _ => ⟨0, 0, 0, 0, 0⟩, sample_data := fun _ _ => 0 }
      [0x00, 0x10, 0x01, 0x00, 0x00, 0x09, 0x00, 0x00, 0x00, 0x00, 0x00, 0x00, 0xff,
        0xe0, 0x00, 0x3f] = .error .out_of_bounds ∧
    player61a_load 10
      { song := ⟨0, 0, List.replicate 128 0⟩, patterns := [],
        sample_headers := fun _ => ⟨0, 0, 0, 0, 0⟩, sample_data := fun _ _ => 0 }
      [0x00, 0x16, 0x01, 0x01, 0x00, 0x02, 0x00, 0x40, 0xff, 0xff,
        0x00, 0x00, 0x00, 0x00, 0x00, 0x00, 0x00, 0x00, 0xff,
        0xe0, 0x00, 0x3f, 0x01, 0x02] = .error .out_of_bounds :=
  ⟨rfl, rfl, rfl⟩

/-- The checks of `player61a_load` end with the position list. It returns no
module only on the length of the input, the header counts and the three
table readers. Once the tables are read, a first track that starts at or
behind the end of the input, and sample data that the sample table asks for
beyond the end of the input, are read outside the input (undefined behaviour
in C, the `out_of_bounds` end of the model): no module is not the result. -/
theorem load_unchecked_behind_tables (fuel : Nat) (created : protracker_t)
    (buffer : List Nat) :
    let raw := if buffer.take signature.length = signature then signature.length else 0
    let pattern_count := buffer.getD (raw + 2) 0
    let sample_count := buffer.getD (raw + 3) 0
    let sample_offset := be16_value (buffer.getD raw 0) (buffer.getD (raw + 1) 0)
    (player61a_load fuel created buffer = .ok none →
      buffer.length < 8 ∨ pattern_count = 0 ∨ sample_count > 31 ∨
      read_sample_headers buffer sample_count (raw + 4) = none ∨
      (∃ l c, read_sample_headers buffer sample_count (raw + 4) = some (l, c) ∧
        (read_pattern_offsets buffer pattern_count c = none ∨
         ∃ l2 c2, read_pattern_offsets buffer pattern_count c = some (l2, c2) ∧
           read_song_positions ⟨0, List.replicate PT_NUM_POSITIONS 0⟩ buffer c2 = none))) ∧
    (∀ l c l2 c2 song c3, 8 ≤ buffer.length → pattern_count ≠ 0 → sample_count ≤ 31 →
      read_sample_headers buffer sample_count (raw + 4) = some (l, c) →
      read_pattern_offsets buffer pattern_count c = some (l2, c2) →
      read_song_positions ⟨0, List.replicate PT_NUM_POSITIONS 0⟩ buffer c2 = some (song, c3) →
      (∀ offsets rest, l2 = offsets :: rest → buffer.length ≤ c3 + offsets.getD 0 0 →
        0 < fuel → player61a_load fuel created buffer = .error .out_of_bounds) ∧
      (∀ patterns, read_patterns fuel buffer c3 l2 0 p61a_pattern_zero = .ok patterns →
        0 < (l.map (fun s => s.length * 2)).sum →
        buffer.length < raw + sample_offset + (l.map (fun s => s.length * 2)).sum →
        player61a_load fuel created buffer = .error .out_of_bounds)) := by
  intro raw pattern_count sample_count sample_offset
  have hload : 8 ≤ buffer.length →
      player61a_load fuel created buffer = player61a_load_from fuel created buffer raw := by
    intro h8
    unfold player61a_load
    rw [if_neg (by simpa [sizeof_p61a_header_t, signature] using h8)]
  refine ⟨fun h => ?_, fun l c l2 c2 song c3 h8 hp hs hsh hpo hsp => ⟨?_, ?_⟩⟩
  · by_cases h8 : buffer.length < 8
    · exact Or.inl h8
    · rw [hload (by omega)] at h
      exact Or.inr (player61a_load_from_none fuel created buffer raw h)
  · intro offsets rest hl2 hlen hfuel
    obtain ⟨f, rfl⟩ : ∃ f, fuel = f + 1 := ⟨fuel - 1, by omega⟩
    rw [hload h8, player61a_load_from_tables (f + 1) created buffer raw l c l2 c2 song c3 hp
      (by show ¬ sample_count > 31; omega) hsh hpo hsp, hl2,
      read_patterns_first_track f buffer c3 offsets rest _ hlen]
  · intro patterns hrp hpos hlen
    rw [hload h8, player61a_load_from_tables fuel created buffer raw l c l2 c2 song c3 hp
      (by show ¬ sample_count > 31; omega) hsh hpo hsp, hrp]
    simp only []
    rw [read_sample_data_overflow buffer l 0 _ _ hpos hlen]

/-! ## The sample headers of a loaded module -/

theorem be16_value_lt (hi lo : Nat) : be16_value hi lo < 65536 :=
  Nat.mod_lt _ (by decide)

theorem read_sample_headers_words (mem : List Nat) (n : Nat) :
    ∀ (curr : Nat) (l : List p61a_sample_t) (c : Nat),
      read_sample_headers mem n curr = some (l, c) →
      ∀ inp ∈ l, inp.length < 65536 ∧ inp.repeat_offset < 65536 := by
  induction n with
  | zero =>
    intro curr l c h
    simp only [read_sample_headers, Option.some.injEq, Prod.mk.injEq] at h
    obtain ⟨rfl, _⟩ := h
    intro inp hinp
    simp at hinp
  | succ n ih =>
    intro curr l c h
    simp only [read_sample_headers] at h
    by_cases hl : mem.length - curr < sizeof_p61a_sample_t
    · rw [if_pos hl] at h
      exact Option.noConfusion h
    · rw [if_neg hl] at h
      cases hr : read_sample_headers mem n (curr + sizeof_p61a_sample_t) with
      | none =>
        rw [hr] at h
        exact Option.noConfusion h
      | some r1 =>
        obtain ⟨l1, c1⟩ := r1
        rw [hr] at h
        simp only [Option.some.injEq, Prod.mk.injEq] at h
        obtain ⟨rfl, _⟩ := h
        intro inp hinp
        rcases List.mem_cons.1 hinp with rfl | hmem
        · exact ⟨be16_value_lt _ _, be16_value_lt _ _⟩
        · exact ih _ _ _ hr inp hmem

/-- The header `player61a_load` makes of a record of the sample table: the
length and the volume are those of the record, and a looping header has its
loop inside the sample exactly when the record's repeat offset does not pass
its length. -/
theorem load_sample_header_fields (inp : p61a_sample_t) (hl : inp.length < 65536)
    (hr : inp.repeat_offset < 65536) :
    (load_sample_header inp).length = inp.length ∧
    (load_sample_header inp).volume = inp.volume ∧
    (load_sample_header inp).finetone = inp.finetone &&& 0x0f ∧
    (inp.repeat_offset = 0xffff →
      (load_sample_header inp).repeat_offset = 0 ∧ (load_sample_header inp).repeat_length = 1) ∧
    (inp.repeat_offset ≠ 0xffff →
      (load_sample_header inp).repeat_offset = inp.repeat_offset ∧
      (load_sample_header inp).repeat_length =
        (inp.length + 65536 - inp.repeat_offset) % 65536) ∧
    ((load_sample_header inp).repeat_length > 1 →
      ((load_sample_header inp).repeat_offset + (load_sample_header inp).repeat_length ≤
          (load_sample_header inp).length ↔ inp.repeat_offset ≤ inp.length)) := by
  unfold load_sample_header
  by_cases h : inp.repeat_offset = 0xffff
  · rw [if_pos h]
    refine ⟨rfl, rfl, rfl, fun _ => ⟨rfl, rfl⟩, fun hn => absurd h hn, fun hh => ?_⟩
    simp only at hh
    omega
  · rw [if_neg h]
    refine ⟨rfl, rfl, rfl, fun hh => absurd hh h, fun _ => ⟨rfl, rfl⟩, fun _ => ?_⟩
    simp only
    omega

/-- The sample headers of the module `player61a_load` returns. -/
theorem player61a_load_sample_headers (fuel : Nat) (created : protracker_t) (buffer : List Nat)
    (raw : Nat) (m : protracker_t)
    (h : player61a_load_from fuel created buffer raw = .ok (some m)) :
    ∃ headers curr,
      read_sample_headers buffer (buffer.getD (raw + 3) 0) (raw + sizeof_p61a_header_t) =
        some (headers, curr) ∧
      ∀ i, m.sample_headers i =
        match headers[i]? with
        | some inp => load_sample_header inp
        | none => created.sample_headers i := by
  unfold player61a_load_from at h
  simp only [] at h
  by_cases h1 : buffer.getD (raw + 2) 0 = 0
  · rw [if_pos h1] at h
    simp at h
  rw [if_neg h1] at h
  by_cases h2 : buffer.getD (raw + 3) 0 > PT_NUM_SAMPLES
  · rw [if_pos h2] at h
    simp at h
  rw [if_neg h2] at h
  cases hsh : read_sample_headers buffer (buffer.getD (raw + 3) 0)
      (raw + sizeof_p61a_header_t) with
  | none =>
    rw [hsh] at h
    simp at h
  | some sh =>
    obtain ⟨l, c⟩ := sh
    rw [hsh] at h
    simp only [] at h
    refine ⟨l, c, rfl, ?_⟩
    cases hpo : read_pattern_offsets buffer (buffer.getD (raw + 2) 0) c with
    | none =>
      rw [hpo] at h
      simp at h
    | some po =>
      obtain ⟨l2, c2⟩ := po
      rw [hpo] at h
      simp only [] at h
      cases hsp : read_song_positions ⟨0, List.replicate PT_NUM_POSITIONS 0⟩ buffer c2 with
      | none =>
        rw [hsp] at h
        simp at h
      | some sp =>
        obtain ⟨song, c3⟩ := sp
        rw [hsp] at h
        simp only [] at h
        cases hrp : read_patterns fuel buffer c3 l2 0 p61a_pattern_zero with
        | error e =>
          rw [hrp] at h
          exact Except.noConfusion h
        | ok patterns =>
          rw [hrp] at h
          simp only [] at h
          cases hsd : read_sample_data buffer l 0
              (raw + be16_value (buffer.getD raw 0) (buffer.getD (raw + 1) 0))
              created.sample_data with
          | error e =>
            rw [hsd] at h
            exact Except.noConfusion h
          | ok data =>
            rw [hsd] at h
            simp only [Except.ok.injEq, Option.some.injEq] at h
            subst h
            intro i
            rfl

-- A file whose sample record has volume FF and one whose record has length 1
-- and repeat offset 5.
set_option maxRecDepth 100000 in
theorem loaded_headers_examples :
    (∃ m, player61a_load 10
      { song := ⟨0, 0, List.replicate 128 0⟩, patterns := [],
        sample_headers := fun _ => ⟨0, 0, 0, 0, 0⟩, sample_data := fun _ _ => 0 }
      [0x00, 0x16, 0x01, 0x01, 0x00, 0x00, 0x00, 0xff, 0xff, 0xff,
        0x00, 0x00, 0x00, 0x00, 0x00, 0x00, 0x00, 0x00, 0xff,
        0xe0, 0x00, 0x3f] = .ok (some m) ∧
      m.sample_headers 0 = ⟨0, 0, 255, 0, 1⟩) ∧
    (∃ m, player61a_load 10
      { song := ⟨0, 0, List.replicate 128 0⟩, patterns := [],
        sample_headers := fun _ => ⟨0, 0, 0, 0, 0⟩, sample_data := fun _ _ => 0 }
      [0x00, 0x16, 0x01, 0x01, 0x00, 0x01, 0x00, 0x40, 0x00, 0x05,
        0x00, 0x00, 0x00, 0x00, 0x00, 0x00, 0x00, 0x00, 0xff,
        0xe0, 0x00, 0x3f, 0x01, 0x02] = .ok (some m) ∧
      m.sample_headers 0 = ⟨1, 0, 64, 5, 65532⟩) :=
  ⟨⟨_, rfl, rfl⟩, ⟨_, rfl, rfl⟩⟩

/-- C25, counterexample: a file whose sample record has volume FF loads into
a module with volume 255 in slot 0; a file whose record has length 1 and
repeat offset 5 loads into a module whose slot 0 loops (repeat_length 65532)
with repeat_offset + repeat_length = 65537 above its length 1. -/
theorem loaded_headers_break_invariants :
    (∃ m, player61a_load 10
      { song := ⟨0, 0, List.replicate 128 0⟩, patterns := [],
        sample_headers := fun _ => ⟨0, 0, 0, 0, 0⟩, sample_data := fun _ _ => 0 }
      [0x00, 0x16, 0x01, 0x01, 0x00, 0x00, 0x00, 0xff, 0xff, 0xff,
        0x00, 0x00, 0x00, 0x00, 0x00, 0x00, 0x00, 0x00, 0xff,
        0xe0, 0x00, 0x3f] = .ok (some m) ∧
      m.sample_headers 0 = ⟨0, 0, 255, 0, 1⟩) ∧
    (∃ m, player61a_load 10
      { song := ⟨0, 0, List.replicate 128 0⟩, patterns := [],
        sample_headers := fun _ => ⟨0, 0, 0, 0, 0⟩, sample_data := fun _ _ => 0 }
      [0x00, 0x16, 0x01, 0x01, 0x00, 0x01, 0x00, 0x40, 0x00, 0x05,
        0x00, 0x00, 0x00, 0x00, 0x00, 0x00, 0x00, 0x00, 0xff,
        0xe0, 0x00, 0x3f, 0x01, 0x02] = .ok (some m) ∧
      m.sample_headers 0 = ⟨1, 0, 64, 5, 65532⟩) :=
  loaded_headers_examples

/-- C25, amended: `player61a_load` does not enforce the sample-header
invariants. In every module it returns, each slot below the header's
sample_count holds the header made from its record of the sample table as it
stands: the stored length and volume, the low nibble of the finetone, and
repeat_offset 0 with repeat_length 1 when the stored repeat offset is 0xFFFF,
else the stored repeat offset with repeat_length (length - repeat_offset)
modulo 65536. So the volume is at most 64 exactly when the stored volume is,
and a looping header has repeat_offset + repeat_length <= length exactly when
the stored repeat offset is at most the stored length. The slots from
sample_count on are as `protracker_create` left them. -/
theorem loaded_sample_headers (fuel : Nat) (created : protracker_t) (buffer : List Nat)
    (m : protracker_t) (h : player61a_load fuel created buffer = .ok (some m)) :
    ∃ headers curr,
      read_sample_headers buffer
        (buffer.getD ((if buffer.take signature.length = signature then signature.length
          else 0) + 3) 0)
        ((if buffer.take signature.length = signature then signature.length else 0) + 4) =
        some (headers, curr) ∧
      (∀ i, m.sample_headers i =
        match headers[i]? with
        | some inp => load_sample_header inp
        | none => created.sample_headers i) ∧
      ∀ inp ∈ headers,
        (load_sample_header inp).length = inp.length ∧
        (load_sample_header inp).volume = inp.volume ∧
        (load_sample_header inp).finetone = inp.finetone &&& 0x0f ∧
        (inp.repeat_offset = 0xffff →
          (load_sample_header inp).repeat_offset = 0 ∧
          (load_sample_header inp).repeat_length = 1) ∧
        (inp.repeat_offset ≠ 0xffff →
          (load_sample_header inp).repeat_offset = inp.repeat_offset ∧
          (load_sample_header inp).repeat_length =
            (inp.length + 65536 - inp.repeat_offset) % 65536) ∧
        ((load_sample_header inp).repeat_length > 1 →
          ((load_sample_header inp).repeat_offset + (load_sample_header inp).repeat_length ≤
              (load_sample_header inp).length ↔ inp.repeat_offset ≤ inp.length)) := by
  unfold player61a_load at h
  by_cases h8 : buffer.length < sizeof_p61a_header_t + signature.length
  · rw [if_pos h8] at h
    simp at h
  · rw [if_neg h8] at h
    obtain ⟨headers, curr, h1, h2⟩ := player61a_load_sample_headers fuel created buffer _ m h
    refine ⟨headers, curr, h1, h2, fun inp hinp => ?_⟩
    obtain ⟨w1, w2⟩ := read_sample_headers_words _ _ _ _ _ h1 inp hinp
    exact load_sample_header_fields inp w1 w2

/-- C25 at a file of 24 bytes with one sample record: length 1, volume 64,
repeat offset 5. -/
theorem loaded_sample_headers_witness :
    ∃ (m : protracker_t) (headers : List p61a_sample_t),
      (∀ i, m.sample_headers i =
        match headers[i]? with
        | some inp => load_sample_header inp
        | none => (⟨0, 0, 0, 0, 0⟩ : protracker_sample_t)) ∧
      m.sample_headers 0 = ⟨1, 0, 64, 5, 65532⟩ :=
  let ⟨m, hm, hv⟩ := loaded_headers_examples.2
  let ⟨headers, _, _, h2, _⟩ := loaded_sample_headers _ _ _ m hm
  ⟨m, headers, h2, hv⟩

/-! ## The exit code -/

/-- The `-out:` branch goes on to the next argument whatever `success` is. -/
theorem main_loop_out (env : main_env) (arg filename : String) (rest : List String)
    (module : Option protracker_t) (options : String) (success : Bool)
    (ha : arg.toList.take 4 ≠ "-in:".toList) (hb : arg.toList.take 5 = "-out:".toList)
    (hw : write_output env module options (String.mk (arg.toList.drop 5)) filename =
      .ok success) :
    main_loop env (arg :: filename :: rest) module options =
      main_loop env rest module options := by
  rw [main_loop, if_neg ha, if_pos hb]
  simp only [hw]

/-- The `-in:` branch leaves the loop when no module is loaded. -/
theorem main_loop_in_fails (env : main_env) (arg filename : String) (rest : List String)
    (module : Option protracker_t) (options : String)
    (ha : arg.toList.take 4 = "-in:".toList)
    (hl : module_load env filename (String.mk (arg.toList.drop 4)) = .ok none) :
    main_loop env (arg :: filename :: rest) module options = .ok 1 := by
  rw [main_loop, if_pos ha]
  simp only [hl]

-- The run of `modpack -in:p61a a.p61 -out:xyz out.bin` and of
-- `modpack -in:p61a a.p61 -out:p61a out.bin` where a.p61 is a file of 16 bytes
-- with one pattern and out.bin cannot be opened.
set_option maxRecDepth 100000 in
theorem main_exit_examples :
    main
      { read_file := fun _ => some [0x00, 0x10, 0x01, 0x00, 0x00, 0x00, 0x00, 0x00, 0x00, 0x00,
          0x00, 0x00, 0xff, 0xe0, 0x00, 0x3f],
        protracker_load := fun _ => none,
        protracker_create :=
          { song := ⟨0, 0, List.replicate 128 0⟩, patterns := [],
            sample_headers := fun _ => ⟨0, 0, 0, 0, 0⟩, sample_data := fun _ _ => 0 },
        fuel := 10,
        protracker_convert := fun _ _ => none,
        get_used_samples := fun _ _ => false,
        has_option := fun _ _ d => d,
        open_write := fun _ => false,
        write_all := fun _ _ => false,
        optimize := fun m _ => m }
      ["modpack", "-in:p61a", "a.p61", "-out:xyz", "out.bin"] = .ok 0 ∧
    main
      { read_file := fun _ => some [0x00, 0x10, 0x01, 0x00, 0x00, 0x00, 0x00, 0x00, 0x00, 0x00,
          0x00, 0x00, 0xff, 0xe0, 0x00, 0x3f],
        protracker_load := fun _ => none,
        protracker_create :=
          { song := ⟨0, 0, List.replicate 128 0⟩, patterns := [],
            sample_headers := fun _ => ⟨0, 0, 0, 0, 0⟩, sample_data := fun _ _ => 0 },
        fuel := 10,
        protracker_convert := fun _ _ => none,
        get_used_samples := fun _ _ => false,
        has_option := fun _ _ d => d,
        open_write := fun _ => false,
        write_all := fun _ _ => false,
        optimize := fun m _ => m }
      ["modpack", "-in:p61a", "a.p61", "-out:p61a", "out.bin"] = .ok 0 :=
  ⟨rfl, rfl⟩

/-- C28, the code on the failures the claim lists. A module that fails to
load, an unknown input format (for which `module_load` gives no module) and
a missing operand leave the loop, and `main` exits with 1. In the `-out:`
branch an unknown output format, a failed conversion, a file that cannot be
opened and a short write only clear `success`, which is never read: the loop
goes on with the next argument. So `modpack -in:p61a a.p61 -out:xyz out.bin`
and `modpack -in:p61a a.p61 -out:p61a out.bin` with an `out.bin` that cannot
be opened both exit with 0. -/
theorem main_exit_code :
    (∀ (env : main_env) (arg filename : String) (rest : List String)
      (module : Option protracker_t) (options : String),
      arg.toList.take 4 = "-in:".toList →
      module_load env filename (String.mk (arg.toList.drop 4)) = .ok none →
      main_loop env (arg :: filename :: rest) module options = .ok 1) ∧
    (∀ (env : main_env) (arg : String) (module : Option protracker_t) (options : String),
      (arg.toList.take 4 = "-in:".toList ∨ arg.toList.take 5 = "-out:".toList) →
      main_loop env [arg] module options = .ok 1) ∧
    (∀ (env : main_env) (arg filename : String) (rest : List String)
      (module : Option protracker_t) (options : String) (success : Bool),
      arg.toList.take 4 ≠ "-in:".toList → arg.toList.take 5 = "-out:".toList →
      write_output env module options (String.mk (arg.toList.drop 5)) filename = .ok success →
      main_loop env (arg :: filename :: rest) module options =
        main_loop env rest module options) ∧
    (∀ (env : main_env) (module : Option protracker_t) (options filename : String),
      write_output env module options "xyz" filename = .ok false) ∧
    (∀ (env : main_env) (m : protracker_t) (options filename : String),
      filename ≠ "-" → env.open_write filename = false →
      write_output env (some m) options "p61a" filename = .ok false) ∧
    main
      { read_file := fun _ => some [0x00, 0x10, 0x01, 0x00, 0x00, 0x00, 0x00, 0x00, 0x00, 0x00,
          0x00, 0x00, 0xff, 0xe0, 0x00, 0x3f],
        protracker_load := fun _ => none,
        protracker_create :=
          { song := ⟨0, 0, List.replicate 128 0⟩, patterns := [],
            sample_headers := fun _ => ⟨0, 0, 0, 0, 0⟩, sample_data := fun _ _ => 0 },
        fuel := 10,
        protracker_convert := fun _ _ => none,
        get_used_samples := fun _ _ => false,
        has_option := fun _ _ d => d,
        open_write := fun _ => false,
        write_all := fun _ _ => false,
        optimize := fun m _ => m }
      ["modpack", "-in:p61a", "a.p61", "-out:xyz", "out.bin"] = .ok 0 ∧
    main
      { read_file := fun _ => some [0x00, 0x10, 0x01, 0x00, 0x00, 0x00, 0x00, 0x00, 0x00, 0x00,
          0x00, 0x00, 0xff, 0xe0, 0x00, 0x3f],
        protracker_load := fun _ => none,
        protracker_create :=
          { song := ⟨0, 0, List.replicate 128 0⟩, patterns := [],
            sample_headers := fun _ => ⟨0, 0, 0, 0, 0⟩, sample_data := fun _ _ => 0 },
        fuel := 10,
        protracker_convert := fun _ _ => none,
        get_used_samples := fun _ _ => false,
        has_option := fun _ _ d => d,
        open_write := fun _ => false,
        write_all := fun _ _ => false,
        optimize := fun m _ => m }
      ["modpack", "-in:p61a", "a.p61", "-out:p61a", "out.bin"] = .ok 0 := by
  refine ⟨fun env arg filename rest module options ha hl =>
      main_loop_in_fails env arg filename rest module options ha hl,
    fun env arg module options h => ?_,
    fun env arg filename rest module options success ha hb hw =>
      main_loop_out env arg filename rest module options success ha hb hw,
    fun env module options filename => ?_,
    fun env m options filename hf ho => ?_,
    main_exit_examples.1, main_exit_examples.2⟩
  · rw [main_loop]
    by_cases ha : arg.toList.take 4 = "-in:".toList
    · rw [if_pos ha]
    · rw [if_neg ha, if_pos (h.resolve_left ha)]
  · unfold write_output
    have h1 : ¬ ("xyz" = "mod") := by decide
    have h2 : ¬ ("xyz" = "p61a") := by decide
    simp only [h1, h2, if_false]
  · unfold write_output
    have h1 : ¬ ("p61a" = "mod") := by decide
    simp only [h1, if_false, if_true]
    rw [if_pos ⟨hf, ho⟩]

/-! ## Re-encoding a decoded event -/

theorem normalize_effect_e8 : ∀ t < 16,
    normalize_effect ⟨14, t ||| ((8 &&& 0x0f) <<< 4)⟩ =
      (⟨14, t ||| ((8 &&& 0x0f) <<< 4)⟩, true) := by decide

set_option maxRecDepth 100000 in
theorem normalize_effect_extended_byte : ∀ v < 256,
    ¬ (v >>> 4 = 0 ∧ (v &&& 0x0f) &&& 1 = 1) →
    normalize_effect
        ⟨if (normalize_effect ⟨14, v⟩).1.cmd = 8 then 0 else (normalize_effect ⟨14, v⟩).1.cmd,
          (normalize_effect ⟨14, v⟩).1.value⟩ = normalize_effect ⟨14, v⟩ := by decide

theorem normalize_effect_extended_large (v : Nat) (h : 256 ≤ v) :
    normalize_effect ⟨14, v⟩ = (⟨14, v⟩, true) := by
  have h16 : 16 ≤ v >>> 4 := by
    rw [Nat.shiftRight_eq_div_pow]
    have : (2 : Nat) ^ 4 = 16 := by decide
    omega
  obtain ⟨k, hk⟩ : ∃ k, v >>> 4 = k + 16 := ⟨v >>> 4 - 16, by omega⟩
  simp only [normalize_effect, effect_switch, protracker_effect_t.ext_cmd, hk]
  simp

/-- Normalising the decoded form of a normalised effect changes nothing,
except for the filter command E0x with x odd. -/
theorem normalize_effect_stable (eff : protracker_effect_t) (hc : eff.cmd < 16)
    (hf : ¬ (eff.cmd = 14 ∧ eff.ext_cmd = 0 ∧ eff.ext_value &&& 1 = 1)) :
    normalize_effect
        ⟨if (normalize_effect eff).1.cmd = 8 then 0 else (normalize_effect eff).1.cmd,
          (normalize_effect eff).1.value⟩ = normalize_effect eff := by
  obtain ⟨c, v⟩ := eff
  simp only at hc
  interval_cases c
  · by_cases hv : v = 0
    · subst hv; decide
    · simp [normalize_effect, effect_switch, hv]
  · by_cases hv : v = 0
    · subst hv; decide
    · simp [normalize_effect, effect_switch, hv]
  · by_cases hv : v = 0
    · subst hv; decide
    · simp [normalize_effect, effect_switch, hv]
  · simp [normalize_effect, effect_switch]
  · simp [normalize_effect, effect_switch]
  · simp [normalize_effect, effect_switch]
  · simp [normalize_effect, effect_switch]
  · simp [normalize_effect, effect_switch]
  · have h8 : normalize_effect ⟨8, v⟩ = (⟨14, (v &&& 0x0f) ||| ((8 &&& 0x0f) <<< 4)⟩, true) := by
      simp [normalize_effect, effect_switch, protracker_effect_t.set_ext_cmd]
    rw [h8]
    exact normalize_effect_e8 _ (and_15_lt v)
  · simp [normalize_effect, effect_switch]
  · simp [normalize_effect, effect_switch]
  · simp [normalize_effect, effect_switch]
  · by_cases hv : v > 64
    · simp [normalize_effect, effect_switch, hv]
    · simp [normalize_effect, effect_switch, hv]
  · simp [normalize_effect, effect_switch]
  · by_cases hv : v < 256
    · apply normalize_effect_extended_byte v hv
      intro h
      exact hf ⟨rfl, h.1, h.2⟩
    · rw [normalize_effect_extended_large v (by omega)]
      exact normalize_effect_extended_large v (by omega)
  · simp [normalize_effect, effect_switch]

/-- The encoder reads a MOD event only through its note index, its sample
index and its normalised effect. -/
theorem to_p61a_channel_congr (e1 e2 : protracker_channel_t) (u : Nat)
    (hn : index_from_period (protracker_get_period e1) =
      index_from_period (protracker_get_period e2))
    (hs : protracker_get_sample e1 = protracker_get_sample e2)
    (he : normalize_effect (protracker_get_effect e1) =
      normalize_effect (protracker_get_effect e2)) :
    to_p61a_channel e1 u = to_p61a_channel e2 u := by
  unfold to_p61a_channel
  simp only [hn, hs, he]

set_option maxRecDepth 100000 in
theorem mod_event_note : ∀ i < 37, ∀ s < 32,
    index_from_period (protracker_get_period (mod_event (period_from_index i) s 0 0)) = i := by
  decide

theorem get_period_mod_event (p s c v : Nat) :
    protracker_get_period (mod_event p s c v) = protracker_get_period (mod_event p s 0 0) := rfl

set_option maxRecDepth 100000 in
theorem mod_event_sample : ∀ i < 37, ∀ s < 32,
    protracker_get_sample (mod_event (period_from_index i) s 0 0) = s := by decide

set_option maxRecDepth 100000 in
theorem mod_event_sample_slot : ∀ s < 32, ∀ c < 16,
    ((((0 &&& 0x0f) ||| ((s &&& 0x0f) <<< 4)) &&& 0xf0) ||| (c &&& 0x0f)) >>> 4 =
    ((((0 &&& 0x0f) ||| ((s &&& 0x0f) <<< 4)) &&& 0xf0) ||| (0 &&& 0x0f)) >>> 4 := by decide

theorem get_sample_mod_event (p s c v : Nat) (hs : s < 32) (hc : c < 16) :
    protracker_get_sample (mod_event p s c v) = protracker_get_sample (mod_event p s 0 0) := by
  simp only [mod_event, protracker_set_effect, protracker_set_sample, protracker_set_period,
    protracker_get_sample]
  rw [mod_event_sample_slot s hs c hc]

/-- Re-encoding a decoded event: outside the filter command E0x with x odd
the encoder writes the same event again. -/
theorem reencode_stable (e : protracker_channel_t) (u v : Nat)
    (hs : protracker_get_sample e ≤ 31)
    (hf : ¬ ((protracker_get_effect e).cmd = 14 ∧ (protracker_get_effect e).ext_cmd = 0 ∧
      (protracker_get_effect e).ext_value &&& 1 = 1)) :
    (to_p61a_channel (to_protracker_channel (to_p61a_channel e u).out) v).out =
      (to_p61a_channel e v).out ∧
    (to_p61a_channel (to_protracker_channel (to_p61a_channel e u).out) v).length =
      (to_p61a_channel e v).length := by
  have hn : index_from_period (protracker_get_period e) < 37 :=
    Nat.lt_succ_of_le (index_from_period_le _)
  have hc : (normalize_effect (protracker_get_effect e)).1.cmd < 16 :=
    normalize_effect_cmd_lt _ (get_effect_cmd_lt e)
  have hc2 : (if (normalize_effect (protracker_get_effect e)).1.cmd = 8 then 0
      else (normalize_effect (protracker_get_effect e)).1.cmd) < 16 := by
    split_ifs
    · decide
    · exact hc
  have hm : protracker_get_sample e % 32 = protracker_get_sample e :=
    Nat.mod_eq_of_lt (by omega)
  have key : to_p61a_channel (to_protracker_channel (to_p61a_channel e u).out) v =
      to_p61a_channel e v := by
    rw [decode_encode, hm]
    apply to_p61a_channel_congr
    · rw [get_period_mod_event, mod_event_note _ hn _ (by omega)]
    · rw [get_sample_mod_event _ _ _ _ (by omega) hc2, mod_event_sample _ hn _ (by omega)]
    · rw [get_effect_mod_event _ _ _ _ hc2]
      exact normalize_effect_stable _ (get_effect_cmd_lt e) hf
  rw [key]
  exact ⟨rfl, rfl⟩

/-- C32 fails on the filter command: the MOD event 00 00 0E 01 (E01, sample
index 0) is written as 6E 02, since the filter argument becomes
(x & 1) << 1, it is decoded as the event 00 00 0E 02, since only command 8 is
mapped back, and that event is written as 6E 00. The second encoding does not
write the bytes of the first. -/
theorem filter_reencoding_unstable :
    protracker_get_sample ⟨0x00, 0x00, 0x0e, 0x01⟩ ≤ 31 ∧
    (to_p61a_channel ⟨0x00, 0x00, 0x0e, 0x01⟩ 0).out = ⟨0x6e, 0x02, 0⟩ ∧
    to_protracker_channel (to_p61a_channel ⟨0x00, 0x00, 0x0e, 0x01⟩ 0).out =
      ⟨0x00, 0x00, 0x0e, 0x02⟩ ∧
    (to_p61a_channel
      (to_protracker_channel (to_p61a_channel ⟨0x00, 0x00, 0x0e, 0x01⟩ 0).out) 0).out =
      ⟨0x6e, 0x00, 0⟩ ∧
    (to_p61a_channel
      (to_protracker_channel (to_p61a_channel ⟨0x00, 0x00, 0x0e, 0x01⟩ 0).out) 0).out ≠
      (to_p61a_channel ⟨0x00, 0x00, 0x0e, 0x01⟩ 0).out := by
  refine ⟨by decide, by decide, by decide, by decide, by decide⟩

/-- C32, amended: re-encoding is stable outside the filter command. For every
MOD event with sample index at most 31 whose effect is not E0x with x odd,
`to_p61a_channel` applied to the decoded form of the encoded event writes the
same bytes and returns the same length as `to_p61a_channel` applied to the
event, whatever the use-codes passed in. -/
theorem reencoding_stable_except_filter (e : protracker_channel_t) (u v : Nat)
    (hs : protracker_get_sample e ≤ 31)
    (hf : ¬ ((protracker_get_effect e).cmd = 14 ∧ (protracker_get_effect e).ext_cmd = 0 ∧
      (protracker_get_effect e).ext_value &&& 1 = 1)) :
    (to_p61a_channel (to_protracker_channel (to_p61a_channel e u).out) v).out =
      (to_p61a_channel e u).out ∧
    (to_p61a_channel (to_protracker_channel (to_p61a_channel e u).out) v).length =
      (to_p61a_channel e u).length := by
  obtain ⟨h1, h2⟩ := reencode_stable e u v hs hf
  have h3 := to_p61a_channel_out_usecode e u
  have h4 := to_p61a_channel_out_usecode e v
  refine ⟨by rw [h1, h4, h3], ?_⟩
  rw [h2, ← get_channel_length_encoded e v, ← get_channel_length_encoded e u, h4, h3]

/-- C32 at two events: period 428 with sample 1 and the arpeggio 037, which is
written as command 8 and decoded as command 0 again, and the filter command
E02, which is written as E00. -/
theorem reencoding_stable_except_filter_witness :
    ((to_p61a_channel (to_protracker_channel (to_p61a_channel ⟨0x01, 0xac, 0x10, 0x37⟩ 0).out)
        0).out = (to_p61a_channel ⟨0x01, 0xac, 0x10, 0x37⟩ 0).out ∧
      (to_p61a_channel (to_protracker_channel (to_p61a_channel ⟨0x01, 0xac, 0x10, 0x37⟩ 0).out)
        0).length = (to_p61a_channel ⟨0x01, 0xac, 0x10, 0x37⟩ 0).length) ∧
    (to_p61a_channel (to_protracker_channel (to_p61a_channel ⟨0x00, 0x00, 0x0e, 0x02⟩ 0).out)
        0).out = (to_p61a_channel ⟨0x00, 0x00, 0x0e, 0x02⟩ 0).out :=
  ⟨reencoding_stable_except_filter ⟨0x01, 0xac, 0x10, 0x37⟩ 0 0 (by decide) (by decide),
    (reencoding_stable_except_filter ⟨0x00, 0x00, 0x0e, 0x02⟩ 0 0 (by decide) (by decide)).1⟩

/-! ## A back-reference to events without directive -/

/-- Reading the bytes of an event without compression bit, exactly: the read
position moves behind them, the cursor moves on by one, and the pattern takes
the event as `store_event` writes it. -/
theorem read_plain_event (p : p61a_pattern_t) (ch off : Nat) (pre : List Nat)
    (e : p61a_channel_t) (rest : List Nat) (hc : e.data0 &&& 0x80 = 0) :
    read_byte (pre ++ (channel_bytes e ++ rest)) pre.length = .ok e.data0 ∧
    ∃ ev, read_event p ch off (pre ++ (channel_bytes e ++ rest)) (pre.length + 1) e.data0 =
        .ok ev ∧
      ev.track = pre.length + (channel_bytes e).length ∧ ev.offset = off + 1 ∧
      ev.pattern = store_event p ch off e := by
  obtain ⟨d0, d1, d2⟩ := e
  simp only at hc
  have hcb := channel_bytes_of_shape ⟨d0, d1, d2⟩
  have hgl := get_channel_length_of_shape ⟨d0, d1, d2⟩
  have hgl' : get_channel_length ⟨d0, 0, 0⟩ = get_channel_length ⟨d0, d1, d2⟩ := rfl
  have hlen := channel_bytes_length ⟨d0, d1, d2⟩
  simp only at hcb hgl
  have g0 : (pre ++ (channel_bytes ⟨d0, d1, d2⟩ ++ rest))[pre.length]? = some d0 := by
    have h := getElem?_behind pre (channel_bytes ⟨d0, d1, d2⟩ ++ rest) 0
    rw [Nat.add_zero] at h
    rw [h, hcb]
    cases p61a_shape_of d0 <;> simp
  cases hs : p61a_shape_of d0 with
  | empty =>
    rw [hs] at hcb hgl
    simp only at hcb hgl
    refine ⟨(read_byte_ok_iff _ _ _).2 g0, ?_⟩
    · rw [read_event_empty p ch off _ _ d0 hs, if_pos hc]
      refine ⟨_, rfl, ?_, rfl, ?_⟩
      · rw [hlen, hgl]
      · simp only [store_event, hs]
  | note_instrument =>
    rw [hs] at hcb hgl
    simp only at hcb hgl
    have hne : p61a_shape_of d0 ≠ .empty := by rw [hs]; exact fun h => nomatch h
    have g1 : (pre ++ (channel_bytes ⟨d0, d1, d2⟩ ++ rest))[pre.length + 1]? = some d1 := by
      rw [getElem?_behind, hcb]
      simp
    obtain ⟨E, hE, e0, e1, _, e3⟩ := read_event_nonempty p ch off
      (pre ++ (channel_bytes ⟨d0, d1, d2⟩ ++ rest)) pre.length d0 hne
      (by rw [hgl', hgl]; simp only [List.length_append, hlen, hgl]; omega)
    rw [g1] at e1
    have e1' : E.data1 = d1 := (Option.some.inj e1).symm
    have hE2 : E = ⟨d0, d1, 0⟩ := by
      obtain ⟨a, b, c⟩ := E
      simp only at e0 e1' e3
      rw [e0, e1', e3 (by rw [hgl', hgl])]
    refine ⟨(read_byte_ok_iff _ _ _).2 g0, _, hE, ?_, rfl, ?_⟩
    · rw [hlen, hgl, hgl', hgl]
    · simp only [store_event, hs, hE2]
  | command =>
    rw [hs] at hcb hgl
    simp only at hcb hgl
    have hne : p61a_shape_of d0 ≠ .empty := by rw [hs]; exact fun h => nomatch h
    have g1 : (pre ++ (channel_bytes ⟨d0, d1, d2⟩ ++ rest))[pre.length + 1]? = some d1 := by
      rw [getElem?_behind, hcb]
      simp
    obtain ⟨E, hE, e0, e1, _, e3⟩ := read_event_nonempty p ch off
      (pre ++ (channel_bytes ⟨d0, d1, d2⟩ ++ rest)) pre.length d0 hne
      (by rw [hgl', hgl]; simp only [List.length_append, hlen, hgl]; omega)
    rw [g1] at e1
    have e1' : E.data1 = d1 := (Option.some.inj e1).symm
    have hE2 : E = ⟨d0, d1, 0⟩ := by
      obtain ⟨a, b, c⟩ := E
      simp only at e0 e1' e3
      rw [e0, e1', e3 (by rw [hgl', hgl])]
    refine ⟨(read_byte_ok_iff _ _ _).2 g0, _, hE, ?_, rfl, ?_⟩
    · rw [hlen, hgl, hgl', hgl]
    · simp only [store_event, hs, hE2]
  | full =>
    rw [hs] at hcb hgl
    simp only at hcb hgl
    have hne : p61a_shape_of d0 ≠ .empty := by rw [hs]; exact fun h => nomatch h
    have g1 : (pre ++ (channel_bytes ⟨d0, d1, d2⟩ ++ rest))[pre.length + 1]? = some d1 := by
      rw [getElem?_behind, hcb]
      simp
    have g2 : (pre ++ (channel_bytes ⟨d0, d1, d2⟩ ++ rest))[pre.length + 2]? = some d2 := by
      rw [getElem?_behind, hcb]
      simp
    obtain ⟨E, hE, e0, e1, e2, _⟩ := read_event_nonempty p ch off
      (pre ++ (channel_bytes ⟨d0, d1, d2⟩ ++ rest)) pre.length d0 hne
      (by rw [hgl', hgl]; simp only [List.length_append, hlen, hgl]; omega)
    rw [g1] at e1
    have e2' := e2 (by rw [hgl', hgl])
    rw [g2] at e2'
    have hE2 : E = ⟨d0, d1, d2⟩ := by
      obtain ⟨a, b, c⟩ := E
      simp only at e0 e1 e2'
      rw [e0, (Option.some.inj e1).symm, (Option.some.inj e2').symm]
    refine ⟨(read_byte_ok_iff _ _ _).2 g0, _, hE, ?_, rfl, ?_⟩
    · rw [hlen, hgl, hgl', hgl]
    · simp only [store_event, hs, hE2]

/-- Decoding a run of events without compression bit under a row budget equal
to their number: the events are stored as `store_events` writes them and the
cursor moves on by their number. -/
theorem decode_plain_events (ch : Nat) (evs : List p61a_channel_t) :
    ∀ (f : Nat) (p : p61a_pattern_t) (off : Nat) (pre rest : List Nat),
      (∀ e ∈ evs, e.data0 &&& 0x80 = 0) → evs ≠ [] → off + evs.length ≤ 64 → evs.length ≤ f →
      decompress_track f p ch off evs.length (pre ++ (evs.flatMap channel_bytes ++ rest))
          pre.length = .ok (store_events p ch off evs, off + evs.length) := by
  induction evs with
  | nil => intro f p off pre rest _ hne; exact absurd rfl hne
  | cons e es ih =>
    intro f p off pre rest hc _ hoff hf
    obtain ⟨f', rfl⟩ : ∃ f', f = f' + 1 := ⟨f - 1, by simp only [List.length_cons] at hf; omega⟩
    simp only [List.length_cons] at hoff hf
    have hmem : pre ++ ((e :: es).flatMap channel_bytes ++ rest) =
        pre ++ (channel_bytes e ++ (es.flatMap channel_bytes ++ rest)) := by
      rw [List.flatMap_cons, List.append_assoc]
    have hmem2 : pre ++ (channel_bytes e ++ (es.flatMap channel_bytes ++ rest)) =
        (pre ++ channel_bytes e) ++ (es.flatMap channel_bytes ++ rest) := by
      rw [List.append_assoc]
    obtain ⟨hb, ev, hev, htr, hof, hpat⟩ := read_plain_event p ch off pre e
      (es.flatMap channel_bytes ++ rest) (hc e (List.mem_cons_self _ _))
    rw [hmem, decompress_track_plain_step f' p ch off _ _ pre.length e.data0 ev (by omega) hb
        hev (hc e (List.mem_cons_self _ _)), hof, htr, hpat]
    cases es with
    | nil =>
      rw [if_pos (by simp)]
      simp [store_events]
    | cons e2 es2 =>
      rw [if_neg (by simp)]
      have h := ih f' (store_event p ch off e) (off + 1) (pre ++ channel_bytes e) rest
        (fun x hx => hc x (List.mem_cons_of_mem _ hx)) (by simp) (by omega) (by omega)
      rw [List.length_append] at h
      rw [hmem2]
      simp only [List.length_cons, Nat.add_sub_cancel] at h ⊢
      rw [h]
      simp only [store_events]
      congr 2
      omega

theorem store_event_frame (p : p61a_pattern_t) (ch off : Nat) (e : p61a_channel_t) (r c : Nat)
    (h : r ≠ off ∨ c ≠ ch) : store_event p ch off e r c = p r c := by
  have hstore : ∀ E : p61a_channel_t, store_row p off ch E r c = p r c := by
    intro E
    unfold store_row
    rw [if_neg (by intro hh; rcases h with h | h; exact h hh.1; exact h hh.2)]
  unfold store_event
  cases p61a_shape_of e.data0 <;> simp only [hstore]

/-- The rows `store_events` writes: outside rows `off .. off + n - 1` of the
column nothing changes, and row `off + k` takes the `k`-th event. -/
theorem store_events_rows (ch : Nat) (evs : List p61a_channel_t) :
    ∀ (p : p61a_pattern_t) (off : Nat),
      (∀ r c, (r < off ∨ off + evs.length ≤ r ∨ c ≠ ch) → store_events p ch off evs r c = p r c) ∧
      ∀ k e, evs[k]? = some e →
        store_events p ch off evs (off + k) ch = store_event p ch (off + k) e (off + k) ch := by
  induction evs with
  | nil =>
    intro p off
    exact ⟨fun _ _ _ => rfl, fun k e hk => by simp at hk⟩
  | cons x xs ih =>
    intro p off
    obtain ⟨h1, h2⟩ := ih (store_event p ch off x) (off + 1)
    simp only [List.length_cons] 
    refine ⟨fun r c hr => ?_, fun k e hk => ?_⟩
    · simp only [store_events]
      rw [h1 r c (by omega), store_event_frame p ch off x r c (by omega)]
    · simp only [store_events]
      cases k with
      | zero =>
        simp only [List.getElem?_cons_zero, Option.some.injEq] at hk
        subst hk
        simp only [Nat.add_zero]
        rw [h1 off ch (Or.inl (by omega))]
      | succ k =>
        simp only [List.getElem?_cons_succ] at hk
        have e1 : off + (k + 1) = off + 1 + k := by omega
        rw [e1, h2 k e hk]
        have hq : store_event p ch off x (off + 1 + k) ch = p (off + 1 + k) ch :=
          store_event_frame p ch off x _ _ (Or.inl (by omega))
        generalize store_event p ch off x = q at hq
        have hs : ∀ E : p61a_channel_t, store_row q (off + 1 + k) ch E
            (off + 1 + k) ch = store_row p (off + 1 + k) ch E (off + 1 + k) ch := by
          intro E
          unfold store_row
          rw [if_pos ⟨rfl, rfl⟩, if_pos ⟨rfl, rfl⟩]
        unfold store_event
        cases p61a_shape_of e.data0 <;> simp only [hs]
        exact hq

/-- Reading an event other than the empty one moves the cursor on by one. -/
theorem read_event_offset_nonempty (p : p61a_pattern_t) (ch off : Nat) (mem : List Nat)
    (t c0 : Nat) (ev : read_event_t) (h : read_event p ch off mem t c0 = .ok ev)
    (hs : p61a_shape_of c0 ≠ .empty) : ev.offset = off + 1 := by
  have h1 : ¬ c0 &&& CHANNEL_EMPTY = CHANNEL_EMPTY := by
    intro hh
    apply hs
    unfold p61a_shape_of
    rw [if_pos hh]
  unfold read_event at h
  rw [if_neg h1] at h
  split_ifs at h
  · cases hb : read_byte mem t with
    | error e => rw [hb] at h; exact Except.noConfusion h
    | ok c1 =>
      rw [hb] at h
      simp only [Except.ok.injEq] at h
      rw [← h]
  · cases hb : read_byte mem t with
    | error e => rw [hb] at h; exact Except.noConfusion h
    | ok c1 =>
      rw [hb] at h
      simp only [Except.ok.injEq] at h
      rw [← h]
  · cases hb : read_byte mem t with
    | error e => rw [hb] at h; exact Except.noConfusion h
    | ok c1 =>
      rw [hb] at h
      simp only [] at h
      cases hb2 : read_byte mem (t + 1) with
      | error e => rw [hb2] at h; exact Except.noConfusion h
      | ok c2 =>
        rw [hb2] at h
        simp only [Except.ok.injEq] at h
        rw [← h]

/-- C31, amended: a back-reference to directive-free data. An event read at
row `off` carries the compression bit and is followed by a back-reference
with count field n and distance `dist`; `t1` is the position of the byte
behind the directive and `ev.offset` the row cursor behind the event: `off + 1`
for an event other than the empty one, `off` for the empty event, which does
not move the cursor. If the n + 1 events `evs` standing at position
`t1 - dist` all have the compression bit clear and `ev.offset + (n + 1) ≤ 64`,
then `decompress_track` stores these events in rows
`ev.offset .. ev.offset + n` as `store_events` writes them inline, which is
also what decoding their bytes alone gives, and continues with the byte
behind the directive at row `ev.offset + n + 1`, unless its own row budget
ends there. Nothing else changes, and row `ev.offset + k` is what
`store_event` leaves of the `k`-th event: its bytes, or the row as it was for
an empty event. The arguments `deref` and `base` of the C function only feed
the log and are no parameters of the model. -/
theorem back_reference_to_plain_events (f : Nat) (p : p61a_pattern_t) (ch off m : Nat)
    (mem : List Nat) (t c0 : Nat) (ev : read_event_t) (d0 dist t1 : Nat)
    (pre rest : List Nat) (evs : List p61a_channel_t) (hoff : off < 64)
    (hb : read_byte mem t = .ok c0) (hev : read_event p ch off mem (t + 1) c0 = .ok ev)
    (hcomp : c0 &&& CHANNEL_COMPRESSED ≠ 0) (hd : read_byte mem ev.track = .ok d0)
    (hj : d0 &&& COMPRESSION_JUMP ≠ 0)
    (hdist : read_distance mem (ev.track + 1) d0 = .ok (dist, t1)) (hle : dist ≤ t1)
    (hmem : mem = pre ++ (evs.flatMap channel_bytes ++ rest)) (hpre : pre.length = t1 - dist)
    (hcount : evs.length = (d0 &&& COMPRESSION_DATA_BITS) + 1)
    (hplain : ∀ e ∈ evs, e.data0 &&& CHANNEL_COMPRESSED = 0)
    (hrows : ev.offset + evs.length ≤ 64) (hfuel : evs.length ≤ f) :
    ev.offset = (if p61a_shape_of c0 = .empty then off else off + 1) ∧
    decompress_track f ev.pattern ch ev.offset evs.length (evs.flatMap channel_bytes) 0 =
      .ok (store_events ev.pattern ch ev.offset evs, ev.offset + evs.length) ∧
    decompress_track (f + 1) p ch off m mem t =
      (if m = 1 then .ok (store_events ev.pattern ch ev.offset evs, ev.offset + evs.length)
       else decompress_track f (store_events ev.pattern ch ev.offset evs) ch
         (ev.offset + evs.length) (m - 1) mem t1) ∧
    (∀ r c, (r < ev.offset ∨ ev.offset + evs.length ≤ r ∨ c ≠ ch) →
      store_events ev.pattern ch ev.offset evs r c = ev.pattern r c) ∧
    (∀ k e, evs[k]? = some e →
      store_events ev.pattern ch ev.offset evs (ev.offset + k) ch =
        store_event ev.pattern ch (ev.offset + k) e (ev.offset + k) ch) := by
  have hne : evs ≠ [] := by
    intro h
    rw [h] at hcount
    simp at hcount
  have hplain' : ∀ e ∈ evs, e.data0 &&& 0x80 = 0 := hplain
  refine ⟨?_, ?_, ?_, (store_events_rows ch evs ev.pattern ev.offset).1,
    (store_events_rows ch evs ev.pattern ev.offset).2⟩
  · by_cases hs : p61a_shape_of c0 = .empty
    · rw [if_pos hs]
      rw [read_event_empty p ch off mem (t + 1) c0 hs] at hev
      have hev' := Except.ok.inj hev
      rw [← hev']
      exact if_neg hcomp
    · rw [if_neg hs]
      exact read_event_offset_nonempty p ch off mem (t + 1) c0 ev hev hs
  · have h := decode_plain_events ch evs f ev.pattern ev.offset [] [] hplain' hne hrows hfuel
    simpa using h
  · have h := decode_plain_events ch evs f ev.pattern ev.offset pre rest hplain' hne hrows hfuel
    rw [← hmem, hpre, hcount] at h
    rw [decompress_track_jump_step f p ch off m mem t c0 ev d0 dist t1 hoff hb hev hcomp hd hj
      hdist hle]
    have h' : decompress_track f ev.pattern ch ev.offset ((d0 &&& 0x3f) + 1) mem (t1 - dist) =
        .ok (store_events ev.pattern ch ev.offset evs, ev.offset + evs.length) := by
      rw [hcount]; exact h
    simp only [h']

/-- C31 at the stream 60 05 E0 07 40 06 7F: the event E0 07 at position 2 is
read at row 1 and followed by a back-reference with n = 0 and distance 6 to
the event 60 05 at position 0, which goes to row 2; decoding continues at
position 6 and row 3. -/
theorem back_reference_to_plain_events_witness :
    (store_row p61a_pattern_zero 1 0 ⟨0xe0, 0x07, 0⟩ 1 0 = ⟨0xe0, 0x07, 0⟩ ∧
      store_events (store_row p61a_pattern_zero 1 0 ⟨0xe0, 0x07, 0⟩) 0 2 [⟨0x60, 0x05, 0⟩] 2 0 =
        ⟨0x60, 0x05, 0⟩) ∧
    (2 = (if p61a_shape_of 0xe0 = .empty then 1 else 1 + 1) ∧
    decompress_track 3 (store_row p61a_pattern_zero 1 0 ⟨0xe0, 0x07, 0⟩) 0 2
        [(⟨0x60, 0x05, 0⟩ : p61a_channel_t)].length
        ([(⟨0x60, 0x05, 0⟩ : p61a_channel_t)].flatMap channel_bytes) 0 =
      .ok (store_events (store_row p61a_pattern_zero 1 0 ⟨0xe0, 0x07, 0⟩) 0 2 [⟨0x60, 0x05, 0⟩],
        2 + [(⟨0x60, 0x05, 0⟩ : p61a_channel_t)].length) ∧
    decompress_track (3 + 1) p61a_pattern_zero 0 1 0 [0x60, 0x05, 0xe0, 0x07, 0x40, 0x06, 0x7f] 2 =
      (if 0 = 1 then
        .ok (store_events (store_row p61a_pattern_zero 1 0 ⟨0xe0, 0x07, 0⟩) 0 2 [⟨0x60, 0x05, 0⟩],
          2 + [(⟨0x60, 0x05, 0⟩ : p61a_channel_t)].length)
       else decompress_track 3
         (store_events (store_row p61a_pattern_zero 1 0 ⟨0xe0, 0x07, 0⟩) 0 2 [⟨0x60, 0x05, 0⟩]) 0
         (2 + [(⟨0x60, 0x05, 0⟩ : p61a_channel_t)].length) (0 - 1)
         [0x60, 0x05, 0xe0, 0x07, 0x40, 0x06, 0x7f] 6)) :=
  ⟨⟨rfl, rfl⟩,
    let h := back_reference_to_plain_events 3 p61a_pattern_zero 0 1 0
      [0x60, 0x05, 0xe0, 0x07, 0x40, 0x06, 0x7f] 2 0xe0
      ⟨⟨0xe0, 0x07, 0⟩, store_row p61a_pattern_zero 1 0 ⟨0xe0, 0x07, 0⟩, 2, 4⟩ 0x40 6 6
      [] [0xe0, 0x07, 0x40, 0x06, 0x7f] [⟨0x60, 0x05, 0⟩]
      (by decide) rfl rfl (by decide) rfl (by decide) rfl (by decide) rfl rfl rfl
      (by decide) (by decide) (by decide)
    ⟨h.1, h.2.1, h.2.2.1⟩⟩

/-- C31 fails behind the empty event: in the stream 60 05 FF 40 05 FF 3E the
empty event FF at position 2 is read at row r = 1 and followed by a
back-reference with n = 0 and distance 5 to the event 60 05 at position 0,
which has no compression bit, and r + 1 + (n + 1) = 3 is at most 64. The
event is stored in row 1, not in row r + 1 = 2, which stays zero, and the
cursor behind it is 2, not r + n + 2 = 3. -/
theorem back_reference_behind_empty_event :
    read_byte [0x60, 0x05, 0xff, 0x40, 0x05, 0xff, 0x3e] 2 = .ok 0xff ∧
    0xff &&& CHANNEL_COMPRESSED ≠ 0 ∧
    read_byte [0x60, 0x05, 0xff, 0x40, 0x05, 0xff, 0x3e] 3 = .ok 0x40 ∧
    0x40 &&& COMPRESSION_JUMP ≠ 0 ∧ 0x40 &&& COMPRESSION_DATA_BITS = 0 ∧
    read_distance [0x60, 0x05, 0xff, 0x40, 0x05, 0xff, 0x3e] 4 0x40 = .ok (5, 5) ∧
    plain_run [0x60, 0x05, 0xff, 0x40, 0x05, 0xff, 0x3e] (5 - 5) (0 + 1) = true ∧
    1 + 1 + (0 + 1) ≤ 64 ∧
    ∃ p1, decompress_track 2 p61a_pattern_zero 0 1 1
        [0x60, 0x05, 0xff, 0x40, 0x05, 0xff, 0x3e] 2 = .ok (p1, 2) ∧
      p1 1 0 = ⟨0x60, 0x05, 0⟩ ∧ p1 2 0 = ⟨0, 0, 0⟩ ∧ p1 2 0 ≠ ⟨0x60, 0x05, 0⟩ ∧
      2 ≠ 1 + 0 + 2 ∧
      ∃ p2, decompress_track 4 p61a_pattern_zero 0 0 0
          [0x60, 0x05, 0xff, 0x40, 0x05, 0xff, 0x3e] 0 = .ok (p2, 64) ∧
        p2 0 0 = ⟨0x60, 0x05, 0⟩ ∧ p2 1 0 = ⟨0x60, 0x05, 0⟩ ∧ p2 2 0 = ⟨0, 0, 0⟩ :=
  ⟨rfl, by decide, rfl, by decide, by decide, rfl, by decide, by decide,
    _, rfl, rfl, rfl, by decide, by decide, _, rfl, rfl, rfl, rfl⟩

/-! ## Reading what `write_song` wrote -/

end Modpack
